import Mathlib

/-!
# Verification of the fctl deployment workspace manager and sanitization engine

Shallow embedding of the core of `Facets-cloud/fctl`:

* `cmd/common.go`       — `cleanupOldReleases` (retention pruning)
* `pkg/utils/utils.go`  — `ExtractZip`, `IsZipDifferentFromDir`,
  `ExtractDeploymentID`, `CleanExportedFiles` and its helpers
  (`fixModuleVariables`, `fixLevel2MainTf`, `cleanupTerraformFiles`,
  `cleanCloudTagsOutput`, `cleanBlueprintSelfVariablesOutput`)
* `cmd/export_all.go`   — `consolidateModules`, `areFilesIdentical`
* `cmd/apply.go` / `cmd/plan.go` — latest-state persistence and resolution

Files are byte strings modelled as `List Nat`; directories and trees are
association lists from path to content.  HCL files are modelled at the level
hclwrite exposes them to this program: an ordered list of top-level items,
each an attribute (name plus the lexed token strings of its expression) or a
block (type, labels, ordered body of attributes and opaque nested blocks).
Equality of the model is byte identity of the serialized file: the program
only ever writes files it has parsed and mutated through hclwrite, which
preserves all unmodified tokens, and every injected expression is recorded
here in its lexed form.
-/

set_option maxHeartbeats 1000000

namespace Fctl

/-! ## Byte strings and association lists -/

/-- File contents as byte strings. -/
abbrev Bytes := List Nat

/-- Look up a key in an association list (first match wins, like a Go map
read after unique inserts). -/
def alookup {β : Type} (l : List (String × β)) (k : String) : Option β :=
  match l with
  | [] => none
  | p :: rest => if p.1 = k then some p.2 else alookup rest k

/-- Insert or overwrite a binding; used to model writing a file at a path. -/
def aset {β : Type} (l : List (String × β)) (k : String) (v : β) :
    List (String × β) :=
  match l with
  | [] => [(k, v)]
  | p :: rest => if p.1 = k then (k, v) :: rest else p :: aset rest k v

theorem alookup_aset_self {β : Type} (l : List (String × β)) (k : String)
    (v : β) : alookup (aset l k v) k = some v := by
  induction l with
  | nil => simp [aset, alookup]
  | cons p rest ih =>
    by_cases h : p.1 = k
    · simp [aset, h, alookup]
    · simp only [aset, if_neg h]
      simpa [alookup, h] using ih

theorem alookup_aset_other {β : Type} (l : List (String × β)) (k k' : String)
    (v : β) (hne : k' ≠ k) : alookup (aset l k v) k' = alookup l k' := by
  induction l with
  | nil => simp [aset, alookup, Ne.symm hne]
  | cons p rest ih =>
    by_cases h : p.1 = k
    · simp [aset, h, alookup, Ne.symm hne]
    · simp only [aset, if_neg h]
      by_cases h2 : p.1 = k'
      · simp [alookup, h2]
      · simpa [alookup, h2] using ih

/-! ## Retention pruning — `cleanupOldReleases` (cmd/common.go)

`cleanupOldReleases` reads the environment directory, collects subdirectory
names, sorts them with `sort.Strings` (lexicographic), and if more than 10
remain deletes `dirs[:len(dirs)-10]`.  The same is then done for zip files in
the base directory whose names match `[a-fA-F0-9\-]{36}\.zip$`.

`sortStrings` (an insertion sort) models `sort.Strings`: any comparison sort
produces the unique sorted permutation of the names under Go's byte-wise
lexicographic string order, modelled here as the lexicographic order on the
character sequence (UTF-8 byte order and code-point order agree). -/

/-- The comparison key of a Go string: its character sequence. -/
def strKey (s : String) : List Char := s.toList

/-- Go's `s < t` / `s <= t` on strings, as used by `sort.Strings`. -/
def strLe (a b : String) : Prop := strKey a ≤ strKey b

/-- Strict version of `strLe`. -/
def strLt (a b : String) : Prop := strKey a < strKey b

instance : DecidableRel strLe := fun a b => by unfold strLe; infer_instance

instance : DecidableRel strLt := fun a b => by unfold strLt; infer_instance

theorem strKey_inj {a b : String} (h : strKey a = strKey b) : a = b := by
  cases a; cases b
  exact congrArg String.mk (by simpa [strKey, String.toList] using h)

/-- Insert a string into a lexicographically sorted list. -/
def sortInsert (x : String) : List String → List String
  | [] => [x]
  | y :: ys => if strLe x y then x :: y :: ys else y :: sortInsert x ys

/-- Sorting as performed by `sort.Strings`. -/
def sortStrings : List String → List String
  | [] => []
  | x :: xs => sortInsert x (sortStrings xs)

/-- Keep the last 10 entries of a sorted listing, as `cleanupOldReleases`
does (`if len > 10 { delete sorted[:len-10] }`). -/
def keepLast10 (sorted : List String) : List String :=
  if sorted.length > 10 then sorted.drop (sorted.length - 10) else sorted

/-- The names deleted by the same step. -/
def dropOld (sorted : List String) : List String :=
  if sorted.length > 10 then sorted.take (sorted.length - 10) else []

/-- Names kept by the directory half of `cleanupOldReleases`: sort, then if
more than 10 exist drop all but the last 10 (`dirs[:len(dirs)-10]` are
deleted). -/
def cleanupKept (dirs : List String) : List String :=
  keepLast10 (sortStrings dirs)

/-- Directory names deleted by `cleanupOldReleases`. -/
def cleanupDeleted (dirs : List String) : List String :=
  dropOld (sortStrings dirs)

/-- Character class of the zip retention pattern `[a-fA-F0-9\-]`. -/
def isHexDashChar (c : Char) : Bool :=
  (decide ('a' ≤ c) && decide (c ≤ 'f')) ||
  (decide ('A' ≤ c) && decide (c ≤ 'F')) ||
  (decide ('0' ≤ c) && decide (c ≤ '9')) || (c == '-')

/-- `regexp.MatchString` for the unanchored pattern
`[a-fA-F0-9\-]{36}\.zip$`: the name ends in `.zip` and the 36 characters
immediately before `.zip` are all in the class. -/
def matchesZipPattern (name : String) : Bool :=
  let cs := name.toList
  decide (4 + 36 ≤ cs.length) &&
    (cs.reverse.take 4 == [ 'p', 'i', 'z', '.' ]) &&
    ((cs.reverse.drop 4).take 36).all isHexDashChar

/-- The zip half of `cleanupOldReleases`: filter base-directory file names by
the pattern, sort, keep the last 10. -/
def cleanupKeptZips (files : List String) : List String :=
  keepLast10 (sortStrings (files.filter matchesZipPattern))

theorem strLe_trans {a b c : String} (h1 : strLe a b) (h2 : strLe b c) :
    strLe a c := le_trans h1 h2

theorem strLe_of_not_strLe {a b : String} (h : ¬ strLe a b) : strLe b a :=
  le_of_not_le h

theorem strLe_antisymm {a b : String} (h1 : strLe a b) (h2 : strLe b a) :
    a = b := strKey_inj (le_antisymm h1 h2)

theorem strLe_of_strLt {a b : String} (h : strLt a b) : strLe a b :=
  le_of_lt h

theorem mem_sortInsert (b x : String) (l : List String) :
    b ∈ sortInsert x l ↔ b = x ∨ b ∈ l := by
  induction l with
  | nil => simp [sortInsert]
  | cons y ys ih =>
    by_cases hxy : strLe x y
    · simp [sortInsert, hxy]
    · simp only [sortInsert, if_neg hxy, List.mem_cons, ih]
      tauto

theorem sortInsert_sorted (x : String) (l : List String)
    (h : l.Sorted strLe) : (sortInsert x l).Sorted strLe := by
  induction l with
  | nil => simp [sortInsert]
  | cons y ys ih =>
    have hy := List.sorted_cons.1 h
    by_cases hxy : strLe x y
    · simp only [sortInsert, if_pos hxy]
      refine List.sorted_cons.2 ⟨?_, h⟩
      intro b hb
      rcases List.mem_cons.1 hb with rfl | hb
      · exact hxy
      · exact strLe_trans hxy (hy.1 b hb)
    · simp only [sortInsert, if_neg hxy]
      refine List.sorted_cons.2 ⟨?_, ih hy.2⟩
      intro b hb
      rcases (mem_sortInsert b x ys).1 hb with rfl | hb
      · exact strLe_of_not_strLe hxy
      · exact hy.1 b hb

theorem sortStrings_sorted (l : List String) :
    (sortStrings l).Sorted strLe := by
  induction l with
  | nil => simp [sortStrings]
  | cons x xs ih => exact sortInsert_sorted x _ ih

/-- Sorting a list that is already sorted is the identity. -/
theorem sortStrings_eq_self (l : List String) (h : l.Sorted strLt) :
    sortStrings l = l := by
  induction l with
  | nil => rfl
  | cons x xs ih =>
    have hx := List.sorted_cons.1 h
    rw [sortStrings, ih hx.2]
    cases xs with
    | nil => rfl
    | cons y ys =>
      have hxy : strLe x y := strLe_of_strLt (hx.1 y (by simp))
      simp [sortInsert, hxy]

theorem mem_sortStrings (b : String) (l : List String) :
    b ∈ sortStrings l ↔ b ∈ l := by
  induction l with
  | nil => simp [sortStrings]
  | cons x xs ih => simp [sortStrings, mem_sortInsert, ih]

/-- A lexicographic maximum of the listing survives `keepLast10`. -/
theorem mem_keepLast10_of_max (l : List String) (d : String)
    (hm : d ∈ l) (hmax : ∀ x ∈ l, strLe x d) :
    d ∈ keepLast10 (sortStrings l) := by
  have hsort := sortStrings_sorted l
  have hmem : d ∈ sortStrings l := (mem_sortStrings d l).2 hm
  unfold keepLast10
  by_cases hlen : (sortStrings l).length > 10
  · simp only [if_pos hlen]
    set s := sortStrings l with hs
    have hsplit : s.take (s.length - 10) ++ s.drop (s.length - 10) = s :=
      List.take_append_drop _ s
    have hcases : d ∈ s.take (s.length - 10) ∨ d ∈ s.drop (s.length - 10) := by
      rw [← hsplit] at hmem
      exact List.mem_append.1 hmem
    rcases hcases with hcase | hcase
    · have hlen2 : (s.drop (s.length - 10)).length = 10 := by
        rw [List.length_drop]; omega
      obtain ⟨y, ys, hy⟩ : ∃ y ys, s.drop (s.length - 10) = y :: ys := by
        cases hdrop : s.drop (s.length - 10) with
        | nil => rw [hdrop] at hlen2; simp at hlen2
        | cons a as => exact ⟨a, as, rfl⟩
      have hpair : ∀ a ∈ s.take (s.length - 10),
          ∀ b ∈ s.drop (s.length - 10), strLe a b := by
        have hp : (s.take (s.length - 10) ++
            s.drop (s.length - 10)).Pairwise strLe := by
          rw [hsplit]; exact hsort
        exact fun a ha b hb => (List.pairwise_append.1 hp).2.2 a ha b hb
      have h1 : strLe d y := hpair d hcase y (by rw [hy]; simp)
      have h2 : strLe y d := by
        refine hmax y ((mem_sortStrings y l).1 ?_)
        exact List.drop_subset _ s (by rw [hy]; simp)
      have heq : y = d := strLe_antisymm h2 h1
      rw [hy, heq]
      simp
    · exact hcase
  · simpa [if_neg hlen] using hmem

/-! ### Claims C4 and C5 -/

/-- Eleven deployment-directory names in an environment directory, the
current deployment being the lexicographically smallest. -/
def elevenDeployDirs : List String :=
  ["0a0a0a0a-0000-4000-8000-000000000000",
   "1b1b1b1b-0001-4000-8000-000000000001",
   "2c2c2c2c-0002-4000-8000-000000000002",
   "3d3d3d3d-0003-4000-8000-000000000003",
   "4e4e4e4e-0004-4000-8000-000000000004",
   "5f5f5f5f-0005-4000-8000-000000000005",
   "6a6a6a6a-0006-4000-8000-000000000006",
   "7b7b7b7b-0007-4000-8000-000000000007",
   "8c8c8c8c-0008-4000-8000-000000000008",
   "9d9d9d9d-0009-4000-8000-000000000009",
   "9e9e9e9e-0010-4000-8000-000000000010"]

/-- C4, counterexample.  `cleanupOldReleases` sorts the environment
directory's subdirectory names and deletes all but the 10 largest with no
regard for the deployment currently being operated on: with 11 deployment
directories present and the current deployment the lexicographic minimum,
the current Workspace directory is deleted. -/
theorem claim_C4_counterexample :
    "0a0a0a0a-0000-4000-8000-000000000000" ∈ elevenDeployDirs ∧
    "0a0a0a0a-0000-4000-8000-000000000000" ∉
      cleanupKept elevenDeployDirs := by
  constructor
  · simp [elevenDeployDirs]
  · decide

/-- C4, amended: retention pruning preserves the Workspace directory and the
zip artifact of the deployment being operated on provided its identifier is
the lexicographic maximum of the listing (deployment identifiers are
time-ordered, so the deployment being operated on is normally the newest);
in general only the 10 lexicographically largest names survive. -/
theorem claim_C4_amended (dirs files : List String) (d z : String)
    (hmem : d ∈ dirs) (hmax : ∀ x ∈ dirs, strLe x d)
    (hzmem : z ∈ files) (hzmatch : matchesZipPattern z = true)
    (hzmax : ∀ x ∈ files.filter matchesZipPattern, strLe x z) :
    d ∈ cleanupKept dirs ∧ z ∈ cleanupKeptZips files := by
  constructor
  · exact mem_keepLast10_of_max dirs d hmem hmax
  · exact mem_keepLast10_of_max (files.filter matchesZipPattern) z
      (List.mem_filter.2 ⟨hzmem, hzmatch⟩) hzmax

theorem claim_C4_witness :
    ("9e9e9e9e-0010-4000-8000-000000000010" ∈ elevenDeployDirs ∧
      (∀ x ∈ elevenDeployDirs,
        strLe x "9e9e9e9e-0010-4000-8000-000000000010") ∧
      "9e9e9e9e-0010-4000-8000-000000000010.zip" ∈
        ["9e9e9e9e-0010-4000-8000-000000000010.zip"] ∧
      matchesZipPattern "9e9e9e9e-0010-4000-8000-000000000010.zip" = true) ∧
    "9e9e9e9e-0010-4000-8000-000000000010" ∈ cleanupKept elevenDeployDirs ∧
    "9e9e9e9e-0010-4000-8000-000000000010.zip" ∈
      cleanupKeptZips ["9e9e9e9e-0010-4000-8000-000000000010.zip"] :=
  ⟨⟨by decide, by decide, by decide, by decide⟩,
    claim_C4_amended elevenDeployDirs
      ["9e9e9e9e-0010-4000-8000-000000000010.zip"]
      "9e9e9e9e-0010-4000-8000-000000000010"
      "9e9e9e9e-0010-4000-8000-000000000010.zip"
      (by decide) (by decide) (by decide) (by decide) (by decide)⟩

/-- C5.  With 15 Workspace directories in increasing lexicographic order,
`cleanupOldReleases` deletes exactly the 5 smallest and keeps exactly the 10
largest; zip files matching the identifier pattern receive the same 10-item
retention (keep the 10 lexicographically largest matching names). -/
theorem claim_C5_retention_bound (dirs : List String)
    (h15 : dirs.length = 15) (hsorted : dirs.Sorted strLt) :
    cleanupKept dirs = dirs.drop 5 ∧
    cleanupDeleted dirs = dirs.take 5 ∧
    (cleanupKept dirs).length = 10 ∧
    (∀ files : List String,
      cleanupKeptZips files = cleanupKept (files.filter matchesZipPattern)) := by
  have hsort : sortStrings dirs = dirs := sortStrings_eq_self dirs hsorted
  refine ⟨?_, ?_, ?_, fun files => rfl⟩
  · simp [cleanupKept, keepLast10, hsort, h15]
  · simp [cleanupDeleted, dropOld, hsort, h15]
  · simp [cleanupKept, keepLast10, hsort, h15]

/-- Fifteen deployment directory names in increasing lexicographic order. -/
def fifteenDeployDirs : List String :=
  ["d00", "d01", "d02", "d03", "d04", "d05", "d06", "d07", "d08", "d09",
   "d10", "d11", "d12", "d13", "d14"]

/-! ## Content differ and extraction — `ExtractZip`, `IsZipDifferentFromDir`
(pkg/utils/utils.go)

A zip archive is a list of entries in archive order; a directory is an
association list of relative file paths to byte contents.  `ExtractZip`
opens each non-directory entry and writes it at its path with
`O_CREATE|O_TRUNC` (later duplicate entries overwrite earlier ones);
directory entries only create directories, which the file map leaves
implicit.  `IsZipDifferentFromDir` builds a map of the non-directory
entries (later duplicates overwrite), hashes the directory files whose
relative path is listed in that map, and reports different iff some listed
file is missing in the directory or its hash differs.  SHA-256 is
collision-free for this purpose and is modelled as the identity on
contents. -/

/-- One zip entry, as exposed by `archive/zip`. -/
structure ZipEntry where
  name : String
  isDir : Bool
  content : Bytes
  deriving DecidableEq, Repr

/-- An archive: entries in archive order. -/
abbrev ZipFile := List ZipEntry

/-- A directory: relative path to file contents. -/
abbrev Dir := List (String × Bytes)

/-- Processing of one entry by `ExtractZip` (directory entries only make
directories; file entries are written with `O_CREATE|O_TRUNC`). -/
def entryStep (acc : Dir) (e : ZipEntry) : Dir :=
  if e.isDir then acc else aset acc e.name e.content

/-- Fold all entries over an initial directory. -/
def applyEntries (z : ZipFile) (init : Dir) : Dir :=
  z.foldl entryStep init

/-- `ExtractZip` writes every non-directory entry into the destination. -/
def ExtractZip (z : ZipFile) (dest : Dir) : Dir :=
  applyEntries z dest

/-- The `zipFiles` map built by `IsZipDifferentFromDir`: non-directory
entries keyed by name, later entries overwriting earlier ones. -/
def zipFilesMap (z : ZipFile) : List (String × Bytes) :=
  applyEntries z []

/-- SHA-256, modelled as an injective (collision-free) digest. -/
def fileHash (b : Bytes) : Bytes := b

/-- `IsZipDifferentFromDir`: true iff some file listed in the zip is
missing in the directory or has a different hash there.  Files in the
directory but not in the zip are ignored (the walk only hashes paths
present in `zipFiles`). -/
def IsZipDifferentFromDir (z : ZipFile) (d : Dir) : Bool :=
  (zipFilesMap z).any (fun nc =>
    match alookup d nc.1 with
    | none => true
    | some c => decide (fileHash c ≠ fileHash nc.2))

/-- The content of the last non-directory entry named `n`, if any. -/
def lastWrite (z : ZipFile) (n : String) : Option Bytes :=
  ((z.filter (fun e => !e.isDir && e.name == n)).getLast?).map
    (fun e => e.content)

theorem alookup_applyEntries (z : ZipFile) (init : Dir) (n : String) :
    alookup (applyEntries z init) n =
      match lastWrite z n with
      | some c => some c
      | none => alookup init n := by
  induction z generalizing init with
  | nil => simp [applyEntries, lastWrite]
  | cons e z ih =>
    have hstep : applyEntries (e :: z) init = applyEntries z (entryStep init e) := rfl
    rw [hstep, ih]
    by_cases hpred : (!e.isDir && e.name == n) = true
    · have hfilter : (e :: z).filter (fun e => !e.isDir && e.name == n) =
        e :: z.filter (fun e => !e.isDir && e.name == n) := by
        simp [List.filter_cons, hpred]
      have hname : e.name = n := by
        simp only [Bool.and_eq_true, beq_iff_eq] at hpred
        exact hpred.2
      have hnotdir : e.isDir = false := by
        simp only [Bool.and_eq_true, Bool.not_eq_true'] at hpred
        exact hpred.1
      cases hl : lastWrite z n with
      | some c =>
        have : lastWrite (e :: z) n = some c := by
          unfold lastWrite at hl ⊢
          rw [hfilter]
          cases hfl : z.filter (fun e => !e.isDir && e.name == n) with
          | nil => rw [hfl] at hl; simp at hl
          | cons a as =>
            rw [hfl] at hl
            rw [List.getLast?_cons_cons]
            exact hl
        rw [this]
      | none =>
        have : lastWrite (e :: z) n = some e.content := by
          unfold lastWrite at hl ⊢
          rw [hfilter]
          cases hfl : z.filter (fun e => !e.isDir && e.name == n) with
          | nil => simp
          | cons a as => rw [hfl] at hl; simp at hl
        rw [this]
        simp [entryStep, hnotdir, hname, alookup_aset_self]
    · have hfilter : (e :: z).filter (fun e => !e.isDir && e.name == n) =
        z.filter (fun e => !e.isDir && e.name == n) := by
        simp [List.filter_cons, hpred]
      have hlw : lastWrite (e :: z) n = lastWrite z n := by
        unfold lastWrite; rw [hfilter]
      rw [hlw]
      cases hl : lastWrite z n with
      | some c => rfl
      | none =>
        by_cases hdir : e.isDir
        · simp [entryStep, hdir]
        · have hname : e.name ≠ n := by
            simp only [Bool.and_eq_true, Bool.not_eq_true', beq_iff_eq] at hpred
            intro hcon
            exact hpred ⟨by simpa using hdir, hcon⟩
          simp [entryStep, hdir, alookup_aset_other init e.name n _ (Ne.symm hname)]

theorem alookup_mem {β : Type} (l : List (String × β)) (k : String) (v : β)
    (h : alookup l k = some v) : (k, v) ∈ l := by
  induction l with
  | nil => simp [alookup] at h
  | cons p rest ih =>
    by_cases hk : p.1 = k
    · simp only [alookup, if_pos hk] at h
      have : p = (k, v) := by
        cases p
        simp_all
      simp [this]
    · simp only [alookup, if_neg hk] at h
      exact List.mem_cons_of_mem _ (ih h)

/-- Keys of an association list are distinct. -/
def KeysNodup {β : Type} (l : List (String × β)) : Prop :=
  (l.map Prod.fst).Nodup

theorem mem_keys_aset {β : Type} (l : List (String × β)) (k k' : String)
    (v : β) : k' ∈ (aset l k v).map Prod.fst ↔
      k' ∈ l.map Prod.fst ∨ k' = k := by
  induction l with
  | nil => simp [aset]
  | cons p rest ih =>
    by_cases hk : p.1 = k
    · subst hk
      have ha : aset (p :: rest) p.1 v = (p.1, v) :: rest := by
        simp [aset]
      rw [ha]
      simp only [List.map_cons, List.mem_cons]
      tauto
    · simp only [aset, if_neg hk, List.map_cons, List.mem_cons, ih]
      tauto

theorem keysNodup_aset {β : Type} (l : List (String × β)) (k : String)
    (v : β) (h : KeysNodup l) : KeysNodup (aset l k v) := by
  induction l with
  | nil => simp [aset, KeysNodup]
  | cons p rest ih =>
    by_cases hk : p.1 = k
    · unfold KeysNodup at h ⊢
      simpa [aset, hk] using h
    · unfold KeysNodup at h ⊢
      simp only [aset, if_neg hk, List.map_cons, List.nodup_cons] at h ⊢
      refine ⟨?_, ih h.2⟩
      intro hcon
      rcases (mem_keys_aset rest k p.1 v).1 hcon with h2 | h2
      · exact h.1 h2
      · exact hk h2

theorem mem_alookup {β : Type} (l : List (String × β)) (k : String) (v : β)
    (hn : KeysNodup l) (h : (k, v) ∈ l) : alookup l k = some v := by
  induction l with
  | nil => simp at h
  | cons p rest ih =>
    rcases List.mem_cons.1 h with rfl | hmem
    · simp [alookup]
    · by_cases hk : p.1 = k
      · exfalso
        unfold KeysNodup at hn
        simp only [List.map_cons, List.nodup_cons] at hn
        exact hn.1 (hk ▸ (List.mem_map.2 ⟨(k, v), hmem, rfl⟩))
      · simp only [alookup, if_neg hk]
        exact ih (by
          unfold KeysNodup at hn ⊢
          simp only [List.map_cons, List.nodup_cons] at hn
          exact hn.2) hmem

theorem keysNodup_applyEntries (z : ZipFile) (init : Dir)
    (h : KeysNodup init) : KeysNodup (applyEntries z init) := by
  induction z generalizing init with
  | nil => exact h
  | cons e zs ih =>
    have : applyEntries (e :: zs) init = applyEntries zs (entryStep init e) := rfl
    rw [this]
    refine ih _ ?_
    unfold entryStep
    by_cases hdir : e.isDir
    · simpa [hdir] using h
    · simpa [hdir] using keysNodup_aset init e.name e.content h

theorem zipFilesMap_keysNodup (z : ZipFile) : KeysNodup (zipFilesMap z) :=
  keysNodup_applyEntries z [] (by simp [KeysNodup])

theorem alookup_zipFilesMap (z : ZipFile) (n : String) :
    alookup (zipFilesMap z) n = lastWrite z n := by
  have := alookup_applyEntries z [] n
  unfold zipFilesMap
  rw [this]
  cases lastWrite z n <;> simp [alookup]

theorem any_congr_mem {α : Type} (l : List α) (f g : α → Bool)
    (h : ∀ x ∈ l, f x = g x) : l.any f = l.any g := by
  induction l with
  | nil => rfl
  | cons x xs ih =>
    simp only [List.any_cons]
    rw [h x (by simp), ih (fun y hy => h y (by simp [hy]))]

/-- Every file listed in the archive has, after extraction, the content of
its last archive entry. -/
theorem alookup_ExtractZip_listed (z : ZipFile) (d : Dir) (n : String)
    (c : Bytes) (h : alookup (zipFilesMap z) n = some c) :
    alookup (ExtractZip z d) n = some c := by
  rw [alookup_zipFilesMap] at h
  unfold ExtractZip
  rw [alookup_applyEntries, h]

/-- A listed file whose directory copy differs makes the differ fire. -/
theorem differ_of_mutation (z : ZipFile) (d : Dir) (n : String)
    (c c' : Bytes) (hz : alookup (zipFilesMap z) n = some c)
    (hd : alookup d n = some c') (hne : c' ≠ c) :
    IsZipDifferentFromDir z d = true := by
  unfold IsZipDifferentFromDir
  refine List.any_eq_true.2 ⟨(n, c), alookup_mem _ _ _ hz, ?_⟩
  simp [hd, fileHash, hne]

/-- C2.  For every archive `A` and directory obtained by extracting `A`
over any initial directory: the differ reports no difference; mutating one
byte of a file listed in `A` and present in the directory makes it report a
difference; adding or changing a file not listed in `A` never makes it
report a difference. -/
theorem claim_C2_differ_extraction (z : ZipFile) (d0 : Dir) :
    IsZipDifferentFromDir z (ExtractZip z d0) = false ∧
    (∀ (n : String) (c : Bytes) (i : Nat) (b : Nat) (hi : i < c.length),
      alookup (zipFilesMap z) n = some c → c.get ⟨i, hi⟩ ≠ b →
      IsZipDifferentFromDir z
        (aset (ExtractZip z d0) n (c.set i b)) = true) ∧
    (∀ (n : String) (c' : Bytes),
      alookup (zipFilesMap z) n = none →
      IsZipDifferentFromDir z (aset (ExtractZip z d0) n c') = false) := by
  have hfalse : IsZipDifferentFromDir z (ExtractZip z d0) = false := by
    unfold IsZipDifferentFromDir
    rw [List.any_eq_false]
    rintro ⟨n, c⟩ hmem
    have hz : alookup (zipFilesMap z) n = some c :=
      mem_alookup _ _ _ (zipFilesMap_keysNodup z) hmem
    have hl := alookup_ExtractZip_listed z d0 n c hz
    simp [hl, fileHash]
  refine ⟨hfalse, ?_, ?_⟩
  · intro n c i b hi hz hb
    have hne : c.set i b ≠ c := by
      intro hcon
      apply hb
      have h1 : (c.set i b).get? i = c.get? i := by rw [hcon]
      rw [List.get?_eq_getElem?, List.get?_eq_getElem?,
        List.getElem?_set_self', List.getElem?_eq_getElem hi] at h1
      simp at h1
      simp [List.get_eq_getElem, h1]
    exact differ_of_mutation z _ n c (c.set i b) hz
      (alookup_aset_self _ _ _) hne
  · intro n c' hnone
    unfold IsZipDifferentFromDir
    rw [any_congr_mem _ _ (fun nc =>
      match alookup (ExtractZip z d0) nc.1 with
      | none => true
      | some c => decide (fileHash c ≠ fileHash nc.2))]
    · exact hfalse
    · rintro ⟨m, cm⟩ hmem
      have hz : alookup (zipFilesMap z) m = some cm :=
        mem_alookup _ _ _ (zipFilesMap_keysNodup z) hmem
      have hne : m ≠ n := by
        intro hcon
        rw [hcon] at hz
        rw [hnone] at hz
        exact Option.noConfusion hz
      simp only [alookup_aset_other _ _ _ _ hne]

/-! ## Deployment-identifier extraction — `ExtractDeploymentID`
(pkg/utils/utils.go 53-63)

`ExtractDeploymentID` takes `filepath.Base` of the zip path and matches it
against `^([a-fA-F0-9-]{24,36})\.zip$`, returning the captured token or an
error.  The same character class `[a-fA-F0-9-]` as the retention pattern is
reused. -/

/-- `filepath.Base`: the characters after the last `/`. -/
def baseNameChars (cs : List Char) : List Char :=
  (cs.reverse.takeWhile (fun c => c ≠ '/')).reverse

/-- Whether an `Except` carries a value. -/
def exceptIsOk {ε α : Type} : Except ε α → Bool
  | Except.ok _ => true
  | Except.error _ => false

/-- `ExtractDeploymentID` (pkg/utils/utils.go): regex
`^([a-fA-F0-9-]{24,36})\.zip$` on the base name. -/
def ExtractDeploymentID (zipPath : String) : Except String String :=
  let cs := baseNameChars zipPath.toList
  let stem := cs.take (cs.length - 4)
  if (cs.reverse.take 4 == ['p', 'i', 'z', '.']) &&
      decide (24 ≤ stem.length) && decide (stem.length ≤ 36) &&
      stem.all isHexDashChar then
    Except.ok (String.mk stem)
  else
    Except.error "invalid zip filename format, expected uuid.zip"

theorem takeWhile_append_stop {p : Char → Bool} (l1 l2 : List Char)
    (x : Char) (h1 : ∀ a ∈ l1, p a = true) (hx : p x = false) :
    (l1 ++ x :: l2).takeWhile p = l1 := by
  induction l1 with
  | nil => simp [List.takeWhile_cons, hx]
  | cons a as ih =>
    simp [List.takeWhile_cons, h1 a (by simp), ih
      (fun b hb => h1 b (by simp [hb]))]

theorem baseNameChars_append (dirCs rest : List Char)
    (h : ∀ a ∈ rest, (a ≠ '/' : Bool) = true) :
    baseNameChars (dirCs ++ '/' :: rest) = rest := by
  unfold baseNameChars
  rw [List.reverse_append, List.reverse_cons, List.append_assoc]
  simp only [List.singleton_append]
  rw [takeWhile_append_stop _ _ '/' (fun a ha => h a (by
    simpa using List.mem_reverse.1 ha)) (by simp)]
  simp

/-- C9, counterexample.  The older artifact naming form
`terraform-export-<env>-<deployment>-<timestamp>.zip` is rejected by
`ExtractDeploymentID`: its stem contains characters outside `[a-fA-F0-9-]`
(and is longer than 36 characters), so the regex does not match and an
error is returned, where the claim requires the identifier to be
extracted. -/
theorem claim_C9_counterexample :
    exceptIsOk (ExtractDeploymentID
      "terraform-export-env1-dep1-20240607-120000.zip") = false := by
  decide

/-- C9, amended: `ExtractDeploymentID` succeeds exactly on base names
`<deploymentID>.zip` where the identifier is a 24–36 character token over
`[a-fA-F0-9-]`, returning the identifier; a base name whose stem contains
any character outside that class — in particular the older
`terraform-export-<env>-<deployment>-<timestamp>.zip` form — is rejected
with an error. -/
theorem claim_C9_amended :
    (∀ dirCs stem : List Char, 24 ≤ stem.length → stem.length ≤ 36 →
      stem.all isHexDashChar = true →
      ExtractDeploymentID
        (String.mk (dirCs ++ '/' :: (stem ++ ['.', 'z', 'i', 'p']))) =
        Except.ok (String.mk stem)) ∧
    (∀ dirCs stem : List Char, ('/' : Char) ∉ stem →
      (∃ c ∈ stem, isHexDashChar c = false) →
      exceptIsOk (ExtractDeploymentID
        (String.mk (dirCs ++ '/' :: (stem ++ ['.', 'z', 'i', 'p'])))) =
        false) := by
  have hbase : ∀ (dirCs stem : List Char), ('/' : Char) ∉ stem →
      baseNameChars (String.mk (dirCs ++ '/' ::
        (stem ++ ['.', 'z', 'i', 'p']))).toList =
      stem ++ ['.', 'z', 'i', 'p'] := by
    intro dirCs stem hslash
    have : (String.mk (dirCs ++ '/' ::
        (stem ++ ['.', 'z', 'i', 'p']))).toList =
        dirCs ++ '/' :: (stem ++ ['.', 'z', 'i', 'p']) := rfl
    rw [this]
    refine baseNameChars_append dirCs _ (fun a ha => ?_)
    rcases List.mem_append.1 ha with ha | ha
    · simp only [decide_eq_true_eq]
      intro hcon
      exact hslash (hcon ▸ ha)
    · fin_cases ha <;> decide
  have hshape : ∀ stem : List Char,
      ((stem ++ ['.', 'z', 'i', 'p']).reverse.take 4 ==
        ['p', 'i', 'z', '.']) = true ∧
      (stem ++ ['.', 'z', 'i', 'p']).take
        ((stem ++ ['.', 'z', 'i', 'p']).length - 4) = stem := by
    intro stem
    constructor
    · rw [List.reverse_append]
      have : (['.', 'z', 'i', 'p'] : List Char).reverse =
        ['p', 'i', 'z', '.'] := rfl
      rw [this]
      rw [show (4 : Nat) = (['p', 'i', 'z', '.'] : List Char).length from rfl,
        List.take_left]
      simp
    · have hlen : (stem ++ ['.', 'z', 'i', 'p']).length - 4 = stem.length := by
        simp
      rw [hlen, List.take_left]
  constructor
  · intro dirCs stem h1 h2 h3
    have hslash : ('/' : Char) ∉ stem := by
      intro hcon
      have := List.all_eq_true.1 h3 '/' hcon
      simp [isHexDashChar] at this
    unfold ExtractDeploymentID
    rw [hbase dirCs stem hslash]
    rcases hshape stem with ⟨hs1, hs2⟩
    simp only [hs2, hs1, h3, Bool.and_true, Bool.true_and]
    simp [h1, h2]
  · intro dirCs stem hslash hbad
    obtain ⟨c, hc, hcbad⟩ := hbad
    unfold ExtractDeploymentID
    rw [hbase dirCs stem hslash]
    rcases hshape stem with ⟨hs1, hs2⟩
    simp only [hs2, hs1]
    have : stem.all isHexDashChar = false := by
      rw [List.all_eq_false]
      exact ⟨c, hc, by simp [hcbad]⟩
    simp [this, exceptIsOk]

/-- A 36-character identifier used to witness C9. -/
def uuidChars : List Char :=
  "9e9e9e9e-0010-4000-8000-000000000010".toList

theorem claim_C9_witness :
    (24 ≤ uuidChars.length ∧ uuidChars.length ≤ 36 ∧
      uuidChars.all isHexDashChar = true ∧
      ('t' : Char) ∈ "terraformToken".toList ∧
      isHexDashChar 't' = false ∧ ('/' : Char) ∉ "terraformToken".toList) ∧
    ExtractDeploymentID (String.mk ("downloads".toList ++ '/' ::
        (uuidChars ++ ['.', 'z', 'i', 'p']))) =
      Except.ok (String.mk uuidChars) ∧
    exceptIsOk (ExtractDeploymentID (String.mk ("downloads".toList ++ '/' ::
        ("terraformToken".toList ++ ['.', 'z', 'i', 'p'])))) = false :=
  ⟨⟨by decide, by decide, by decide, by decide, by decide, by decide⟩,
    claim_C9_amended.1 "downloads".toList uuidChars
      (by decide) (by decide) (by decide),
    claim_C9_amended.2 "downloads".toList "terraformToken".toList
      (by decide) ⟨'t', by decide, by decide⟩⟩

/-! ## Latest-state persistence — apply/plan (cmd/apply.go, cmd/plan.go)

After a successful apply with no backend, `runApply` copies the
deployment-scoped snapshot
`<deployDir>/tfexport/terraform.tfstate.d/<envID>/terraform.tfstate` to
`<envDir>/tf.tfstate` (apply.go 313-325).  `runPlan`, when no `--state`
flag and no backend are given, looks for `<envDir>/latest.tfstate` and
copies it into the new Workspace, else proceeds as a fresh deployment
(plan.go 196-212). -/

/-- Path where `runApply` persists the environment's latest snapshot. -/
def applyLatestStatePath (envDir : String) : String :=
  envDir ++ "/tf.tfstate"

/-- Path `runPlan` consults for a default snapshot. -/
def planLatestStatePath (envDir : String) : String :=
  envDir ++ "/latest.tfstate"

/-- The deployment-scoped snapshot path. -/
def deployStatePath (deployDir envID : String) : String :=
  deployDir ++ "/tfexport/terraform.tfstate.d/" ++ envID ++
    "/terraform.tfstate"

/-- The latest-state persistence step of `runApply` (no backend): if the
deployment-scoped snapshot exists, copy it to `<envDir>/tf.tfstate`. -/
def applyPersistLatest (fs : Dir) (envDir deployDir envID : String) : Dir :=
  match alookup fs (deployStatePath deployDir envID) with
  | some c => aset fs (applyLatestStatePath envDir) c
  | none => fs

/-- The default-state resolution of `runPlan` (no `--state`, no backend):
the content of `<envDir>/latest.tfstate` if present, else `none` (plan
proceeds as a fresh deployment). -/
def planResolveState (fs : Dir) (envDir : String) : Option Bytes :=
  alookup fs (planLatestStatePath envDir)

/-- C6, code bug.  `runApply` writes the environment-scoped latest snapshot
to `<envDir>/tf.tfstate` but `runPlan` defaults from
`<envDir>/latest.tfstate` — a filename mismatch, so a plan issued after a
successful apply never finds the persisted snapshot and proceeds as a fresh
deployment, contradicting the specified side effect. -/
theorem claim_C6_latest_state_mismatch (fs : Dir)
    (envDir deployDir envID : String) (c : Bytes)
    (hsnap : alookup fs (deployStatePath deployDir envID) = some c)
    (hnolatest : alookup fs (planLatestStatePath envDir) = none)
    (hne : planLatestStatePath envDir ≠ applyLatestStatePath envDir) :
    alookup (applyPersistLatest fs envDir deployDir envID)
        (applyLatestStatePath envDir) = some c ∧
    planResolveState (applyPersistLatest fs envDir deployDir envID)
        envDir = none := by
  unfold applyPersistLatest
  rw [hsnap]
  refine ⟨alookup_aset_self _ _ _, ?_⟩
  unfold planResolveState
  rw [alookup_aset_other _ _ _ _ hne]
  exact hnolatest

theorem claim_C6_witness :
    (alookup [(deployStatePath "/h/.facets/env1/dep1" "env1", [7, 8])]
        (deployStatePath "/h/.facets/env1/dep1" "env1") = some [7, 8] ∧
      alookup [(deployStatePath "/h/.facets/env1/dep1" "env1", [7, 8])]
        (planLatestStatePath "/h/.facets/env1") = none ∧
      planLatestStatePath "/h/.facets/env1" ≠
        applyLatestStatePath "/h/.facets/env1") ∧
    alookup (applyPersistLatest
        [(deployStatePath "/h/.facets/env1/dep1" "env1", [7, 8])]
        "/h/.facets/env1" "/h/.facets/env1/dep1" "env1")
      (applyLatestStatePath "/h/.facets/env1") = some [7, 8] ∧
    planResolveState (applyPersistLatest
        [(deployStatePath "/h/.facets/env1/dep1" "env1", [7, 8])]
        "/h/.facets/env1" "/h/.facets/env1/dep1" "env1")
      "/h/.facets/env1" = none :=
  ⟨⟨by decide, by decide, by decide⟩,
    (claim_C6_latest_state_mismatch _ "/h/.facets/env1"
      "/h/.facets/env1/dep1" "env1" [7, 8] (by decide) (by decide)
      (by decide)).1,
    (claim_C6_latest_state_mismatch _ "/h/.facets/env1"
      "/h/.facets/env1/dep1" "env1" [7, 8] (by decide) (by decide)
      (by decide)).2⟩

/-- Concrete archive used to witness C2 and C10. -/
def zipWit : ZipFile :=
  [⟨"tfexport/", true, []⟩,
   ⟨"tfexport/main.tf", false, [1, 2, 3]⟩,
   ⟨"deploymentcontext.json", false, [10]⟩]

/-- A pre-existing Workspace directory holding a carried-forward state
snapshot not listed in the archive. -/
def dirWit : Dir :=
  [("tfexport/terraform.tfstate.d/env1/terraform.tfstate", [42, 43])]

theorem claim_C2_witness :
    (alookup (zipFilesMap zipWit) "tfexport/main.tf" = some [1, 2, 3] ∧
      (0 : Nat) < 3 ∧
      alookup (zipFilesMap zipWit) "extra.bin" = none) ∧
    IsZipDifferentFromDir zipWit (ExtractZip zipWit dirWit) = false ∧
    IsZipDifferentFromDir zipWit
      (aset (ExtractZip zipWit dirWit) "tfexport/main.tf"
        (([1, 2, 3] : Bytes).set 0 9)) = true ∧
    IsZipDifferentFromDir zipWit
      (aset (ExtractZip zipWit dirWit) "extra.bin" [5]) = false :=
  ⟨⟨by decide, by decide, by decide⟩,
    (claim_C2_differ_extraction zipWit dirWit).1,
    (claim_C2_differ_extraction zipWit dirWit).2.1 "tfexport/main.tf"
      [1, 2, 3] 0 9 (by decide) (by decide) (by decide),
    (claim_C2_differ_extraction zipWit dirWit).2.2 "extra.bin" [5]
      (by decide)⟩

/-- C10.  `ExtractZip` writes exactly the files listed in the archive (each
ends with the content of its last archive entry) and leaves every path not
listed in the archive bound exactly as before — in particular a
carried-forward `tfexport/terraform.tfstate.d/<env>/terraform.tfstate`
snapshot not listed in the archive survives a re-extraction. -/
theorem claim_C10_extract_frame (z : ZipFile) (d : Dir) :
    (∀ (n : String) (c : Bytes), alookup (zipFilesMap z) n = some c →
      alookup (ExtractZip z d) n = some c) ∧
    (∀ p : String, alookup (zipFilesMap z) p = none →
      alookup (ExtractZip z d) p = alookup d p) := by
  refine ⟨fun n c h => alookup_ExtractZip_listed z d n c h, fun p h => ?_⟩
  rw [alookup_zipFilesMap] at h
  unfold ExtractZip
  rw [alookup_applyEntries, h]

theorem claim_C10_witness :
    (alookup (zipFilesMap zipWit)
        "tfexport/terraform.tfstate.d/env1/terraform.tfstate" = none) ∧
    alookup (ExtractZip zipWit dirWit)
        "tfexport/terraform.tfstate.d/env1/terraform.tfstate" =
      alookup dirWit
        "tfexport/terraform.tfstate.d/env1/terraform.tfstate" :=
  ⟨by decide,
    (claim_C10_extract_frame zipWit dirWit).2
      "tfexport/terraform.tfstate.d/env1/terraform.tfstate" (by decide)⟩

theorem claim_C5_witness :
    (fifteenDeployDirs.length = 15 ∧
      fifteenDeployDirs.Sorted strLt) ∧
    cleanupKept fifteenDeployDirs = fifteenDeployDirs.drop 5 ∧
    cleanupDeleted fifteenDeployDirs = fifteenDeployDirs.take 5 :=
  ⟨⟨by decide, by decide⟩,
    (claim_C5_retention_bound fifteenDeployDirs (by decide) (by decide)).1,
    (claim_C5_retention_bound fifteenDeployDirs (by decide) (by decide)).2.1⟩

/-! ## Module consolidation — `consolidateModules` (cmd/export_all.go)

For each environment whose export completed, `consolidateModules` walks the
environment's `modules` directory (skipping it when absent): a file whose
relative path is not yet in the registry is copied into the consolidated
tree and registered; a registered path is compared byte-for-byte with the
consolidated copy (`areFilesIdentical`) and a difference is logged as one
conflict, keeping the first version.  A walk error is logged and the loop
moves on, but `os.RemoveAll` removes the environment's `modules` directory
in every case, including after a failed walk.  Copy failures are modelled
by an explicit failure set: `copyFile` fails exactly on the listed
`(environment, relative path)` pairs, which aborts that walk at that
file. -/

/-- One environment's export outcome: name, final status, and its modules
directory as a walk-ordered file list (`none` when the directory does not
exist). -/
structure EnvExport where
  name : String
  status : String
  modulesDir : Option (List (String × Bytes))
  deriving DecidableEq, Repr

/-- Registry plus consolidated tree plus conflict count. -/
structure ConsState where
  registry : List String
  consolidated : List (String × Bytes)
  conflicts : Nat
  deriving DecidableEq, Repr

/-- Whether copying `rel` out of environment `env` fails. -/
def copyFails (failures : List (String × String)) (env rel : String) :
    Bool :=
  failures.any (fun p => p.1 == env && p.2 == rel)

/-- `areFilesIdentical`: byte-for-byte comparison; a read error (here: the
consolidated copy missing) yields `false`. -/
def areFilesIdentical (c : Bytes) (dest : Option Bytes) : Bool :=
  match dest with
  | some c' => c == c'
  | none => false

/-- The walk over one environment's module files.  Returns the updated
state and whether the walk aborted with an error. -/
def walkEnvFiles (failures : List (String × String)) (envName : String) :
    ConsState → List (String × Bytes) → ConsState × Bool
  | st, [] => (st, false)
  | st, (rel, c) :: rest =>
    if rel ∈ st.registry then
      if areFilesIdentical c (alookup st.consolidated rel) then
        walkEnvFiles failures envName st rest
      else
        walkEnvFiles failures envName
          ⟨st.registry, st.consolidated, st.conflicts + 1⟩ rest
    else if copyFails failures envName rel then (st, true)
    else
      walkEnvFiles failures envName
        ⟨rel :: st.registry, st.consolidated ++ [(rel, c)], st.conflicts⟩ rest

/-- Result of `consolidateModules`: consolidated tree, conflict count, and
the environments whose per-environment `modules` directory was removed. -/
structure ConsResult where
  consolidated : List (String × Bytes)
  conflicts : Nat
  removedDirs : List String
  deriving DecidableEq, Repr

/-- One iteration of the environment loop of `consolidateModules`. -/
def consolidateStep (failures : List (String × String))
    (acc : ConsState × List String) (env : EnvExport) :
    ConsState × List String :=
  if env.status ≠ "complete" then acc
  else
    match env.modulesDir with
    | none => acc
    | some files =>
      let walked := walkEnvFiles failures env.name acc.1 files
      (walked.1, acc.2 ++ [env.name])

/-- `consolidateModules` over all environments. -/
def consolidateModules (failures : List (String × String))
    (envs : List EnvExport) : ConsResult :=
  let final := envs.foldl (consolidateStep failures) (⟨[], [], 0⟩, [])
  ⟨final.1.consolidated, final.1.conflicts, final.2⟩

/-- All contents contributed at a relative path by complete environments. -/
def contributionsAt (envs : List EnvExport) (rel : String) : List Bytes :=
  envs.foldr (fun env acc =>
    if env.status = "complete" then
      (match env.modulesDir with
       | some fs => (fs.filter (fun p => p.1 == rel)).map Prod.snd
       | none => []) ++ acc
    else acc) []

theorem alookup_append_some {β : Type} (l1 l2 : List (String × β))
    (k : String) (v : β) (h : alookup l1 k = some v) :
    alookup (l1 ++ l2) k = some v := by
  induction l1 with
  | nil => simp [alookup] at h
  | cons p rest ih =>
    by_cases hk : p.1 = k
    · simpa [alookup, hk] using h
    · simp only [alookup, if_neg hk] at h
      simpa [alookup, hk] using ih h

theorem alookup_append_none {β : Type} (l1 l2 : List (String × β))
    (k : String) (h : alookup l1 k = none) :
    alookup (l1 ++ l2) k = alookup l2 k := by
  induction l1 with
  | nil => simp
  | cons p rest ih =>
    by_cases hk : p.1 = k
    · simp [alookup, hk] at h
    · simp only [alookup, if_neg hk] at h
      simpa [alookup, hk] using ih h

/-- The registry tracks exactly the keys of the consolidated tree. -/
def RegInv (st : ConsState) : Prop :=
  ∀ r : String, r ∈ st.registry ↔ (alookup st.consolidated r).isSome = true

/-- The consolidated tree holds nothing but `c` at `rel`. -/
def GoodAt (rel : String) (c : Bytes) (st : ConsState) : Prop :=
  alookup st.consolidated rel = none ∨ alookup st.consolidated rel = some c

/-- A binding present before a walk is present, unchanged, after it. -/
theorem walk_preserve (failures : List (String × String)) (n : String)
    (fs : List (String × Bytes)) (st : ConsState) (r : String) (v : Bytes)
    (h : alookup st.consolidated r = some v) :
    alookup ((walkEnvFiles failures n st fs).1).consolidated r = some v := by
  induction fs generalizing st with
  | nil => simpa [walkEnvFiles] using h
  | cons p rest ih =>
    obtain ⟨rel, c⟩ := p
    by_cases hreg : rel ∈ st.registry
    · by_cases hid : areFilesIdentical c (alookup st.consolidated rel) = true
      · simp only [walkEnvFiles, if_pos hreg, if_pos hid]
        exact ih st h
      · simp only [walkEnvFiles, if_pos hreg, if_neg hid]
        exact ih _ h
    · by_cases hfail : copyFails failures n rel = true
      · simpa [walkEnvFiles, hreg, hfail] using h
      · simp only [walkEnvFiles, if_neg hreg, hfail, Bool.false_eq_true,
          if_false]
        exact ih _ (alookup_append_some _ _ _ _ h)

/-- A failure-free walk maintains the registry invariant and the
single-content invariant at `rel`, and registers `c` at `rel` when the walk
contains it and every occurrence of `rel` in the walk carries `c`. -/
theorem walk_main (n : String) (rel : String) (c : Bytes)
    (fs : List (String × Bytes)) (st : ConsState)
    (hreginv : RegInv st) (hgood : GoodAt rel c st)
    (hall : ∀ x : Bytes, (rel, x) ∈ fs → x = c) :
    RegInv ((walkEnvFiles [] n st fs).1) ∧
    GoodAt rel c ((walkEnvFiles [] n st fs).1) ∧
    ((∃ x, (rel, x) ∈ fs) →
      alookup ((walkEnvFiles [] n st fs).1).consolidated rel = some c) := by
  induction fs generalizing st with
  | nil =>
    refine ⟨hreginv, hgood, ?_⟩
    rintro ⟨x, hx⟩
    simp at hx
  | cons p rest ih =>
    obtain ⟨rel', c'⟩ := p
    have hfail : copyFails [] n rel' = false := rfl
    by_cases hreg : rel' ∈ st.registry
    · have hst' : ∀ st2 : ConsState, st2.consolidated = st.consolidated →
          st2.registry = st.registry →
          RegInv st2 ∧ GoodAt rel c st2 := by
        intro st2 h1 h2
        constructor
        · intro r
          rw [h1, h2]
          exact hreginv r
        · unfold GoodAt
          rw [h1]
          exact hgood
      have hrest : ∀ x : Bytes, (rel, x) ∈ rest → x = c :=
        fun x hx => hall x (by simp [hx])
      by_cases hid : areFilesIdentical c' (alookup st.consolidated rel') = true
      · simp only [walkEnvFiles, if_pos hreg, if_pos hid]
        obtain ⟨hre, hgo, hens⟩ := ih st hreginv hgood hrest
        refine ⟨hre, hgo, ?_⟩
        rintro ⟨x, hx⟩
        rcases List.mem_cons.1 hx with hx | hx
        · -- head is (rel, x): rel is already registered with content c
          have hrel : rel' = rel := by cases hx; rfl
          subst hrel
          have hsome := (hreginv rel').1 hreg
          rcases hgood with hnone | hsomec
          · rw [hnone] at hsome; simp at hsome
          · exact walk_preserve [] n rest st rel' c hsomec
        · exact hens ⟨x, hx⟩
      · simp only [walkEnvFiles, if_pos hreg, if_neg hid]
        have hconf := hst'
          ⟨st.registry, st.consolidated, st.conflicts + 1⟩ rfl rfl
        obtain ⟨hre, hgo, hens⟩ := ih _ hconf.1 hconf.2 hrest
        refine ⟨hre, hgo, ?_⟩
        rintro ⟨x, hx⟩
        rcases List.mem_cons.1 hx with hx | hx
        · have hrel : rel' = rel := by cases hx; rfl
          subst hrel
          have hsome := (hreginv rel').1 hreg
          rcases hgood with hnone | hsomec
          · rw [hnone] at hsome; simp at hsome
          · exact walk_preserve [] n rest _ rel' c hsomec
        · exact hens ⟨x, hx⟩
    · simp only [walkEnvFiles, if_neg hreg, hfail, Bool.false_eq_true,
        if_false]
      have hnone : alookup st.consolidated rel' = none := by
        by_cases hs : (alookup st.consolidated rel').isSome = true
        · exact absurd ((hreginv rel').2 hs) hreg
        · cases hlo : alookup st.consolidated rel'
          · rfl
          · rw [hlo] at hs; simp at hs
      have hreginv' : RegInv
          ⟨rel' :: st.registry, st.consolidated ++ [(rel', c')],
            st.conflicts⟩ := by
        intro r
        simp only [List.mem_cons]
        by_cases hr : r = rel'
        · subst hr
          rw [alookup_append_none _ _ _ hnone]
          simp [alookup]
        · constructor
          · rintro (hcon | hcon)
            · exact absurd hcon hr
            · have := (hreginv r).1 hcon
              cases hlo : alookup st.consolidated r
              · rw [hlo] at this; simp at this
              · rw [alookup_append_some _ _ _ _ hlo]; rfl
          · intro hcon
            cases hlo : alookup st.consolidated r with
            | some v => exact Or.inr ((hreginv r).2 (by rw [hlo]; rfl))
            | none =>
              rw [alookup_append_none _ _ _ hlo] at hcon
              simp [alookup, Ne.symm hr] at hcon
      have hgood' : GoodAt rel c
          ⟨rel' :: st.registry, st.consolidated ++ [(rel', c')],
            st.conflicts⟩ := by
        unfold GoodAt
        by_cases hr : rel = rel'
        · subst hr
          rw [alookup_append_none _ _ _ hnone]
          have hc' : c' = c := hall c' (by simp)
          subst hc'
          simp [alookup]
        · rcases hgood with hg | hg
          · rw [alookup_append_none _ _ _ hg]
            simp [alookup, Ne.symm hr]
          · exact Or.inr (alookup_append_some _ _ _ _ hg)
      have hrest : ∀ x : Bytes, (rel, x) ∈ rest → x = c :=
        fun x hx => hall x (by simp [hx])
      obtain ⟨hre, hgo, hens⟩ := ih _ hreginv' hgood' hrest
      refine ⟨hre, hgo, ?_⟩
      rintro ⟨x, hx⟩
      rcases List.mem_cons.1 hx with hx | hx
      · have hrel : rel' = rel ∧ c' = x := by cases hx; exact ⟨rfl, rfl⟩
        obtain ⟨hrel, hcx⟩ := hrel
        subst hrel
        have hc' : c' = c := hall c' (by simp [← hcx])
        subst hc'
        refine walk_preserve [] n rest _ rel' c' ?_
        rw [alookup_append_none _ _ _ hnone]
        simp [alookup]
      · exact hens ⟨x, hx⟩

/-- A consolidated binding survives the remaining environment loop. -/
theorem fold_preserve (failures : List (String × String))
    (envsL : List EnvExport) (acc : ConsState × List String)
    (r : String) (v : Bytes) (h : alookup acc.1.consolidated r = some v) :
    alookup ((envsL.foldl (consolidateStep failures) acc).1).consolidated
      r = some v := by
  induction envsL generalizing acc with
  | nil => exact h
  | cons env rest ih =>
    rw [List.foldl_cons]
    apply ih
    unfold consolidateStep
    by_cases hst : env.status = "complete"
    · simp only [hst, ne_eq, not_true_eq_false, if_false]
      cases hdir : env.modulesDir with
      | none => exact h
      | some files => exact walk_preserve failures env.name files acc.1 r v h
    · simp only [ne_eq, hst, not_false_eq_true, if_true]
      exact h

/-- The environment loop maintains both invariants when no copy fails and
every contribution at `rel` is `c`. -/
theorem fold_main (rel : String) (c : Bytes) (envsL : List EnvExport)
    (acc : ConsState × List String)
    (hreginv : RegInv acc.1) (hgood : GoodAt rel c acc.1)
    (hall : ∀ env ∈ envsL, ∀ fs, env.modulesDir = some fs →
      env.status = "complete" → ∀ x : Bytes, (rel, x) ∈ fs → x = c) :
    RegInv ((envsL.foldl (consolidateStep []) acc).1) ∧
    GoodAt rel c ((envsL.foldl (consolidateStep []) acc).1) := by
  induction envsL generalizing acc with
  | nil => exact ⟨hreginv, hgood⟩
  | cons env rest ih =>
    rw [List.foldl_cons]
    have hrest : ∀ env' ∈ rest, ∀ fs, env'.modulesDir = some fs →
        env'.status = "complete" → ∀ x : Bytes, (rel, x) ∈ fs → x = c :=
      fun env' hm => hall env' (by simp [hm])
    by_cases hst : env.status = "complete"
    · cases hdir : env.modulesDir with
      | none =>
        have : consolidateStep [] acc env = acc := by
          unfold consolidateStep
          simp [hst, hdir]
        rw [this]
        exact ih acc hreginv hgood hrest
      | some files =>
        have hstep : consolidateStep [] acc env =
            ((walkEnvFiles [] env.name acc.1 files).1,
              acc.2 ++ [env.name]) := by
          unfold consolidateStep
          simp [hst, hdir]
        rw [hstep]
        obtain ⟨hre, hgo, _⟩ := walk_main env.name rel c files acc.1
          hreginv hgood (hall env (by simp) files hdir hst)
        exact ih _ hre hgo hrest
    · have : consolidateStep [] acc env = acc := by
        unfold consolidateStep
        simp [hst]
      rw [this]
      exact ih acc hreginv hgood hrest

/-- Any file of a complete environment contributes at its path. -/
theorem contributions_mem (envs : List EnvExport) (env : EnvExport)
    (fs : List (String × Bytes)) (rel : String) (x : Bytes)
    (hmem : env ∈ envs) (hstatus : env.status = "complete")
    (hdir : env.modulesDir = some fs) (hx : (rel, x) ∈ fs) :
    x ∈ contributionsAt envs rel := by
  induction envs with
  | nil => simp at hmem
  | cons e rest ih =>
    rcases List.mem_cons.1 hmem with rfl | hmem
    · unfold contributionsAt
      simp only [List.foldr_cons]
      rw [if_pos hstatus, hdir]
      apply List.mem_append_left
      exact List.mem_map.2 ⟨(rel, x), List.mem_filter.2 ⟨hx, by simp⟩, rfl⟩
    · unfold contributionsAt at ih ⊢
      simp only [List.foldr_cons]
      by_cases hst : e.status = "complete"
      · rw [if_pos hst]
        cases e.modulesDir with
        | none => simpa using ih hmem
        | some l => exact List.mem_append_right _ (ih hmem)
      · rw [if_neg hst]
        exact ih hmem

/-- Environment whose first module file fails to copy, losing the second. -/
def envLossy : EnvExport :=
  ⟨"env1", "complete", some [("db/main.tf", [1]), ("vpc/main.tf", [2])]⟩

/-- C3, counterexample.  When the copy of `db/main.tf` fails, the walk over
`env1`'s modules aborts, yet `consolidateModules` still removes the
per-environment modules directory: `vpc/main.tf`, a file with no content
conflict (it is the sole contribution at its path), ends up in neither the
consolidated tree nor the environment tree — it is lost, where the claim
requires it to be present in the consolidated tree. -/
theorem claim_C3_counterexample :
    contributionsAt [envLossy] "vpc/main.tf" = [[2]] ∧
    alookup (consolidateModules [("env1", "db/main.tf")]
        [envLossy]).consolidated "vpc/main.tf" = none ∧
    "env1" ∈ (consolidateModules [("env1", "db/main.tf")]
        [envLossy]).removedDirs := by
  refine ⟨by decide, by decide, by decide⟩

/-- C3, amended: when no failure occurs while processing the environments'
modules, every file of a complete environment whose path carries a single
content across all complete environments (no content conflict) is present,
with that content, in the consolidated tree; a copy failure partway through
an environment's walk still removes that environment's modules directory,
so files not yet walked are lost (see the counterexample). -/
theorem claim_C3_amended (envs : List EnvExport) (env : EnvExport)
    (fs : List (String × Bytes)) (rel : String) (c : Bytes)
    (hmem : env ∈ envs) (hstatus : env.status = "complete")
    (hdir : env.modulesDir = some fs) (hfile : (rel, c) ∈ fs)
    (hnoconflict : ∀ c' ∈ contributionsAt envs rel, c' = c) :
    alookup (consolidateModules [] envs).consolidated rel = some c := by
  have hcontrib : ∀ env' ∈ envs, ∀ fs', env'.modulesDir = some fs' →
      env'.status = "complete" → ∀ x : Bytes, (rel, x) ∈ fs' → x = c :=
    fun env' hm fs' hdir' hst' x hx =>
      hnoconflict x (contributions_mem envs env' fs' rel x hm hst' hdir' hx)
  obtain ⟨pre, post, rfl⟩ := List.append_of_mem hmem
  unfold consolidateModules
  rw [List.foldl_append, List.foldl_cons]
  have hempty : RegInv (⟨[], [], 0⟩ : ConsState) := by
    intro r
    simp [alookup]
  have hemptyg : GoodAt rel c (⟨[], [], 0⟩ : ConsState) := Or.inl rfl
  have hpre := fold_main rel c pre (⟨⟨[], [], 0⟩, []⟩) hempty hemptyg
    (fun env' hm => hcontrib env' (by simp [hm]))
  have hstep : consolidateStep []
      (pre.foldl (consolidateStep []) (⟨⟨[], [], 0⟩, []⟩)) env =
      ((walkEnvFiles [] env.name
          (pre.foldl (consolidateStep []) (⟨⟨[], [], 0⟩, []⟩)).1 fs).1,
        (pre.foldl (consolidateStep []) (⟨⟨[], [], 0⟩, []⟩)).2 ++
          [env.name]) := by
    unfold consolidateStep
    simp [hstatus, hdir]
  rw [hstep]
  obtain ⟨hre, hgo, hens⟩ := walk_main env.name rel c fs _ hpre.1 hpre.2
    (hcontrib env (by simp) fs hdir hstatus)
  exact fold_preserve [] post _ rel c (hens ⟨c, hfile⟩)

theorem claim_C3_witness :
    (let envs := [⟨"e1", "complete", some [("m/a.tf", [1])]⟩,
        (⟨"e2", "failed", none⟩ : EnvExport)]
     (⟨"e1", "complete", some [("m/a.tf", [1])]⟩ : EnvExport) ∈ envs ∧
      (∀ c' ∈ contributionsAt envs "m/a.tf", c' = [1])) ∧
    alookup (consolidateModules []
        [⟨"e1", "complete", some [("m/a.tf", [1])]⟩,
          ⟨"e2", "failed", none⟩]).consolidated "m/a.tf" = some [1] :=
  ⟨⟨by decide, by decide⟩,
    claim_C3_amended
      [⟨"e1", "complete", some [("m/a.tf", [1])]⟩, ⟨"e2", "failed", none⟩]
      ⟨"e1", "complete", some [("m/a.tf", [1])]⟩
      [("m/a.tf", [1])] "m/a.tf" [1]
      (by decide) (by decide) (by decide) (by decide) (by decide)⟩

/-- C8.  Two complete environments each contributing one file at the same
relative module path: identical bytes yield exactly one consolidated file
with that content and zero conflicts; differing bytes yield exactly one
consolidated file holding the first-processed environment's content and
exactly one conflict. -/
theorem claim_C8_consolidation_determinism (n1 n2 rel : String)
    (c1 c2 : Bytes) :
    (c1 = c2 →
      (consolidateModules [] [⟨n1, "complete", some [(rel, c1)]⟩,
          ⟨n2, "complete", some [(rel, c2)]⟩]).consolidated = [(rel, c1)] ∧
      (consolidateModules [] [⟨n1, "complete", some [(rel, c1)]⟩,
          ⟨n2, "complete", some [(rel, c2)]⟩]).conflicts = 0) ∧
    (c1 ≠ c2 →
      (consolidateModules [] [⟨n1, "complete", some [(rel, c1)]⟩,
          ⟨n2, "complete", some [(rel, c2)]⟩]).consolidated = [(rel, c1)] ∧
      (consolidateModules [] [⟨n1, "complete", some [(rel, c1)]⟩,
          ⟨n2, "complete", some [(rel, c2)]⟩]).conflicts = 1) := by
  constructor
  · intro h
    subst h
    constructor <;>
      simp [consolidateModules, consolidateStep, walkEnvFiles, alookup,
        areFilesIdentical, copyFails]
  · intro h
    have hne : (c2 == c1) = false := by
      simp only [beq_eq_false_iff_ne, ne_eq]
      exact fun hcon => h hcon.symm
    constructor <;>
      simp [consolidateModules, consolidateStep, walkEnvFiles, alookup,
        areFilesIdentical, copyFails, hne]

theorem claim_C8_witness :
    (([1] : Bytes) = [1] ∧ ([1] : Bytes) ≠ [2]) ∧
    ((consolidateModules [] [⟨"e1", "complete", some [("db/main.tf", [1])]⟩,
        ⟨"e2", "complete", some [("db/main.tf", [1])]⟩]).consolidated =
      [("db/main.tf", [1])] ∧
     (consolidateModules [] [⟨"e1", "complete", some [("db/main.tf", [1])]⟩,
        ⟨"e2", "complete", some [("db/main.tf", [1])]⟩]).conflicts = 0) ∧
    ((consolidateModules [] [⟨"e1", "complete", some [("db/main.tf", [1])]⟩,
        ⟨"e2", "complete", some [("db/main.tf", [2])]⟩]).consolidated =
      [("db/main.tf", [1])] ∧
     (consolidateModules [] [⟨"e1", "complete", some [("db/main.tf", [1])]⟩,
        ⟨"e2", "complete", some [("db/main.tf", [2])]⟩]).conflicts = 1) :=
  ⟨⟨rfl, by decide⟩,
    (claim_C8_consolidation_determinism "e1" "e2" "db/main.tf" [1] [1]).1
      rfl,
    (claim_C8_consolidation_determinism "e1" "e2" "db/main.tf" [1] [2]).2
      (by decide)⟩

/-! ## Sanitization engine — `CleanExportedFiles` (pkg/utils/utils.go)

An HCL file, as hclwrite exposes it to this program, is an ordered list of
top-level items: attributes (name plus the lexed token strings of the
expression, as `hclwrite.Expression.BuildTokens` yields them) and blocks
(type, labels, and a body of attributes and nested blocks; nested blocks
are never inspected or rewritten by this program and are carried
opaquely).  Injected expressions are recorded in their lexed form, i.e. as
the written bytes read back, so that equality of the model is byte
identity of the serialized file.  Bodies produced by a successful
`hclwrite.ParseConfig` never hold two attributes of one name (duplicate
attributes are an HCL parse error), which is the reading under which
`RemoveAttribute` is a filter; `SetAttributeRaw` replaces the expression of
the attribute in place when present and appends the attribute at the end
of the body otherwise. -/

/-- A body item: an attribute, or a nested block carried opaquely. -/
inductive BItem where
  | attr (name : String) (tokens : List String)
  | sub (raw : String)
  deriving DecidableEq, Repr

/-- A top-level block. -/
structure Block where
  typ : String
  labels : List String
  body : List BItem
  deriving DecidableEq, Repr

/-- A top-level item of a parsed file. -/
inductive TopItem where
  | attr (name : String) (tokens : List String)
  | block (b : Block)
  deriving DecidableEq, Repr

/-- A parsed HCL file. -/
abbrev HclFile := List TopItem

/-- `Body.GetAttribute`: the expression tokens of the named attribute. -/
def getAttr (body : List BItem) (name : String) : Option (List String) :=
  match body with
  | [] => none
  | BItem.attr n t :: rest => if n = name then some t else getAttr rest name
  | BItem.sub _ :: rest => getAttr rest name

/-- `Body.RemoveAttribute`. -/
def removeAttr (body : List BItem) (name : String) : List BItem :=
  body.filter (fun i => match i with
    | BItem.attr n _ => n ≠ name
    | BItem.sub _ => true)

/-- Replace the expression of the first attribute named `name`. -/
def replaceAttr (body : List BItem) (name : String) (tokens : List String) :
    List BItem :=
  match body with
  | [] => []
  | BItem.attr n t :: rest =>
    if n = name then BItem.attr n tokens :: rest
    else BItem.attr n t :: replaceAttr rest name tokens
  | BItem.sub r :: rest => BItem.sub r :: replaceAttr rest name tokens

/-- `Body.SetAttributeRaw` (also `SetAttributeValue`): replace in place when
present, append otherwise. -/
def setAttrRaw (body : List BItem) (name : String) (tokens : List String) :
    List BItem :=
  if (getAttr body name).isSome then replaceAttr body name tokens
  else body ++ [BItem.attr name tokens]

/-- `strings.Contains` on the bytes of one token. -/
def tokHas (tok : String) (needle : String) : Bool :=
  decide (needle.toList <:+: tok.toList)

/-- `strings.Contains` on a path, computed over its characters. -/
def charsHave (hay : List Char) (needle : String) : Bool :=
  decide (needle.toList <:+: hay)

/-- The character sequence `/comp1/comp2/...` of a rootDir-relative path.
The path-substring rules of `cleanupTerraformFiles` are evaluated against
the absolute path; a root directory that itself contains none of the probed
substrings (`level2`, `/modules/`, `/environment/`, `/blueprint_self/`)
makes the absolute and the rooted-relative test agree, which is assumed. -/
def pathChars (p : List String) : List Char :=
  p.foldl (fun acc comp => acc ++ '/' :: comp.toList) []

/-- `filepath.Base` of a component path. -/
def lastName (p : List String) : String := (p.getLast?).getD ""

/-- Whether the path lies strictly under the top-level directory `root`. -/
def isUnder (root : String) (p : List String) : Bool :=
  p.head? == some root && decide (2 ≤ p.length)

theorem getAttr_replaceAttr_self (body : List BItem) (name : String)
    (t : List String) (h : getAttr body name = some t) :
    replaceAttr body name t = body := by
  induction body with
  | nil => rfl
  | cons i rest ih =>
    cases i with
    | attr n tk =>
      by_cases hn : n = name
      · simp only [getAttr, if_pos hn] at h
        simp only [replaceAttr, if_pos hn]
        rw [Option.some_inj.1 h]
      · simp only [getAttr, if_neg hn] at h
        simp only [replaceAttr, if_neg hn]
        rw [ih h]
    | sub r =>
      simp only [getAttr] at h
      simp only [replaceAttr]
      rw [ih h]

/-- Setting an attribute to the tokens it already holds is the identity. -/
theorem setAttrRaw_self (body : List BItem) (name : String)
    (t : List String) (h : getAttr body name = some t) :
    setAttrRaw body name t = body := by
  unfold setAttrRaw
  rw [h]
  simp only [Option.isSome_some, if_pos]
  exact getAttr_replaceAttr_self body name t h

/-! ### Step 5 — `fixModuleVariables` (utils.go 698-806)

Adds any of five required variable declarations missing from a
`variables.tf` under `modules/`.  The Go map iteration order over
`requiredVars` is unspecified; the model fixes the source-listing order,
which leaves the added set and all idempotence facts unchanged. -/

/-- The required variables of `fixModuleVariables`, in source order. -/
def requiredVarNames : List String :=
  ["instance", "instance_name", "cluster", "environment", "inputs"]

/-- The variable block `fixModuleVariables` appends for a missing name
(type, description, default, per the source's switch). -/
def mkVarBlock (name : String) : Block :=
  if name = "instance" then
    ⟨"variable", ["instance"],
      [BItem.attr "type" ["object", "(", "\x7b", "\x7d", ")"],
       BItem.attr "description" ["\"", "Instance configuration", "\""],
       BItem.attr "default" ["\x7b", "\x7d"]]⟩
  else if name = "instance_name" then
    ⟨"variable", ["instance_name"],
      [BItem.attr "type" ["string"],
       BItem.attr "description" ["\"", "Name of the instance", "\""],
       BItem.attr "default" ["\"", "\""]]⟩
  else if name = "cluster" then
    ⟨"variable", ["cluster"],
      [BItem.attr "type" ["object", "(", "\x7b", "\x7d", ")"],
       BItem.attr "description" ["\"", "Cluster identifier", "\""],
       BItem.attr "default" ["\x7b", "\x7d"]]⟩
  else if name = "environment" then
    ⟨"variable", ["environment"],
      [BItem.attr "type" ["object", "(", "\x7b", "\x7d", ")"],
       BItem.attr "description" ["\"", "Environment name", "\""],
       BItem.attr "default" ["\x7b", "\x7d"]]⟩
  else
    ⟨"variable", ["inputs"],
      [BItem.attr "type" ["object", "(", "\x7b", "\x7d", ")"],
       BItem.attr "description" ["\"", "Inputs", "\""],
       BItem.attr "default" ["\x7b", "\x7d"]]⟩

/-- Whether the file declares `variable "n"` (a variable block with at
least one label whose first label is `n`). -/
def hasVarBlock (ast : HclFile) (n : String) : Bool :=
  ast.any (fun i => match i with
    | TopItem.block b => b.typ == "variable" && b.labels.head? == some n
    | TopItem.attr _ _ => false)

/-- `fixModuleVariables` on one parsed `variables.tf`: append the missing
required variables (the existing set is computed before the appends). -/
def fixVariablesTf (ast : HclFile) : HclFile :=
  ast ++ (requiredVarNames.filter (fun n => !hasVarBlock ast n)).map
    (fun n => TopItem.block (mkVarBlock n))

/-! ### Step 6 — `fixLevel2MainTf` (utils.go 808-926)

For every module block of `tfexport/level2/main.tf` except
`blueprint_self` and `environment`: remove every attribute outside the
allowed six, then add each missing required attribute with its default. -/

/-- Attributes a level2 module block may keep. -/
def allowedLevel2Attrs : List String :=
  ["source", "inputs", "instance", "instance_name", "cluster", "environment"]

/-- Required module attributes, in source order. -/
def requiredModuleVars : List String :=
  ["inputs", "instance", "instance_name", "cluster", "environment"]

/-- The default expression injected for a missing required attribute. -/
def moduleVarDefault (n : String) : List String :=
  if n = "inputs" then ["\x7b", "\x7d"]
  else if n = "instance" then ["\x7b", "\x7d"]
  else if n = "instance_name" then ["\"", "\""]
  else if n = "cluster" then ["var", ".", "cluster"]
  else ["var", ".", "environment"]

/-- The module name: first label, or `""` when there are no labels. -/
def moduleName (b : Block) : String := (b.labels.head?).getD ""

/-- The allowed-attribute filter of `fixLevel2MainTf`. -/
def keepAllowed (i : BItem) : Bool :=
  match i with
  | BItem.attr n _ => allowedLevel2Attrs.contains n
  | BItem.sub _ => true

/-- Add each named attribute with its default when absent (the required
attribute loop of `fixLevel2MainTf`). -/
def addAttrsFold (dflt : String → List String) :
    List String → List BItem → List BItem
  | [], body => body
  | n :: rest, body =>
    addAttrsFold dflt rest
      (if (getAttr body n).isSome then body
       else body ++ [BItem.attr n (dflt n)])

/-- `fixLevel2MainTf` on one module block. -/
def fixL2Block (b : Block) : Block :=
  if b.typ ≠ "module" then b
  else if moduleName b = "blueprint_self" ∨ moduleName b = "environment"
  then b
  else
    ⟨b.typ, b.labels,
      addAttrsFold moduleVarDefault requiredModuleVars
        (b.body.filter keepAllowed)⟩

/-- `fixLevel2MainTf` on the whole file. -/
def fixLevel2MainTf (ast : HclFile) : HclFile :=
  ast.map (fun i => match i with
    | TopItem.block b => TopItem.block (fixL2Block b)
    | a => a)

/-! ### Step 7 — `cleanupTerraformFiles` (utils.go 1076-1451)

Walks every `.tf` file under `tfexport/` and under `modules/`, applying a
per-filename rule and then a generic pass, tracking a modified flag; a
modified file whose root body ends with no blocks and no attributes is
deleted instead of written. -/

/-- Attributes cleaned from level2 module blocks (utils.go 1132-1136). -/
def attributesToCleanL2 : List String :=
  ["instance_type", "iac_version", "release_metadata",
   "generate_release_metadata", "baseinfra", "settings"]

/-- Remove each named attribute when present, accumulating the modified
flag (the `for attrName := range` removal loops). -/
def removeAttrsFold : List String → List BItem × Bool → List BItem × Bool
  | [], st => st
  | n :: rest, st =>
    removeAttrsFold rest
      (if (getAttr st.1 n).isSome then (removeAttr st.1 n, true) else st)

/-- Remove the named attribute when its expression has at most three
tokens (the empty `providers`/`state` checks). -/
def dropEmptyAttr (name : String) (st : List BItem × Bool) :
    List BItem × Bool :=
  match getAttr st.1 name with
  | some t => if t.length ≤ 3 then (removeAttr st.1 name, true) else st
  | none => st

/-- The `inputs` treatment of level2 module blocks (utils.go 1155-1178):
force `inputs` to `{}` when it mentions the `deployment_id` token, has at
most three tokens, or is absent. -/
def forceInputs (st : List BItem × Bool) : List BItem × Bool :=
  match getAttr st.1 "inputs" with
  | some t =>
    if t.contains "deployment_id" || decide (t.length ≤ 3) then
      (setAttrRaw st.1 "inputs" ["\x7b", "\x7d"], true)
    else st
  | none => (setAttrRaw st.1 "inputs" ["\x7b", "\x7d"], true)

/-- The level2 `main.tf` treatment of one module block
(utils.go 1113-1182). -/
def cleanupL2Module (b : Block) : Block × Bool :=
  if b.typ ≠ "module" then (b, false)
  else if moduleName b = "blueprint_self" then (b, false)
  else
    let s3 := forceInputs (dropEmptyAttr "providers"
      (removeAttrsFold attributesToCleanL2 (b.body, false)))
    (⟨b.typ, b.labels, s3.1⟩, s3.2)

/-- The root `main.tf` treatment of the `module "level2"` block
(utils.go 1189-1218): drop `cc_metadata`, `deployment_id`, an empty
`providers` and an empty `state`. -/
def cleanupRootMainBlock (b : Block) : Block × Bool :=
  if b.typ = "module" ∧ b.labels.head? = some "level2" then
    let s4 := dropEmptyAttr "state" (dropEmptyAttr "providers"
      (removeAttrsFold ["cc_metadata", "deployment_id"] (b.body, false)))
    (⟨b.typ, b.labels, s4.1⟩, s4.2)
  else (b, false)

/-- Whether a top-level item is a `variable` block whose name satisfies
`pred`. -/
def isVarBlockBy (pred : String → Bool) (i : TopItem) : Bool :=
  match i with
  | TopItem.block b => b.typ == "variable" &&
      (match b.labels.head? with
       | some n => pred n
       | none => false)
  | TopItem.attr _ _ => false

/-- The collect-then-remove pattern used for variable blocks
(utils.go 1221-1238, 1247-1300): every matching variable block is removed;
the flag records whether any removal happened. -/
def removeVarBlocksBy (pred : String → Bool) (ast : HclFile) :
    HclFile × Bool :=
  (ast.filter (fun i => !isVarBlockBy pred i), ast.any (isVarBlockBy pred))

/-- Variable names removed from a root `main.tf` (utils.go 1225). -/
def rootMainVarNames (n : String) : Bool :=
  n == "deployment_id" || n == "dev_mode" || n == "releaseType"

/-- Variables removed from `variables.tf` in a module subtree
(utils.go 1254-1264). -/
def moduleScopeVarNames (n : String) : Bool :=
  n == "release_metadata" || n == "instance_type" || n == "iac_version" ||
  n == "generate_release_metadata" || n == "settings" ||
  n == "baseinfra" || n == "cc_metadata"

/-- Variables removed from `level2/variables.tf` (utils.go 1266-1274). -/
def level2ScopeVarNames (n : String) : Bool :=
  n == "infra_output" || n == "settings" || n == "state" ||
  n == "cc_metadata" || n == "deployment_id"

/-- Variables removed from the project-root `variables.tf`
(utils.go 1275-1284): `cc_` prefixed names and five fixed names. -/
def rootScopeVarNames (n : String) : Bool :=
  ("cc_".toList).isPrefixOf n.toList || n == "deployment_id" ||
  n == "dev_mode" || n == "releaseType" ||
  n == "CUSTOMER_ARTIFACT_BUCKET" || n == "USE_MINIO"

/-! #### outputs.tf handling (utils.go 1307-1374, 928-1074) -/

/-- Output values removed when they textually reference one of these
(utils.go 1350-1351). -/
def removedVarsOutputs : List String :=
  ["cc_metadata", "deployment_id", "release_metadata",
   "generate_release_metadata", "baseinfra", "settings", "infra_output",
   "state"]

/-- Whether one expression token mentions a removed symbol. -/
def tokenTriggers (tok : String) : Bool :=
  removedVarsOutputs.any (fun rv => tokHas tok rv)

/-- The replacement expression `cleanCloudTagsOutput` writes
(utils.go 971-1028), in token order; newline tokens carry their bytes. -/
def cloudTagsCleanedTokens : List String :=
  ["merge", "(", "lookup", "(", "local", ".", "spec", ",",
   "\"enable_cloud_tags\"", ",", "true", ")", "?", "\x7b", "\n    ",
   "cluster", "=", "var", ".", "cluster", ".", "name", "\n    ",
   "facetsclustername", "=", "var", ".", "cluster", ".", "name", "\n    ",
   "facetsclusterid", "=", "var", ".", "cluster", ".", "id", "\n  ",
   "\x7d", ":", "\x7b", "\x7d", ",", "lookup", "(", "local", ".", "spec", ",",
   "\"cloud_tags\"", ",", "\x7b", "\x7d", ")", ")"]

/-- The replacement expression `cleanBlueprintSelfVariablesOutput` writes
(utils.go 1063-1069). -/
def bsVariablesCleanedTokens : List String :=
  ["var", ".", "cluster", ".", "commonEnvironmentVariables"]

/-- `cleanCloudTagsOutput`: when the `value` expression mentions
`cc_metadata`, remove it and append the fixed cleaned expression. -/
def cleanCloudTagsOutput (b : Block) : Block × Bool :=
  match getAttr b.body "value" with
  | none => (b, false)
  | some t =>
    if t.any (fun tok => tokHas tok "cc_metadata") then
      (⟨b.typ, b.labels,
        setAttrRaw (removeAttr b.body "value") "value"
          cloudTagsCleanedTokens⟩, true)
    else (b, false)

/-- `cleanBlueprintSelfVariablesOutput`: when the `value` expression
mentions `FACETS_`, replace it with
`var.cluster.commonEnvironmentVariables`. -/
def cleanBlueprintSelfVariablesOutput (b : Block) : Block × Bool :=
  match getAttr b.body "value" with
  | none => (b, false)
  | some t =>
    if t.any (fun tok => tokHas tok "FACETS_") then
      (⟨b.typ, b.labels,
        setAttrRaw (removeAttr b.body "value") "value"
          bsVariablesCleanedTokens⟩, true)
    else (b, false)

/-- The in-place special rewrites of the outputs loop: `cloud_tags` in an
environment module, `variables` in a blueprint_self module. -/
def outputsSpecialOne (isEnvM isBsM : Bool) (b : Block) : Block × Bool :=
  match b.labels.head? with
  | none => (b, false)
  | some name =>
    if b.typ = "output" then
      if isEnvM ∧ name = "cloud_tags" then cleanCloudTagsOutput b
      else if isBsM ∧ name = "variables" then
        cleanBlueprintSelfVariablesOutput b
      else (b, false)
    else (b, false)

/-- Apply the special rewrites across the file, collecting the flag. -/
def mapSpecials (isEnvM isBsM : Bool) (ast : HclFile) : HclFile × Bool :=
  ast.foldr (fun i acc =>
    match i with
    | TopItem.block b =>
      let r := outputsSpecialOne isEnvM isBsM b
      (TopItem.block r.1 :: acc.1, r.2 || acc.2)
    | TopItem.attr n t => (TopItem.attr n t :: acc.1, acc.2)) ([], false)

/-- The `outputsToRemove` collection (utils.go 1314-1363): one occurrence
of the output's name per token of its value that mentions a removed
symbol; special-cased blocks are skipped. -/
def collectOutputsToRemove (isEnvM isBsM : Bool) (ast : HclFile) :
    List String :=
  ast.foldl (fun acc i =>
    match i with
    | TopItem.block b =>
      match b.labels.head? with
      | some name =>
        if b.typ = "output" then
          if (isEnvM ∧ name = "cloud_tags") ∨ (isBsM ∧ name = "variables")
          then acc
          else match getAttr b.body "value" with
            | some toks =>
              acc ++ (toks.filter tokenTriggers).map (fun _ => name)
            | none => acc
        else acc
      | none => acc
    | TopItem.attr _ _ => acc) []

/-- Remove the first output block carrying the given name
(utils.go 1365-1373). -/
def removeFirstOutputBlock (ast : HclFile) (name : String) :
    HclFile × Bool :=
  match ast with
  | [] => ([], false)
  | i :: rest =>
    match i with
    | TopItem.block b =>
      if b.typ = "output" ∧ b.labels.head? = some name then (rest, true)
      else
        let r := removeFirstOutputBlock rest name
        (TopItem.block b :: r.1, r.2)
    | TopItem.attr n t =>
      let r := removeFirstOutputBlock rest name
      (TopItem.attr n t :: r.1, r.2)

/-- Remove one block per collected occurrence, in collection order. -/
def removeCollected (ast : HclFile) (names : List String) :
    HclFile × Bool :=
  names.foldl (fun acc n =>
    let r := removeFirstOutputBlock acc.1 n
    (r.1, acc.2 || r.2)) (ast, false)

/-- The full `outputs.tf` branch. -/
def outputsPass (isEnvM isBsM : Bool) (ast : HclFile) : HclFile × Bool :=
  let sp := mapSpecials isEnvM isBsM ast
  let names := collectOutputsToRemove isEnvM isBsM ast
  let rm := removeCollected sp.1 names
  (rm.1, sp.2 || rm.2)

/-! #### generic pass (utils.go 1377-1416) -/

/-- Attributes stripped from every module block by the generic pass. -/
def moduleAttrsToRemove : List String :=
  ["settings", "state", "infra_output", "deployment_id",
   "release_metadata", "instance_type", "iac_version",
   "generate_release_metadata", "baseinfra", "cc_metadata"]

/-- The generic pass on one top-level block: strip `cc_metadata`
everywhere and the platform attributes from module blocks. -/
def genericBlockPass (b : Block) : Block × Bool :=
  let s1 := if (getAttr b.body "cc_metadata").isSome then
      (removeAttr b.body "cc_metadata", true) else (b.body, false)
  let s2 := if b.typ = "module" then removeAttrsFold moduleAttrsToRemove s1
    else s1
  (⟨b.typ, b.labels, s2.1⟩, s2.2)

/-- Map a block transformation over the file, collecting the flag. -/
def mapBlocks (f : Block → Block × Bool) (ast : HclFile) :
    HclFile × Bool :=
  ast.foldr (fun i acc =>
    match i with
    | TopItem.block b =>
      let r := f b
      (TopItem.block r.1 :: acc.1, r.2 || acc.2)
    | TopItem.attr n t => (TopItem.attr n t :: acc.1, acc.2)) ([], false)

/-- The per-file body of `cleanupTerraformFiles`: the filename switch, the
generic pass, and deletion of a modified file left with no blocks and no
attributes. -/
def cleanupTfFile (p : List String) (ast : HclFile) : Option HclFile :=
  let filename := lastName p
  let pcs := pathChars p
  let switched : HclFile × Bool :=
    if filename = "main.tf" then
      if charsHave pcs "level2" then mapBlocks cleanupL2Module ast
      else
        let s1 := mapBlocks cleanupRootMainBlock ast
        let s2 := removeVarBlocksBy rootMainVarNames s1.1
        (s2.1, s1.2 || s2.2)
    else if filename = "variables.tf" then
      if charsHave pcs "/modules/" then
        removeVarBlocksBy moduleScopeVarNames ast
      else if charsHave pcs "level2" then
        removeVarBlocksBy level2ScopeVarNames ast
      else removeVarBlocksBy rootScopeVarNames ast
    else if filename = "cc_metadata.tf" then ([], true)
    else if filename = "outputs.tf" then
      outputsPass (charsHave pcs "/environment/")
        (charsHave pcs "/blueprint_self/") ast
    else (ast, false)
  let gen := mapBlocks genericBlockPass switched.1
  if (switched.2 || gen.2) && gen.1.isEmpty then none
  else some gen.1

/-! ### Step 8 — state cleanup (utils.go 1546-1648)

The raw state JSON: a version marker, a terraform_version marker, and a
resources array whose entries are either JSON objects (type, module, name,
instances) or other values, dropped silently when the array is rewritten.
An instance's `dependencies` is a list whose entries may be strings; a
cleaned-out list is stored as Go `nil`, i.e. JSON `null`, which no longer
reads back as a list. -/

/-- One instance: `none` when not a JSON object; `some none` when it has no
dependencies list; `some (some deps)` with `none` entries for non-string
dependency values. -/
inductive TfInst where
  | obj (deps : Option (List (Option String)))
  | nonObj (raw : String)
  deriving DecidableEq, Repr

/-- One entry of the resources array. -/
inductive TfResource where
  | res (typ moduleAddr name : String) (instances : Option (List TfInst))
  | nonMap (raw : String)
  deriving DecidableEq, Repr

/-- The raw state document. -/
structure TfState where
  hasVersion : Bool
  hasTfVersion : Bool
  resources : Option (List TfResource)
  deriving DecidableEq, Repr

/-- Whether a dependency entry names a scratch resource
(utils.go 1605-1609). -/
def depIsScratch (d : Option String) : Bool :=
  match d with
  | some s => tokHas s "scratch_string" || tokHas s "scratch_number"
  | none => false

/-- Dependency scrubbing of one instance (utils.go 1598-1621). -/
def cleanInst (i : TfInst) : TfInst × Bool :=
  match i with
  | TfInst.nonObj r => (TfInst.nonObj r, false)
  | TfInst.obj none => (TfInst.obj none, false)
  | TfInst.obj (some deps) =>
    let cleaned := deps.filter (fun d => !depIsScratch d)
    if cleaned.length ≠ deps.length then
      (TfInst.obj (if cleaned.isEmpty then none else some cleaned), true)
    else (TfInst.obj (some deps), false)

/-- Instance-list scrubbing of one resource. -/
def cleanResInstances (insts : Option (List TfInst)) :
    Option (List TfInst) × Bool :=
  match insts with
  | none => (none, false)
  | some l =>
    let cleaned := l.map cleanInst
    (some (cleaned.map Prod.fst), cleaned.any Prod.snd)

/-- The resources pass (utils.go 1576-1636): drop scratch resources (flag),
drop non-object entries (no flag), scrub dependencies. -/
def cleanResources (rs : List TfResource) : List TfResource × Bool :=
  rs.foldr (fun r acc =>
    match r with
    | TfResource.nonMap _ => acc
    | TfResource.res t m n insts =>
      if t == "scratch_string" || t == "scratch_number" then
        (acc.1, true)
      else
        let ci := cleanResInstances insts
        (TfResource.res t m n ci.1 :: acc.1, ci.2 || acc.2)) ([], false)

/-- `CleanExportedFiles` step 8 on the parsed state: the document is
rewritten only when the modified flag is set; otherwise the original file
stays, non-object resource entries included. -/
def cleanTfState (s : TfState) : TfState :=
  let versionFlag := !s.hasVersion
  match s.resources with
  | none =>
    if versionFlag then ⟨true, s.hasTfVersion || !s.hasVersion, none⟩
    else s
  | some rs =>
    let cr := cleanResources rs
    if versionFlag || cr.2 then
      ⟨true, s.hasTfVersion || !s.hasVersion, some cr.1⟩
    else s

/-! ### Step 9 — `input_*.tf.json` cleanup (utils.go 1650-1711) -/

/-- One `input_*` object under `locals`: markers for the three stripped
fields and the remaining fields carried opaquely. -/
structure InputObj where
  hasFlavor : Bool
  hasVersionF : Bool
  hasKind : Bool
  rest : String
  deriving DecidableEq, Repr

/-- A value under `locals`. -/
inductive LocalsVal where
  | obj (o : InputObj)
  | nonObj (raw : String)
  deriving DecidableEq, Repr

/-- A parsed `input_*.tf.json` document: `none` when `locals` is absent or
not an object. -/
structure InputFile where
  localsMap : Option (List (String × LocalsVal))
  deriving DecidableEq, Repr

/-- Whether the step-9 pass would modify an entry. -/
def inputEntryDirty (kv : String × LocalsVal) : Bool :=
  (("input_".toList).isPrefixOf kv.1.toList) &&
    (match kv.2 with
     | LocalsVal.obj o => o.hasFlavor || o.hasVersionF || o.hasKind
     | LocalsVal.nonObj _ => false)

/-- Step 9 on one parsed document: strip `flavor`, `version`, `kind` from
every `input_*` object under `locals`; write only when modified. -/
def cleanInputFile (f : InputFile) : InputFile :=
  match f.localsMap with
  | none => f
  | some entries =>
    if entries.any inputEntryDirty then
      ⟨some (entries.map (fun kv =>
        if ("input_".toList).isPrefixOf kv.1.toList then
          match kv.2 with
          | LocalsVal.obj o =>
            (kv.1, LocalsVal.obj ⟨false, false, false, o.rest⟩)
          | v => (kv.1, v)
        else kv))⟩
    else f

/-! ### The per-file composition of `CleanExportedFiles` -/

/-- File contents: a parsed `.tf` file, the parsed raw state, a parsed
input JSON, or raw bytes (an unrecognized or unparseable file, passed
through unchanged — a parse failure is logged and the file skipped). -/
inductive Content where
  | tf (ast : HclFile)
  | state (s : TfState)
  | inputJson (j : InputFile)
  | blob (raw : String)
  deriving DecidableEq, Repr

/-- A ConfigTree: rootDir-relative component paths to contents. -/
abbrev ConfigTree := List (List String × Content)

/-- `.tf` suffix test of the walk (`strings.HasSuffix(path, ".tf")`). -/
def hasTfSuffix (s : String) : Bool :=
  ((".tf").toList).isSuffixOf s.toList

/-- Whether step 9 selects this path: a direct child of
`tfexport/level2` named `input_*.tf.json`. -/
def isInputJsonPath (p : List String) : Bool :=
  match p with
  | [a, b, name] => a == "tfexport" && b == "level2" &&
      (("input_".toList).isPrefixOf name.toList) &&
      ((".tf.json").toList).isSuffixOf name.toList
  | _ => false

/-- What `CleanExportedFiles` does to the file at path `p`, composing the
steps that touch it in program order; `none` means the file is deleted.
Every step acts on one file at a time, so the whole run is this map over
the tree.  (In the code an I/O or parse error in steps 8-9 aborts the
remaining steps of the run; both runs of the idempotence claim abort at
the same file and the earlier steps are unaffected, so the per-file map
settles the same claims.) -/
def cleanFile (p : List String) (c : Content) : Option Content :=
  let name := lastName p
  if isUnder "modules" p &&
      (name == "facets.yaml" || name == "resources_gen.tf" ||
        name == "_variables.tf") then none
  else if p.head? == some "tfexport" && p.tail.head? == some "terraform.d"
  then none
  else if p = ["tfexport", "outputs.tf"] then none
  else
    match c with
    | Content.tf ast =>
      let ast5 := if isUnder "modules" p && name == "variables.tf" then
          fixVariablesTf ast
        else ast
      let ast6 := if p = ["tfexport", "level2", "main.tf"] then
          fixLevel2MainTf ast5
        else ast5
      if (isUnder "tfexport" p || isUnder "modules" p) && hasTfSuffix name
      then
        match cleanupTfFile p ast6 with
        | none => none
        | some a => some (Content.tf a)
      else some (Content.tf ast6)
    | Content.state s =>
      if p = ["tfexport", "downloaded-terraform.tfstate"] then
        some (Content.state (cleanTfState s))
      else some (Content.state s)
    | Content.inputJson j =>
      if isInputJsonPath p then some (Content.inputJson (cleanInputFile j))
      else some (Content.inputJson j)
    | Content.blob raw => some (Content.blob raw)

/-- `CleanExportedFiles` over the whole ConfigTree. -/
def CleanExportedFiles (t : ConfigTree) : ConfigTree :=
  t.filterMap (fun pc => (cleanFile pc.1 pc.2).map (fun c => (pc.1, c)))

/-! ### Idempotence toolbox: attribute operations -/

theorem getAttr_none_iff (body : List BItem) (n : String) :
    getAttr body n = none ↔ ∀ t, BItem.attr n t ∉ body := by
  induction body with
  | nil => simp [getAttr]
  | cons i rest ih =>
    cases i with
    | attr m tk =>
      by_cases hm : m = n
      · subst hm
        simp only [getAttr, if_pos rfl]
        constructor
        · intro h
          cases h
        · intro h
          exact ((h tk (List.mem_cons_self _ _)).elim)
      · simp only [getAttr, if_neg hm, ih, List.mem_cons]
        constructor
        · rintro h t (hc | hc)
          · cases hc
            exact hm rfl
          · exact h t hc
        · intro h t ht
          exact h t (Or.inr ht)
    | sub r =>
      simp only [getAttr, ih, List.mem_cons]
      constructor
      · rintro h t (hc | hc)
        · cases hc
        · exact h t hc
      · intro h t ht
        exact h t (Or.inr ht)

theorem removeAttr_getAttr_self (body : List BItem) (n : String) :
    getAttr (removeAttr body n) n = none := by
  induction body with
  | nil => rfl
  | cons i rest ih =>
    cases i with
    | attr m tk =>
      by_cases hm : m = n
      · simpa [removeAttr, List.filter_cons, hm] using ih
      · simpa [removeAttr, List.filter_cons, hm, getAttr] using ih
    | sub r => simpa [removeAttr, List.filter_cons, getAttr] using ih

theorem removeAttr_getAttr_other (body : List BItem) (n m : String)
    (h : m ≠ n) : getAttr (removeAttr body n) m = getAttr body m := by
  induction body with
  | nil => rfl
  | cons i rest ih =>
    cases i with
    | attr k tk =>
      by_cases hk : k = n
      · subst hk
        simpa [removeAttr, List.filter_cons, getAttr, Ne.symm h] using ih
      · by_cases hk2 : k = m
        · simp [removeAttr, List.filter_cons, hk, getAttr, hk2, h]
        · simpa [removeAttr, List.filter_cons, hk, getAttr, hk2] using ih
    | sub r => simpa [removeAttr, List.filter_cons, getAttr] using ih

theorem removeAttr_absent (body : List BItem) (n : String)
    (h : getAttr body n = none) : removeAttr body n = body := by
  induction body with
  | nil => rfl
  | cons i rest ih =>
    cases i with
    | attr m tk =>
      by_cases hm : m = n
      · subst hm
        simp [getAttr] at h
      · simp only [getAttr, if_neg hm] at h
        simp [removeAttr, List.filter_cons, hm] at ih ⊢
        exact ih h
    | sub r =>
      simp only [getAttr] at h
      simp [removeAttr, List.filter_cons] at ih ⊢
      exact ih h

theorem getAttr_append (b1 b2 : List BItem) (n : String) :
    getAttr (b1 ++ b2) n =
      match getAttr b1 n with
      | some t => some t
      | none => getAttr b2 n := by
  induction b1 with
  | nil => simp [getAttr]
  | cons i rest ih =>
    cases i with
    | attr m tk =>
      by_cases hm : m = n
      · simp [getAttr, hm]
      · simpa [getAttr, hm] using ih
    | sub r => simpa [getAttr] using ih

theorem getAttr_append_some (b1 b2 : List BItem) (n : String)
    (t : List String) (h : getAttr b1 n = some t) :
    getAttr (b1 ++ b2) n = some t := by
  rw [getAttr_append, h]

theorem getAttr_replaceAttr_other (body : List BItem) (n m : String)
    (t : List String) (h : m ≠ n) :
    getAttr (replaceAttr body n t) m = getAttr body m := by
  induction body with
  | nil => rfl
  | cons i rest ih =>
    cases i with
    | attr k tk =>
      by_cases hk : k = n
      · subst hk
        simp [replaceAttr, getAttr, Ne.symm h]
      · by_cases hk2 : k = m
        · simp [replaceAttr, hk, getAttr, hk2, h]
        · simpa [replaceAttr, hk, getAttr, hk2] using ih
    | sub r => simpa [replaceAttr, getAttr] using ih

theorem getAttr_setAttrRaw_other (body : List BItem) (n m : String)
    (t : List String) (h : m ≠ n) :
    getAttr (setAttrRaw body n t) m = getAttr body m := by
  unfold setAttrRaw
  by_cases hs : (getAttr body n).isSome = true
  · rw [if_pos hs]
    exact getAttr_replaceAttr_other body n m t h
  · rw [if_neg hs, getAttr_append]
    cases hlo : getAttr body m with
    | some v => rfl
    | none => simp [getAttr, Ne.symm h]

theorem getAttr_replaceAttr_self_set (body : List BItem) (n : String)
    (t : List String) (h : (getAttr body n).isSome = true) :
    getAttr (replaceAttr body n t) n = some t := by
  induction body with
  | nil => simp [getAttr] at h
  | cons i rest ih =>
    cases i with
    | attr m tk =>
      by_cases hm : m = n
      · subst hm
        simp [replaceAttr, getAttr]
      · simp only [getAttr, if_neg hm] at h
        simpa [replaceAttr, hm, getAttr] using ih h
    | sub r =>
      simp only [getAttr] at h
      simpa [replaceAttr, getAttr] using ih h

theorem getAttr_setAttrRaw_self (body : List BItem) (n : String)
    (t : List String) : getAttr (setAttrRaw body n t) n = some t := by
  unfold setAttrRaw
  by_cases hs : (getAttr body n).isSome = true
  · rw [if_pos hs]
    exact getAttr_replaceAttr_self_set body n t hs
  · rw [if_neg hs, getAttr_append]
    cases hlo : getAttr body n with
    | some v => rw [hlo] at hs; simp at hs
    | none => simp [getAttr]

/-! ### Idempotence toolbox: removal and addition folds -/

theorem removeAttrsFold_mono_none (names : List String)
    (st : List BItem × Bool) (m : String) (h : getAttr st.1 m = none) :
    getAttr (removeAttrsFold names st).1 m = none := by
  induction names generalizing st with
  | nil => exact h
  | cons k rest ih =>
    rw [removeAttrsFold]
    by_cases hk : (getAttr st.1 k).isSome = true
    · rw [if_pos hk]
      apply ih
      by_cases hm : m = k
      · subst hm
        exact removeAttr_getAttr_self st.1 m
      · rw [removeAttr_getAttr_other st.1 k m hm]
        exact h
    · rw [if_neg hk]
      exact ih st h

theorem removeAttrsFold_other (names : List String)
    (st : List BItem × Bool) (m : String) (h : m ∉ names) :
    getAttr (removeAttrsFold names st).1 m = getAttr st.1 m := by
  induction names generalizing st with
  | nil => rfl
  | cons k rest ih =>
    have hm : m ≠ k := fun hc => h (by simp [hc])
    have hrest : m ∉ rest := fun hc => h (by simp [hc])
    rw [removeAttrsFold]
    by_cases hk : (getAttr st.1 k).isSome = true
    · rw [if_pos hk, ih _ hrest]
      exact removeAttr_getAttr_other st.1 k m hm
    · rw [if_neg hk]
      exact ih st hrest

theorem removeAttrsFold_post (names : List String)
    (st : List BItem × Bool) (n : String) (h : n ∈ names) :
    getAttr (removeAttrsFold names st).1 n = none := by
  induction names generalizing st with
  | nil => simp at h
  | cons k rest ih =>
    rw [removeAttrsFold]
    by_cases hn : n ∈ rest
    · by_cases hk : (getAttr st.1 k).isSome = true
      · rw [if_pos hk]
        exact ih _ hn
      · rw [if_neg hk]
        exact ih st hn
    · have hnk : n = k := by
        rcases List.mem_cons.1 h with h1 | h1
        · exact h1
        · exact absurd h1 hn
      subst hnk
      by_cases hk : (getAttr st.1 n).isSome = true
      · rw [if_pos hk]
        exact removeAttrsFold_mono_none rest _ n
          (removeAttr_getAttr_self st.1 n)
      · rw [if_neg hk]
        refine removeAttrsFold_mono_none rest st n ?_
        cases hlo : getAttr st.1 n with
        | some v => rw [hlo] at hk; simp at hk
        | none => rfl

theorem removeAttrsFold_inert (names : List String)
    (st : List BItem × Bool) (h : ∀ n ∈ names, getAttr st.1 n = none) :
    removeAttrsFold names st = st := by
  induction names generalizing st with
  | nil => rfl
  | cons k rest ih =>
    rw [removeAttrsFold, h k (by simp)]
    simp only [Option.isSome_none, Bool.false_eq_true, if_false]
    exact ih st (fun n hn => h n (by simp [hn]))

theorem addAttrsFold_mono_some (dflt : String → List String)
    (names : List String) (body : List BItem) (m : String)
    (t : List String) (h : getAttr body m = some t) :
    getAttr (addAttrsFold dflt names body) m = some t := by
  induction names generalizing body with
  | nil => exact h
  | cons k rest ih =>
    rw [addAttrsFold]
    by_cases hk : (getAttr body k).isSome = true
    · rw [if_pos hk]
      exact ih body h
    · rw [if_neg hk]
      exact ih _ (getAttr_append_some _ _ _ _ h)

theorem addAttrsFold_post (dflt : String → List String)
    (names : List String) (body : List BItem) (n : String)
    (h : n ∈ names) :
    (getAttr (addAttrsFold dflt names body) n).isSome = true := by
  induction names generalizing body with
  | nil => simp at h
  | cons k rest ih =>
    rw [addAttrsFold]
    by_cases hn : n ∈ rest
    · by_cases hk : (getAttr body k).isSome = true
      · rw [if_pos hk]
        exact ih _ hn
      · rw [if_neg hk]
        exact ih _ hn
    · have hnk : n = k := by
        rcases List.mem_cons.1 h with h1 | h1
        · exact h1
        · exact absurd h1 hn
      subst hnk
      by_cases hk : (getAttr body n).isSome = true
      · rw [if_pos hk]
        obtain ⟨t, ht⟩ := Option.isSome_iff_exists.1 hk
        rw [addAttrsFold_mono_some dflt rest body n t ht]
        rfl
      · rw [if_neg hk]
        have hset : getAttr (body ++ [BItem.attr n (dflt n)]) n =
            some (dflt n) := by
          rw [getAttr_append]
          cases hlo : getAttr body n with
          | some v => rw [hlo] at hk; simp at hk
          | none => simp [getAttr]
        rw [addAttrsFold_mono_some dflt rest _ n (dflt n) hset]
        rfl

theorem addAttrsFold_inert (dflt : String → List String)
    (names : List String) (body : List BItem)
    (h : ∀ n ∈ names, (getAttr body n).isSome = true) :
    addAttrsFold dflt names body = body := by
  induction names with
  | nil => rfl
  | cons k rest ih =>
    rw [addAttrsFold, if_pos (h k (by simp))]
    exact ih (fun n hn => h n (by simp [hn]))

theorem addAttrsFold_other (dflt : String → List String)
    (names : List String) (body : List BItem) (m : String)
    (h : m ∉ names) :
    getAttr (addAttrsFold dflt names body) m = getAttr body m := by
  induction names generalizing body with
  | nil => rfl
  | cons k rest ih =>
    have hm : m ≠ k := fun hc => h (by simp [hc])
    have hrest : m ∉ rest := fun hc => h (by simp [hc])
    rw [addAttrsFold]
    by_cases hk : (getAttr body k).isSome = true
    · rw [if_pos hk]
      exact ih body hrest
    · rw [if_neg hk]
      rw [ih _ hrest]
      rw [getAttr_append]
      cases hlo : getAttr body m with
      | some v => rfl
      | none => simp [getAttr, Ne.symm hm]

theorem addAttrsFold_new (dflt : String → List String)
    (names : List String) (body : List BItem) (n : String)
    (hnodup : names.Nodup) (hmem : n ∈ names) (h : getAttr body n = none) :
    getAttr (addAttrsFold dflt names body) n = some (dflt n) := by
  induction names generalizing body with
  | nil => simp at hmem
  | cons k rest ih =>
    rw [addAttrsFold]
    rcases List.mem_cons.1 hmem with rfl | hrest
    · rw [h]
      simp only [Option.isSome_none, Bool.false_eq_true, if_false]
      have hnotrest : n ∉ rest := (List.nodup_cons.1 hnodup).1
      rw [addAttrsFold_other dflt rest _ n hnotrest]
      rw [getAttr_append, h]
      simp [getAttr]
    · by_cases hk : (getAttr body k).isSome = true
      · rw [if_pos hk]
        exact ih body (List.nodup_cons.1 hnodup).2 hrest h
      · rw [if_neg hk]
        refine ih _ (List.nodup_cons.1 hnodup).2 hrest ?_
        have hnk : n ≠ k := by
          intro hc
          exact (List.nodup_cons.1 hnodup).1 (hc ▸ hrest)
        rw [getAttr_append, h]
        simp [getAttr, Ne.symm hnk]

/-! ### Idempotence toolbox: block maps and the generic pass -/

/-- The shape-preserving lift of a per-block transformation. -/
def liftBlock (f : Block → Block × Bool) (i : TopItem) : TopItem :=
  match i with
  | TopItem.block b => TopItem.block (f b).1
  | TopItem.attr n t => TopItem.attr n t

theorem mapBlocks_fst (f : Block → Block × Bool) (ast : HclFile) :
    (mapBlocks f ast).1 = ast.map (liftBlock f) := by
  induction ast with
  | nil => rfl
  | cons i rest ih =>
    cases i with
    | attr n t => simp [mapBlocks, liftBlock, List.foldr_cons] at ih ⊢; exact ih
    | block b => simp [mapBlocks, liftBlock, List.foldr_cons] at ih ⊢; exact ih

theorem mapBlocks_inert (f : Block → Block × Bool) (ast : HclFile)
    (h : ∀ b : Block, TopItem.block b ∈ ast → f b = (b, false)) :
    mapBlocks f ast = (ast, false) := by
  induction ast with
  | nil => rfl
  | cons i rest ih =>
    have hrest := ih (fun b hb => h b (by simp [hb]))
    cases i with
    | attr n t =>
      simp only [mapBlocks, List.foldr_cons] at hrest ⊢
      rw [hrest]
    | block b =>
      simp only [mapBlocks, List.foldr_cons] at hrest ⊢
      rw [hrest, h b (by simp)]
      rfl

theorem mapBlocks_inert_fst (f : Block → Block × Bool) (ast : HclFile)
    (h : ∀ b : Block, TopItem.block b ∈ ast → (f b).1 = b) :
    (mapBlocks f ast).1 = ast := by
  rw [mapBlocks_fst]
  conv_rhs => rw [show ast = ast.map id from (List.map_id ast).symm]
  refine List.map_congr_left ?_
  intro i hi
  cases i with
  | attr n t => rfl
  | block b =>
    simp only [liftBlock, id]
    rw [h b hi]

theorem mapBlocks_mem_rev (f : Block → Block × Bool) (ast : HclFile)
    (b' : Block) (h : TopItem.block b' ∈ (mapBlocks f ast).1) :
    ∃ b : Block, TopItem.block b ∈ ast ∧ (f b).1 = b' := by
  rw [mapBlocks_fst] at h
  obtain ⟨i, hi, hmap⟩ := List.mem_map.1 h
  cases i with
  | attr n t => simp [liftBlock] at hmap
  | block b =>
    refine ⟨b, hi, ?_⟩
    simpa [liftBlock] using hmap

/-- Residual cleanliness after the generic pass. -/
def GenCleanBlock (b : Block) : Prop :=
  getAttr b.body "cc_metadata" = none ∧
  (b.typ = "module" → ∀ n ∈ moduleAttrsToRemove, getAttr b.body n = none)

theorem removeAttr_mono_none (body : List BItem) (n m : String)
    (h : getAttr body m = none) : getAttr (removeAttr body n) m = none := by
  by_cases hm : m = n
  · subst hm
    exact removeAttr_getAttr_self body m
  · rw [removeAttr_getAttr_other body n m hm]
    exact h

theorem genericBlockPass_shape (b : Block) :
    (genericBlockPass b).1.typ = b.typ ∧
    (genericBlockPass b).1.labels = b.labels := ⟨rfl, rfl⟩

theorem genericBlockPass_preserve (b : Block) (m : String)
    (h1 : m ≠ "cc_metadata") (h2 : m ∉ moduleAttrsToRemove) :
    getAttr (genericBlockPass b).1.body m = getAttr b.body m := by
  unfold genericBlockPass
  by_cases hcc : (getAttr b.body "cc_metadata").isSome = true
  · by_cases hmod : b.typ = "module"
    · simp only [hcc, if_true, hmod, if_pos]
      rw [removeAttrsFold_other _ _ m h2]
      exact removeAttr_getAttr_other _ _ _ h1
    · simp only [hcc, if_true, hmod, if_false]
      exact removeAttr_getAttr_other _ _ _ h1
  · by_cases hmod : b.typ = "module"
    · simp only [hcc, Bool.false_eq_true, if_false, hmod, if_pos]
      exact removeAttrsFold_other _ _ m h2
    · simp only [hcc, Bool.false_eq_true, if_false, hmod]

theorem genericBlockPass_post (b : Block) :
    GenCleanBlock (genericBlockPass b).1 := by
  unfold GenCleanBlock genericBlockPass
  by_cases hmod : b.typ = "module"
  · constructor
    · by_cases hcc : (getAttr b.body "cc_metadata").isSome = true
      · simp only [hcc, if_true, hmod, if_pos]
        refine removeAttrsFold_mono_none _ _ _ ?_
        exact removeAttr_getAttr_self b.body "cc_metadata"
      · simp only [hcc, Bool.false_eq_true, if_false, hmod, if_pos]
        refine removeAttrsFold_mono_none _ _ _ ?_
        cases hlo : getAttr b.body "cc_metadata" with
        | some v => rw [hlo] at hcc; simp at hcc
        | none => rfl
    · intro _ n hn
      by_cases hcc : (getAttr b.body "cc_metadata").isSome = true
      · simp only [hcc, if_true, hmod, if_pos]
        exact removeAttrsFold_post _ _ n hn
      · simp only [hcc, Bool.false_eq_true, if_false, hmod, if_pos]
        exact removeAttrsFold_post _ _ n hn
  · constructor
    · by_cases hcc : (getAttr b.body "cc_metadata").isSome = true
      · simp only [hcc, if_true, hmod, if_false]
        exact removeAttr_getAttr_self b.body "cc_metadata"
      · simp only [hcc, Bool.false_eq_true, if_false, hmod]
        cases hlo : getAttr b.body "cc_metadata" with
        | some v => rw [hlo] at hcc; simp at hcc
        | none => rfl
    · intro hcon
      exact absurd hcon hmod

theorem genericBlockPass_inert (b : Block) (h : GenCleanBlock b) :
    genericBlockPass b = (b, false) := by
  obtain ⟨h1, h2⟩ := h
  unfold genericBlockPass
  rw [h1]
  simp only [Option.isSome_none, Bool.false_eq_true, if_false]
  by_cases hmod : b.typ = "module"
  · rw [if_pos hmod, removeAttrsFold_inert _ _ (h2 hmod)]
  · rw [if_neg hmod]

/-! ### Idempotence toolbox: level2 and root main.tf blocks -/

theorem mem_removeAttr (body : List BItem) (n : String) (i : BItem)
    (h : i ∈ removeAttr body n) : i ∈ body :=
  (List.mem_filter.1 h).1

theorem mem_replaceAttr (body : List BItem) (n : String)
    (tk : List String) (m : String) (t : List String)
    (h : BItem.attr m t ∈ replaceAttr body n tk) :
    BItem.attr m t ∈ body ∨ m = n := by
  induction body with
  | nil => exact absurd h (List.not_mem_nil _)
  | cons i rest ih =>
    cases i with
    | attr k ktk =>
      by_cases hk : k = n
      · subst hk
        simp only [replaceAttr, if_pos rfl] at h
        rcases List.mem_cons.1 h with h1 | h1
        · injection h1 with hm ht
          exact Or.inr hm
        · exact Or.inl (List.mem_cons_of_mem _ h1)
      · simp only [replaceAttr, if_neg hk] at h
        rcases List.mem_cons.1 h with h1 | h1
        · exact Or.inl (by rw [h1]; exact List.mem_cons_self _ _)
        · rcases ih h1 with h2 | h2
          · exact Or.inl (List.mem_cons_of_mem _ h2)
          · exact Or.inr h2
    | sub r =>
      simp only [replaceAttr] at h
      rcases List.mem_cons.1 h with h1 | h1
      · cases h1
      · rcases ih h1 with h2 | h2
        · exact Or.inl (List.mem_cons_of_mem _ h2)
        · exact Or.inr h2

theorem mem_setAttrRaw (body : List BItem) (n : String) (tk : List String)
    (m : String) (t : List String)
    (h : BItem.attr m t ∈ setAttrRaw body n tk) :
    BItem.attr m t ∈ body ∨ m = n := by
  unfold setAttrRaw at h
  by_cases hs : (getAttr body n).isSome = true
  · rw [if_pos hs] at h
    exact mem_replaceAttr body n tk m t h
  · rw [if_neg hs] at h
    rcases List.mem_append.1 h with h2 | h2
    · exact Or.inl h2
    · simp only [List.mem_singleton] at h2
      cases h2
      exact Or.inr rfl

theorem mem_removeAttrsFold (names : List String) (st : List BItem × Bool)
    (i : BItem) (h : i ∈ (removeAttrsFold names st).1) : i ∈ st.1 := by
  induction names generalizing st with
  | nil => exact h
  | cons k rest ih =>
    rw [removeAttrsFold] at h
    by_cases hk : (getAttr st.1 k).isSome = true
    · rw [if_pos hk] at h
      exact mem_removeAttr _ _ _ (ih _ h)
    · rw [if_neg hk] at h
      exact ih st h

theorem mem_addAttrsFold (dflt : String → List String)
    (names : List String) (body : List BItem) (m : String)
    (t : List String) (h : BItem.attr m t ∈ addAttrsFold dflt names body) :
    BItem.attr m t ∈ body ∨ m ∈ names := by
  induction names generalizing body with
  | nil => exact Or.inl h
  | cons k rest ih =>
    rw [addAttrsFold] at h
    by_cases hk : (getAttr body k).isSome = true
    · rw [if_pos hk] at h
      rcases ih _ h with h2 | h2
      · exact Or.inl h2
      · exact Or.inr (by simp [h2])
    · rw [if_neg hk] at h
      rcases ih _ h with h2 | h2
      · rcases List.mem_append.1 h2 with h3 | h3
        · exact Or.inl h3
        · simp only [List.mem_singleton] at h3
          cases h3
          exact Or.inr (by simp)
      · exact Or.inr (by simp [h2])

/-- Stability of one block under `fixLevel2MainTf`. -/
def FixL2Stable (b : Block) : Prop :=
  b.typ = "module" → moduleName b ≠ "blueprint_self" →
    moduleName b ≠ "environment" →
    ((∀ n t, BItem.attr n t ∈ b.body → n ∈ allowedLevel2Attrs) ∧
     (∀ n ∈ requiredModuleVars, (getAttr b.body n).isSome = true))

theorem fixL2Block_inert (b : Block) (h : FixL2Stable b) :
    fixL2Block b = b := by
  unfold fixL2Block
  by_cases hmod : b.typ ≠ "module"
  · rw [if_pos hmod]
  · rw [if_neg hmod]
    by_cases hskip : moduleName b = "blueprint_self" ∨
        moduleName b = "environment"
    · rw [if_pos hskip]
    · rw [if_neg hskip]
      push_neg at hskip hmod
      obtain ⟨h1, h2⟩ := h hmod hskip.1 hskip.2
      have hfilter : b.body.filter keepAllowed = b.body := by
        refine List.filter_eq_self.2 ?_
        intro i hi
        cases i with
        | attr n t =>
          simp only [keepAllowed]
          simpa using h1 n t hi
        | sub r => rfl
      rw [hfilter, addAttrsFold_inert _ _ _ h2]

/-- `fixLevel2MainTf` establishes its own stability on every block. -/
theorem fixL2Block_post (b : Block) : FixL2Stable (fixL2Block b) := by
  unfold fixL2Block
  by_cases hmod : b.typ ≠ "module"
  · rw [if_pos hmod]
    intro hcon
    exact absurd hcon hmod
  · rw [if_neg hmod]
    by_cases hskip : moduleName b = "blueprint_self" ∨
        moduleName b = "environment"
    · rw [if_pos hskip]
      intro _ hbs henv
      rcases hskip with hc | hc
      · exact absurd hc hbs
      · exact absurd hc henv
    · rw [if_neg hskip]
      intro _ _ _
      constructor
      · intro n t hmem
        rcases mem_addAttrsFold _ _ _ _ _ hmem with h2 | h2
        · have := (List.mem_filter.1 h2).2
          simpa [keepAllowed] using this
        · have hsub : ∀ x ∈ requiredModuleVars, x ∈ allowedLevel2Attrs := by
            decide
          exact hsub n h2
      · intro n hn
        exact addAttrsFold_post _ _ _ n hn

/-- Stability of one block under the level2 `main.tf` cleanup. -/
def L2Stable (b : Block) : Prop :=
  b.typ = "module" → moduleName b ≠ "blueprint_self" →
    ((∀ n ∈ attributesToCleanL2, getAttr b.body n = none) ∧
     (∀ t, getAttr b.body "providers" = some t → ¬ (t.length ≤ 3)) ∧
     (∃ t, getAttr b.body "inputs" = some t ∧
       ((t.contains "deployment_id" || decide (t.length ≤ 3)) = true →
         t = ["\x7b", "\x7d"])))

theorem cleanupL2Module_shape (b : Block) :
    (cleanupL2Module b).1.typ = b.typ ∧
    (cleanupL2Module b).1.labels = b.labels := by
  unfold cleanupL2Module
  by_cases hmod : b.typ ≠ "module"
  · rw [if_pos hmod]
    exact ⟨rfl, rfl⟩
  · rw [if_neg hmod]
    by_cases hbs : moduleName b = "blueprint_self"
    · rw [if_pos hbs]
      exact ⟨rfl, rfl⟩
    · rw [if_neg hbs]
      exact ⟨rfl, rfl⟩

theorem dropEmptyAttr_none (name : String) (st : List BItem × Bool)
    (h : getAttr st.1 name = none) : dropEmptyAttr name st = st := by
  unfold dropEmptyAttr
  rw [h]

theorem dropEmptyAttr_keep (name : String) (st : List BItem × Bool)
    (t : List String) (h : getAttr st.1 name = some t)
    (hlen : ¬ (t.length ≤ 3)) : dropEmptyAttr name st = st := by
  unfold dropEmptyAttr
  rw [h]
  simp [hlen]

theorem dropEmptyAttr_drop (name : String) (st : List BItem × Bool)
    (t : List String) (h : getAttr st.1 name = some t)
    (hlen : t.length ≤ 3) :
    dropEmptyAttr name st = (removeAttr st.1 name, true) := by
  unfold dropEmptyAttr
  rw [h]
  simp [hlen]

theorem forceInputs_keep (st : List BItem × Bool) (t : List String)
    (h : getAttr st.1 "inputs" = some t)
    (htrig : ¬ ((t.contains "deployment_id" ||
      decide (t.length ≤ 3)) = true)) : forceInputs st = st := by
  unfold forceInputs
  rw [h]
  exact if_neg htrig

theorem forceInputs_set_some (st : List BItem × Bool) (t : List String)
    (h : getAttr st.1 "inputs" = some t)
    (htrig : (t.contains "deployment_id" || decide (t.length ≤ 3)) = true) :
    forceInputs st = (setAttrRaw st.1 "inputs" ["\x7b", "\x7d"], true) := by
  unfold forceInputs
  rw [h]
  exact if_pos htrig

theorem forceInputs_set_none (st : List BItem × Bool)
    (h : getAttr st.1 "inputs" = none) :
    forceInputs st = (setAttrRaw st.1 "inputs" ["\x7b", "\x7d"], true) := by
  unfold forceInputs
  rw [h]

theorem cleanupL2Module_inert_fst (b : Block) (h : L2Stable b) :
    (cleanupL2Module b).1 = b := by
  unfold cleanupL2Module
  by_cases hmod : b.typ ≠ "module"
  · rw [if_pos hmod]
  · rw [if_neg hmod]
    by_cases hbs : moduleName b = "blueprint_self"
    · rw [if_pos hbs]
    · rw [if_neg hbs]
      push_neg at hmod
      obtain ⟨h1, h2, t, ht, htr⟩ := h hmod hbs
      rw [removeAttrsFold_inert _ _ h1]
      have hdrop : dropEmptyAttr "providers" (b.body, false) =
          (b.body, false) := by
        cases hp : getAttr b.body "providers" with
        | some tp => exact dropEmptyAttr_keep _ _ tp hp (h2 tp hp)
        | none => exact dropEmptyAttr_none _ _ hp
      rw [hdrop]
      by_cases htrig : (t.contains "deployment_id" ||
          decide (t.length ≤ 3)) = true
      · rw [forceInputs_set_some _ t ht htrig]
        simp only
        rw [htr htrig] at ht
        rw [setAttrRaw_self _ _ _ ht]
      · rw [forceInputs_keep _ t ht htrig]

theorem dropEmptyAttr_preserve (name : String) (st : List BItem × Bool)
    (m : String) (h : m ≠ name) :
    getAttr (dropEmptyAttr name st).1 m = getAttr st.1 m := by
  cases hp : getAttr st.1 name with
  | some t =>
    by_cases hlen : t.length ≤ 3
    · rw [dropEmptyAttr_drop name st t hp hlen]
      exact removeAttr_getAttr_other _ _ _ h
    · rw [dropEmptyAttr_keep name st t hp hlen]
  | none => rw [dropEmptyAttr_none name st hp]

theorem dropEmptyAttr_post (name : String) (st : List BItem × Bool)
    (t' : List String)
    (h : getAttr (dropEmptyAttr name st).1 name = some t') :
    ¬ (t'.length ≤ 3) := by
  cases hp : getAttr st.1 name with
  | some t =>
    by_cases hlen : t.length ≤ 3
    · rw [dropEmptyAttr_drop name st t hp hlen] at h
      rw [removeAttr_getAttr_self] at h
      cases h
    · rw [dropEmptyAttr_keep name st t hp hlen, hp] at h
      cases h
      exact hlen
  | none =>
    rw [dropEmptyAttr_none name st hp, hp] at h
    cases h

theorem forceInputs_preserve (st : List BItem × Bool) (m : String)
    (h : m ≠ "inputs") :
    getAttr (forceInputs st).1 m = getAttr st.1 m := by
  cases hp : getAttr st.1 "inputs" with
  | some t =>
    by_cases htrig : (t.contains "deployment_id" ||
        decide (t.length ≤ 3)) = true
    · rw [forceInputs_set_some st t hp htrig]
      exact getAttr_setAttrRaw_other _ _ _ _ h
    · rw [forceInputs_keep st t hp htrig]
  | none =>
    rw [forceInputs_set_none st hp]
    exact getAttr_setAttrRaw_other _ _ _ _ h

theorem forceInputs_post (st : List BItem × Bool) :
    ∃ t', getAttr (forceInputs st).1 "inputs" = some t' ∧
      ((t'.contains "deployment_id" || decide (t'.length ≤ 3)) = true →
        t' = ["\x7b", "\x7d"]) := by
  cases hp : getAttr st.1 "inputs" with
  | some t =>
    by_cases htrig : (t.contains "deployment_id" ||
        decide (t.length ≤ 3)) = true
    · rw [forceInputs_set_some st t hp htrig]
      exact ⟨["\x7b", "\x7d"], getAttr_setAttrRaw_self _ _ _, fun _ => rfl⟩
    · rw [forceInputs_keep st t hp htrig]
      exact ⟨t, hp, fun hc => absurd hc htrig⟩
  | none =>
    rw [forceInputs_set_none st hp]
    exact ⟨["\x7b", "\x7d"], getAttr_setAttrRaw_self _ _ _, fun _ => rfl⟩

theorem cleanupL2Module_preserve (b : Block) (m : String)
    (h1 : m ∉ attributesToCleanL2) (h2 : m ≠ "providers")
    (h3 : m ≠ "inputs") :
    getAttr (cleanupL2Module b).1.body m = getAttr b.body m := by
  unfold cleanupL2Module
  by_cases hmod : b.typ ≠ "module"
  · rw [if_pos hmod]
  · rw [if_neg hmod]
    by_cases hbs : moduleName b = "blueprint_self"
    · rw [if_pos hbs]
    · rw [if_neg hbs]
      simp only
      rw [forceInputs_preserve _ _ h3, dropEmptyAttr_preserve _ _ _ h2,
        removeAttrsFold_other _ _ _ h1]

theorem cleanupL2Module_post (b : Block) :
    L2Stable (cleanupL2Module b).1 := by
  unfold cleanupL2Module
  by_cases hmod : b.typ ≠ "module"
  · rw [if_pos hmod]
    intro hc
    exact absurd hc hmod
  · rw [if_neg hmod]
    by_cases hbs : moduleName b = "blueprint_self"
    · rw [if_pos hbs]
      intro _ hc
      exact absurd hbs hc
    · rw [if_neg hbs]
      intro _ _
      simp only
      refine ⟨?_, ?_, ?_⟩
      · intro n hn
        have hni : n ≠ "inputs" := by
          intro hc
          subst hc
          revert hn
          decide
        have hnp : n ≠ "providers" := by
          intro hc
          subst hc
          revert hn
          decide
        rw [forceInputs_preserve _ _ hni, dropEmptyAttr_preserve _ _ _ hnp]
        exact removeAttrsFold_post _ _ _ hn
      · intro t ht
        rw [forceInputs_preserve _ _ (by decide)] at ht
        exact dropEmptyAttr_post _ _ t ht
      · exact forceInputs_post _

theorem dropEmptyAttr_mem (name : String) (st : List BItem × Bool)
    (i : BItem) (h : i ∈ (dropEmptyAttr name st).1) : i ∈ st.1 := by
  cases hp : getAttr st.1 name with
  | some t =>
    by_cases hlen : t.length ≤ 3
    · rw [dropEmptyAttr_drop name st t hp hlen] at h
      exact mem_removeAttr _ _ _ h
    · rwa [dropEmptyAttr_keep name st t hp hlen] at h
  | none => rwa [dropEmptyAttr_none name st hp] at h

theorem forceInputs_mem (st : List BItem × Bool) (m : String)
    (t : List String) (h : BItem.attr m t ∈ (forceInputs st).1) :
    BItem.attr m t ∈ st.1 ∨ m = "inputs" := by
  cases hp : getAttr st.1 "inputs" with
  | some t0 =>
    by_cases htrig : (t0.contains "deployment_id" ||
        decide (t0.length ≤ 3)) = true
    · rw [forceInputs_set_some st t0 hp htrig] at h
      exact mem_setAttrRaw _ _ _ _ _ h
    · rw [forceInputs_keep st t0 hp htrig] at h
      exact Or.inl h
  | none =>
    rw [forceInputs_set_none st hp] at h
    exact mem_setAttrRaw _ _ _ _ _ h

theorem mem_cleanupL2Module (b : Block) (m : String) (t : List String)
    (h : BItem.attr m t ∈ (cleanupL2Module b).1.body) :
    BItem.attr m t ∈ b.body ∨ m = "inputs" := by
  unfold cleanupL2Module at h
  by_cases hmod : b.typ ≠ "module"
  · rw [if_pos hmod] at h
    exact Or.inl h
  · rw [if_neg hmod] at h
    by_cases hbs : moduleName b = "blueprint_self"
    · rw [if_pos hbs] at h
      exact Or.inl h
    · rw [if_neg hbs] at h
      simp only at h
      rcases forceInputs_mem _ _ _ h with h2 | h2
      · exact Or.inl (mem_removeAttrsFold _ _ _
          (dropEmptyAttr_mem _ _ _ h2))
      · exact Or.inr h2

theorem mem_genericBlockPass (b : Block) (i : BItem)
    (h : i ∈ (genericBlockPass b).1.body) : i ∈ b.body := by
  unfold genericBlockPass at h
  by_cases hmod : b.typ = "module"
  · by_cases hcc : (getAttr b.body "cc_metadata").isSome = true
    · simp only [hcc, if_true, hmod, if_pos] at h
      exact mem_removeAttr _ _ _ (mem_removeAttrsFold _ _ _ h)
    · simp only [hcc, Bool.false_eq_true, if_false, hmod, if_pos] at h
      exact mem_removeAttrsFold _ _ _ h
  · by_cases hcc : (getAttr b.body "cc_metadata").isSome = true
    · simp only [hcc, if_true, hmod, if_false] at h
      exact mem_removeAttr _ _ _ h
    · simp only [hcc, Bool.false_eq_true, if_false, hmod, if_false] at h
      exact h

theorem fixL2Block_shape (b : Block) :
    (fixL2Block b).typ = b.typ ∧ (fixL2Block b).labels = b.labels := by
  unfold fixL2Block
  by_cases hmod : b.typ ≠ "module"
  · rw [if_pos hmod]
    exact ⟨rfl, rfl⟩
  · rw [if_neg hmod]
    by_cases hskip : moduleName b = "blueprint_self" ∨
        moduleName b = "environment"
    · rw [if_pos hskip]
      exact ⟨rfl, rfl⟩
    · rw [if_neg hskip]
      exact ⟨rfl, rfl⟩

/-- The composition applied by one `CleanExportedFiles` run to each block
of `tfexport/level2/main.tf`. -/
def l2BlockPipeline (b : Block) : Block :=
  (genericBlockPass (cleanupL2Module (fixL2Block b)).1).1

/-- Joint stability of a level2 main.tf block under all three passes. -/
def L2AllStable (b : Block) : Prop :=
  FixL2Stable b ∧ L2Stable b ∧ GenCleanBlock b

theorem l2BlockPipeline_inert (b : Block) (h : L2AllStable b) :
    fixL2Block b = b ∧ (cleanupL2Module b).1 = b ∧
    genericBlockPass b = (b, false) := by
  obtain ⟨h1, h2, h3⟩ := h
  exact ⟨fixL2Block_inert b h1, cleanupL2Module_inert_fst b h2,
    genericBlockPass_inert b h3⟩

theorem l2BlockPipeline_post (b : Block) :
    L2AllStable (l2BlockPipeline b) := by
  have hfs := fixL2Block_shape b
  have hcs := cleanupL2Module_shape (fixL2Block b)
  have hgs := genericBlockPass_shape (cleanupL2Module (fixL2Block b)).1
  unfold l2BlockPipeline
  refine ⟨?_, ?_, genericBlockPass_post _⟩
  · intro htyp hbs henv
    have hctyp : (cleanupL2Module (fixL2Block b)).1.typ = "module" := by
      rw [← hgs.1]
      exact htyp
    have hcbs : moduleName (cleanupL2Module (fixL2Block b)).1 ≠
        "blueprint_self" := by
      intro hcon
      apply hbs
      unfold moduleName at hcon ⊢
      rw [hgs.2]
      exact hcon
    have hcenv : moduleName (cleanupL2Module (fixL2Block b)).1 ≠
        "environment" := by
      intro hcon
      apply henv
      unfold moduleName at hcon ⊢
      rw [hgs.2]
      exact hcon
    have hftyp : (fixL2Block b).typ = "module" := by
      rw [← hcs.1]
      exact hctyp
    have hfbs : moduleName (fixL2Block b) ≠ "blueprint_self" := by
      intro hcon
      apply hcbs
      unfold moduleName at hcon ⊢
      rw [hcs.2]
      exact hcon
    have hfenv : moduleName (fixL2Block b) ≠ "environment" := by
      intro hcon
      apply hcenv
      unfold moduleName at hcon ⊢
      rw [hcs.2]
      exact hcon
    obtain ⟨hall, hreq⟩ := fixL2Block_post b hftyp hfbs hfenv
    obtain ⟨hc1, hc2, hc3⟩ :=
      cleanupL2Module_post (fixL2Block b) hctyp hcbs
    constructor
    · intro n t hmem
      have h1 := mem_genericBlockPass _ _ hmem
      rcases mem_cleanupL2Module _ n t h1 with h2 | h2
      · exact hall n t h2
      · subst h2
        decide
    · intro n hn
      have hfacts : n ≠ "cc_metadata" ∧ n ∉ moduleAttrsToRemove := by
        have hdec : ∀ m ∈ requiredModuleVars,
            m ≠ "cc_metadata" ∧ m ∉ moduleAttrsToRemove := by decide
        exact hdec n hn
      rw [genericBlockPass_preserve _ n hfacts.1 hfacts.2]
      by_cases hni : n = "inputs"
      · subst hni
        obtain ⟨t', ht', _⟩ := hc3
        rw [ht']
        rfl
      · have hfacts2 : n ∉ attributesToCleanL2 ∧ n ≠ "providers" := by
          have hdec : ∀ m ∈ requiredModuleVars, m = "inputs" ∨
              (m ∉ attributesToCleanL2 ∧ m ≠ "providers") := by decide
          rcases hdec n hn with hcon | hok
          · exact absurd hcon hni
          · exact hok
        rw [cleanupL2Module_preserve _ n hfacts2.1 hfacts2.2 hni]
        exact hreq n hn
  · intro htyp hbs
    have hctyp : (cleanupL2Module (fixL2Block b)).1.typ = "module" := by
      rw [← hgs.1]
      exact htyp
    have hcbs : moduleName (cleanupL2Module (fixL2Block b)).1 ≠
        "blueprint_self" := by
      intro hcon
      apply hbs
      unfold moduleName at hcon ⊢
      rw [hgs.2]
      exact hcon
    obtain ⟨hc1, hc2, hc3⟩ :=
      cleanupL2Module_post (fixL2Block b) hctyp hcbs
    have hgen := genericBlockPass_post (cleanupL2Module (fixL2Block b)).1
    refine ⟨?_, ?_, ?_⟩
    · intro n hn
      have hsub : n ∈ moduleAttrsToRemove := by
        have hdec : ∀ m ∈ attributesToCleanL2, m ∈ moduleAttrsToRemove := by
          decide
        exact hdec n hn
      exact hgen.2 htyp n hsub
    · intro t ht
      rw [genericBlockPass_preserve _ "providers" (by decide)
        (by decide)] at ht
      exact hc2 t ht
    · obtain ⟨t', ht', htr⟩ := hc3
      refine ⟨t', ?_, htr⟩
      rw [genericBlockPass_preserve _ "inputs" (by decide) (by decide)]
      exact ht'

/-! ### Idempotence toolbox: file-level second runs -/

/-- Every block of a generic-pass output file is generically clean. -/
theorem genClean_of_output (sw : HclFile) (B : Block)
    (hB : TopItem.block B ∈ (mapBlocks genericBlockPass sw).1) :
    GenCleanBlock B := by
  obtain ⟨b0, _, hb0⟩ := mapBlocks_mem_rev _ _ _ hB
  rw [← hb0]
  exact genericBlockPass_post b0

theorem mapBlocks_gen_inert_of (a : HclFile)
    (h : ∀ B : Block, TopItem.block B ∈ a → GenCleanBlock B) :
    mapBlocks genericBlockPass a = (a, false) :=
  mapBlocks_inert _ _ (fun b hb => genericBlockPass_inert b (h b hb))

/-- The generic pass keeps a block stable for the level2 cleanup. -/
theorem genericBlockPass_keeps_L2Stable (b : Block) (h : L2Stable b) :
    L2Stable (genericBlockPass b).1 := by
  have hgs := genericBlockPass_shape b
  intro htyp hbs
  have hbtyp : b.typ = "module" := by
    rw [← hgs.1]
    exact htyp
  have hbbs : moduleName b ≠ "blueprint_self" := by
    intro hcon
    apply hbs
    unfold moduleName at hcon ⊢
    rw [hgs.2]
    exact hcon
  obtain ⟨hc1, hc2, hc3⟩ := h hbtyp hbbs
  refine ⟨?_, ?_, ?_⟩
  · intro n hn
    have hsub : n ∈ moduleAttrsToRemove := by
      have hdec : ∀ m ∈ attributesToCleanL2, m ∈ moduleAttrsToRemove := by
        decide
      exact hdec n hn
    exact (genericBlockPass_post b).2 htyp n hsub
  · intro t ht
    rw [genericBlockPass_preserve _ "providers" (by decide)
      (by decide)] at ht
    exact hc2 t ht
  · obtain ⟨t, ht, htr⟩ := hc3
    refine ⟨t, ?_, htr⟩
    rw [genericBlockPass_preserve _ "inputs" (by decide) (by decide)]
    exact ht

/-- Blocks of a non-canonical level2 `main.tf` after the first run. -/
theorem l2_blocks_stable (ast0 : HclFile) (B : Block)
    (hB : TopItem.block B ∈
      (mapBlocks genericBlockPass (mapBlocks cleanupL2Module ast0).1).1) :
    L2Stable B ∧ GenCleanBlock B := by
  obtain ⟨c, hc, hcB⟩ := mapBlocks_mem_rev _ _ _ hB
  obtain ⟨b0, hb0, hb0c⟩ := mapBlocks_mem_rev _ _ _ hc
  constructor
  · rw [← hcB, ← hb0c]
    exact genericBlockPass_keeps_L2Stable _ (cleanupL2Module_post b0)
  · rw [← hcB]
    exact genericBlockPass_post c

/-- Blocks of the canonical `tfexport/level2/main.tf` after the first
run are stable for all three passes. -/
theorem l2_canonical_blocks (ast : HclFile) (B : Block)
    (hB : TopItem.block B ∈ (mapBlocks genericBlockPass
      (mapBlocks cleanupL2Module (fixLevel2MainTf ast)).1).1) :
    L2AllStable B := by
  obtain ⟨c, hc, hcB⟩ := mapBlocks_mem_rev _ _ _ hB
  obtain ⟨f, hf, hfc⟩ := mapBlocks_mem_rev _ _ _ hc
  obtain ⟨i, hi, hif⟩ := List.mem_map.1 hf
  cases i with
  | attr n t =>
    have hif' : TopItem.attr n t = TopItem.block f := hif
    cases hif'
  | block b0 =>
    have hif' : TopItem.block (fixL2Block b0) = TopItem.block f := hif
    injection hif' with hf2
    have hpost := l2BlockPipeline_post b0
    unfold l2BlockPipeline at hpost
    rw [hf2, hfc, hcB] at hpost
    exact hpost

/-- `fixLevel2MainTf` is the identity on a file of stable blocks. -/
theorem fixLevel2MainTf_inert (a : HclFile)
    (h : ∀ B : Block, TopItem.block B ∈ a → FixL2Stable B) :
    fixLevel2MainTf a = a := by
  unfold fixLevel2MainTf
  conv_rhs => rw [show a = a.map id from (List.map_id a).symm]
  refine List.map_congr_left ?_
  intro i hi
  cases i with
  | attr n t => rfl
  | block b =>
    simp only [id]
    rw [fixL2Block_inert b (h b hi)]

/-! ### Idempotence toolbox: root `main.tf` and variable-block removal -/

/-- Stability of a block under the root `main.tf` cleanup. -/
def RootMainStable (b : Block) : Prop :=
  b.typ = "module" ∧ b.labels.head? = some "level2" →
    (getAttr b.body "cc_metadata" = none ∧
     getAttr b.body "deployment_id" = none ∧
     (∀ t, getAttr b.body "providers" = some t → ¬ (t.length ≤ 3)) ∧
     getAttr b.body "state" = none)

theorem cleanupRootMainBlock_shape (b : Block) :
    (cleanupRootMainBlock b).1.typ = b.typ ∧
    (cleanupRootMainBlock b).1.labels = b.labels := by
  unfold cleanupRootMainBlock
  by_cases hg : b.typ = "module" ∧ b.labels.head? = some "level2"
  · rw [if_pos hg]
    exact ⟨rfl, rfl⟩
  · rw [if_neg hg]
    exact ⟨rfl, rfl⟩

theorem cleanupRootMainBlock_inert (b : Block) (h : RootMainStable b) :
    cleanupRootMainBlock b = (b, false) := by
  unfold cleanupRootMainBlock
  by_cases hg : b.typ = "module" ∧ b.labels.head? = some "level2"
  · rw [if_pos hg]
    obtain ⟨h1, h2, h3, h4⟩ := h hg
    have hrm : removeAttrsFold ["cc_metadata", "deployment_id"]
        (b.body, false) = (b.body, false) := by
      refine removeAttrsFold_inert _ _ ?_
      intro n hn
      rcases List.mem_cons.1 hn with rfl | hn2
      · exact h1
      · rcases List.mem_cons.1 hn2 with rfl | hn3
        · exact h2
        · exact absurd hn3 (List.not_mem_nil _)
    rw [hrm]
    have hdp : dropEmptyAttr "providers" (b.body, false) =
        (b.body, false) := by
      cases hp : getAttr b.body "providers" with
      | some t => exact dropEmptyAttr_keep _ _ t hp (h3 t hp)
      | none => exact dropEmptyAttr_none _ _ hp
    rw [hdp, dropEmptyAttr_none _ _ h4]
  · rw [if_neg hg]

theorem cleanupRootMainBlock_providers (b : Block)
    (hg : b.typ = "module" ∧ b.labels.head? = some "level2") :
    ∀ t, getAttr (cleanupRootMainBlock b).1.body "providers" = some t →
      ¬ (t.length ≤ 3) := by
  unfold cleanupRootMainBlock
  rw [if_pos hg]
  intro t ht
  simp only at ht
  rw [dropEmptyAttr_preserve _ _ _ (by decide)] at ht
  exact dropEmptyAttr_post _ _ t ht

/-- `isVarBlockBy` only looks at a block's type and labels. -/
theorem isVarBlockBy_liftBlock (pred : String → Bool)
    (f : Block → Block × Bool)
    (hf : ∀ b : Block, (f b).1.typ = b.typ ∧ (f b).1.labels = b.labels)
    (i : TopItem) :
    isVarBlockBy pred (liftBlock f i) = isVarBlockBy pred i := by
  cases i with
  | attr n t => rfl
  | block b =>
    simp only [liftBlock, isVarBlockBy]
    rw [(hf b).1, (hf b).2]

theorem removeVarBlocksBy_inert (pred : String → Bool) (ast : HclFile)
    (h : ∀ i ∈ ast, isVarBlockBy pred i = false) :
    removeVarBlocksBy pred ast = (ast, false) := by
  unfold removeVarBlocksBy
  have hfil : ast.filter (fun i => !isVarBlockBy pred i) = ast := by
    refine List.filter_eq_self.2 ?_
    intro i hi
    rw [h i hi]
    rfl
  have hany : ast.any (isVarBlockBy pred) = false := by
    rw [List.any_eq_false]
    intro i hi
    simp [h i hi]
  rw [hfil, hany]

/-- After a var-block removal followed by the generic pass, no matching
variable block remains. -/
theorem noVarBlocks_after (pred : String → Bool) (sw : HclFile)
    (i : TopItem)
    (hi : i ∈ (mapBlocks genericBlockPass
      ((removeVarBlocksBy pred sw).1)).1) :
    isVarBlockBy pred i = false := by
  rw [mapBlocks_fst] at hi
  obtain ⟨i0, hi0, hmap⟩ := List.mem_map.1 hi
  have hi0' : i0 ∈ sw.filter (fun j => !isVarBlockBy pred j) := hi0
  have hsurv := (List.mem_filter.1 hi0').2
  rw [← hmap, isVarBlockBy_liftBlock pred _ genericBlockPass_shape]
  cases hb : isVarBlockBy pred i0 with
  | false => rfl
  | true =>
    rw [hb] at hsurv
    cases hsurv

/-- Blocks of a root `main.tf` after the first run. -/
theorem rootMain_blocks_stable (ast0 : HclFile) (B : Block)
    (hB : TopItem.block B ∈ (mapBlocks genericBlockPass
      ((removeVarBlocksBy rootMainVarNames
        (mapBlocks cleanupRootMainBlock ast0).1).1)).1) :
    RootMainStable B ∧ GenCleanBlock B := by
  obtain ⟨c, hc, hcB⟩ := mapBlocks_mem_rev _ _ _ hB
  have hgcB : GenCleanBlock B := by
    rw [← hcB]
    exact genericBlockPass_post c
  refine ⟨?_, hgcB⟩
  intro hg
  have hgs := genericBlockPass_shape c
  refine ⟨hgcB.1, ?_, ?_, ?_⟩
  · exact hgcB.2 hg.1 "deployment_id" (by decide)
  · intro t ht
    rw [← hcB] at ht
    rw [genericBlockPass_preserve _ "providers" (by decide)
      (by decide)] at ht
    have hc' : TopItem.block c ∈ (mapBlocks cleanupRootMainBlock ast0).1 :=
      (List.mem_filter.1 hc).1
    obtain ⟨b0, _, hb0c⟩ := mapBlocks_mem_rev _ _ _ hc'
    have hshapes := cleanupRootMainBlock_shape b0
    have hgb0 : b0.typ = "module" ∧ b0.labels.head? = some "level2" := by
      constructor
      · rw [← hshapes.1, hb0c, ← hgs.1, hcB]
        exact hg.1
      · rw [show b0.labels = B.labels from by
          rw [← hshapes.2, hb0c, ← hgs.2, hcB]]
        exact hg.2
    rw [← hb0c] at ht
    exact cleanupRootMainBlock_providers b0 hgb0 t ht
  · exact hgcB.2 hg.1 "state" (by decide)

/-! ### Idempotence toolbox: `variables.tf` -/

theorem mkVarBlock_shape (n : String) (hn : n ∈ requiredVarNames) :
    (mkVarBlock n).typ = "variable" ∧ (mkVarBlock n).labels = [n] := by
  simp only [requiredVarNames, List.mem_cons, List.not_mem_nil,
    or_false] at hn
  rcases hn with rfl | rfl | rfl | rfl | rfl <;> exact ⟨rfl, rfl⟩

theorem hasVarBlock_of_mem (ast : HclFile) (b : Block) (n : String)
    (hb : TopItem.block b ∈ ast) (ht : b.typ = "variable")
    (hl : b.labels.head? = some n) : hasVarBlock ast n = true := by
  unfold hasVarBlock
  rw [List.any_eq_true]
  refine ⟨TopItem.block b, hb, ?_⟩
  simp [ht, hl]

theorem hasVarBlock_elim (ast : HclFile) (n : String)
    (h : hasVarBlock ast n = true) :
    ∃ b : Block, TopItem.block b ∈ ast ∧ b.typ = "variable" ∧
      b.labels.head? = some n := by
  unfold hasVarBlock at h
  rw [List.any_eq_true] at h
  obtain ⟨i, hi, hp⟩ := h
  cases i with
  | attr m t => simp at hp
  | block b =>
    simp only [Bool.and_eq_true, beq_iff_eq] at hp
    exact ⟨b, hi, hp.1, hp.2⟩

/-- `fixModuleVariables` leaves every required variable declared. -/
theorem fixVariablesTf_post (ast : HclFile) (n : String)
    (hn : n ∈ requiredVarNames) :
    hasVarBlock (fixVariablesTf ast) n = true := by
  by_cases hh : hasVarBlock ast n = true
  · obtain ⟨b, hb, ht, hl⟩ := hasVarBlock_elim ast n hh
    exact hasVarBlock_of_mem _ b n (List.mem_append.2 (Or.inl hb)) ht hl
  · have hsh := mkVarBlock_shape n hn
    refine hasVarBlock_of_mem _ (mkVarBlock n) n ?_ hsh.1 ?_
    · refine List.mem_append.2 (Or.inr ?_)
      refine List.mem_map.2 ⟨n, ?_, rfl⟩
      refine List.mem_filter.2 ⟨hn, ?_⟩
      simp [hh]
    · rw [hsh.2]
      rfl

theorem fixVariablesTf_inert (ast : HclFile)
    (h : ∀ n ∈ requiredVarNames, hasVarBlock ast n = true) :
    fixVariablesTf ast = ast := by
  unfold fixVariablesTf
  have hfil : requiredVarNames.filter (fun n => !hasVarBlock ast n)
      = [] := by
    rw [List.filter_eq_nil_iff]
    intro n hn
    simp [h n hn]
  rw [hfil]
  simp

theorem hasVarBlock_removeVarBlocksBy (pred : String → Bool)
    (ast : HclFile) (n : String) (hp : pred n = false)
    (h : hasVarBlock ast n = true) :
    hasVarBlock (removeVarBlocksBy pred ast).1 n = true := by
  obtain ⟨b, hb, ht, hl⟩ := hasVarBlock_elim ast n h
  refine hasVarBlock_of_mem _ b n ?_ ht hl
  show TopItem.block b ∈ ast.filter (fun i => !isVarBlockBy pred i)
  refine List.mem_filter.2 ⟨hb, ?_⟩
  simp only [isVarBlockBy, ht, hl]
  simp [hp]

theorem hasVarBlock_mapBlocks (f : Block → Block × Bool)
    (hf : ∀ b : Block, (f b).1.typ = b.typ ∧ (f b).1.labels = b.labels)
    (ast : HclFile) (n : String) (h : hasVarBlock ast n = true) :
    hasVarBlock (mapBlocks f ast).1 n = true := by
  obtain ⟨b, hb, ht, hl⟩ := hasVarBlock_elim ast n h
  have hmem : TopItem.block (f b).1 ∈ (mapBlocks f ast).1 := by
    rw [mapBlocks_fst]
    exact List.mem_map.2 ⟨TopItem.block b, hb, rfl⟩
  refine hasVarBlock_of_mem _ (f b).1 n hmem ?_ ?_
  · rw [(hf b).1]
    exact ht
  · rw [(hf b).2]
    exact hl

/-! ### Idempotence toolbox: `outputs.tf` -/

/-- The labels of the output blocks of a file, in file order. -/
def outputLabels (ast : HclFile) : List String :=
  ast.filterMap (fun i => match i with
    | TopItem.block b => if b.typ = "output" then b.labels.head? else none
    | TopItem.attr _ _ => none)

/-- One item's contribution to `outputsToRemove`. -/
def outContrib (isEnvM isBsM : Bool) (i : TopItem) : List String :=
  match i with
  | TopItem.block b =>
    match b.labels.head? with
    | some name =>
      if b.typ = "output" then
        if (isEnvM ∧ name = "cloud_tags") ∨ (isBsM ∧ name = "variables")
        then []
        else match getAttr b.body "value" with
          | some toks => (toks.filter tokenTriggers).map (fun _ => name)
          | none => []
      else []
    | none => []
  | TopItem.attr _ _ => []

/-- The concatenation of the contributions, in file order. -/
def collectAll (isEnvM isBsM : Bool) : HclFile → List String
  | [] => []
  | i :: rest => outContrib isEnvM isBsM i ++ collectAll isEnvM isBsM rest

theorem foldl_contrib (g : List String → TopItem → List String)
    (e b : Bool) (hg : ∀ acc i, g acc i = acc ++ outContrib e b i) :
    ∀ (l : HclFile) (acc : List String),
      l.foldl g acc = acc ++ collectAll e b l := by
  intro l
  induction l with
  | nil =>
    intro acc
    simp [collectAll]
  | cons i rest ih =>
    intro acc
    rw [List.foldl_cons, hg, ih, List.append_assoc]
    rfl

theorem collectOutputsToRemove_eq (e b : Bool) (ast : HclFile) :
    collectOutputsToRemove e b ast = collectAll e b ast := by
  unfold collectOutputsToRemove
  refine (foldl_contrib _ e b ?_ ast []).trans (List.nil_append _)
  intro acc i
  cases i with
  | attr m t => simp [outContrib]
  | block blk =>
    cases hl : blk.labels.head? with
    | none => simp [outContrib, hl]
    | some name =>
      by_cases htyp : blk.typ = "output"
      · by_cases hsp : (e = true ∧ name = "cloud_tags") ∨
            (b = true ∧ name = "variables")
        · simp [outContrib, hl, htyp, hsp]
        · cases hv : getAttr blk.body "value" with
          | some toks => simp [outContrib, hl, htyp, hsp, hv]
          | none => simp [outContrib, hl, htyp, hsp, hv]
      · simp [outContrib, hl, htyp]

theorem collectAll_intro (e b : Bool) (ast : HclFile) (i : TopItem)
    (n : String) (hi : i ∈ ast) (hn : n ∈ outContrib e b i) :
    n ∈ collectAll e b ast := by
  induction ast with
  | nil => cases hi
  | cons j rest ih =>
    rcases List.mem_cons.1 hi with rfl | h2
    · exact List.mem_append.2 (Or.inl hn)
    · exact List.mem_append.2 (Or.inr (ih h2))

theorem collectAll_nil (e b : Bool) (ast : HclFile)
    (h : ∀ i ∈ ast, outContrib e b i = []) : collectAll e b ast = [] := by
  induction ast with
  | nil => rfl
  | cons j rest ih =>
    show outContrib e b j ++ collectAll e b rest = []
    rw [h j (List.mem_cons_self _ _), ih (fun i hi =>
      h i (List.mem_cons_of_mem _ hi))]
    rfl

theorem mem_outputLabels_of (ast : HclFile) (B : Block) (n : String)
    (hB : TopItem.block B ∈ ast) (ht : B.typ = "output")
    (hl : B.labels.head? = some n) : n ∈ outputLabels ast := by
  refine List.mem_filterMap.2 ⟨TopItem.block B, hB, ?_⟩
  simp [ht, hl]

theorem outputLabels_cons_attr (m : String) (t : List String)
    (rest : HclFile) :
    outputLabels (TopItem.attr m t :: rest) = outputLabels rest := by
  simp [outputLabels, List.filterMap_cons]

theorem outputLabels_cons_nonout (b : Block) (rest : HclFile)
    (hb : ¬ b.typ = "output") :
    outputLabels (TopItem.block b :: rest) = outputLabels rest := by
  simp [outputLabels, List.filterMap_cons, hb]

theorem outputLabels_cons_nolabel (b : Block) (rest : HclFile)
    (hl : b.labels.head? = none) :
    outputLabels (TopItem.block b :: rest) = outputLabels rest := by
  by_cases hb : b.typ = "output"
  · simp [outputLabels, List.filterMap_cons, hb, hl]
  · simp [outputLabels, List.filterMap_cons, hb]

theorem outputLabels_cons_out (b : Block) (rest : HclFile) (n : String)
    (hb : b.typ = "output") (hl : b.labels.head? = some n) :
    outputLabels (TopItem.block b :: rest) = n :: outputLabels rest := by
  simp [outputLabels, List.filterMap_cons, hb, hl]

theorem removeFirstOutputBlock_mem (ast : HclFile) (n : String)
    (i : TopItem) (h : i ∈ (removeFirstOutputBlock ast n).1) : i ∈ ast := by
  induction ast with
  | nil => exact absurd h (List.not_mem_nil _)
  | cons j rest ih =>
    cases j with
    | block b =>
      by_cases hg : b.typ = "output" ∧ b.labels.head? = some n
      · simp only [removeFirstOutputBlock] at h
        rw [if_pos hg] at h
        exact List.mem_cons_of_mem _ h
      · simp only [removeFirstOutputBlock] at h
        rw [if_neg hg] at h
        rcases List.mem_cons.1 h with rfl | h2
        · exact List.mem_cons_self _ _
        · exact List.mem_cons_of_mem _ (ih h2)
    | attr m t =>
      simp only [removeFirstOutputBlock] at h
      rcases List.mem_cons.1 h with rfl | h2
      · exact List.mem_cons_self _ _
      · exact List.mem_cons_of_mem _ (ih h2)

theorem outputLabels_removeFirstOutputBlock (ast : HclFile) (n : String) :
    outputLabels (removeFirstOutputBlock ast n).1 =
      (outputLabels ast).erase n := by
  induction ast with
  | nil => rfl
  | cons j rest ih =>
    cases j with
    | attr m t =>
      show outputLabels (TopItem.attr m t ::
          (removeFirstOutputBlock rest n).1) =
        (outputLabels (TopItem.attr m t :: rest)).erase n
      rw [outputLabels_cons_attr, outputLabels_cons_attr, ih]
    | block b =>
      by_cases hg : b.typ = "output" ∧ b.labels.head? = some n
      · simp only [removeFirstOutputBlock]
        rw [if_pos hg]
        rw [outputLabels_cons_out b rest n hg.1 hg.2,
          List.erase_cons_head]
      · simp only [removeFirstOutputBlock]
        rw [if_neg hg]
        show outputLabels (TopItem.block b ::
            (removeFirstOutputBlock rest n).1) =
          (outputLabels (TopItem.block b :: rest)).erase n
        by_cases htyp : b.typ = "output"
        · cases hl : b.labels.head? with
          | some m =>
            have hm : m ≠ n := by
              intro hc
              exact hg ⟨htyp, by rw [← hc]; exact hl⟩
            rw [outputLabels_cons_out b _ m htyp hl,
              outputLabels_cons_out b rest m htyp hl, ih,
              List.erase_cons_tail (by simp [hm])]
          | none =>
            rw [outputLabels_cons_nolabel b _ hl,
              outputLabels_cons_nolabel b rest hl, ih]
        · rw [outputLabels_cons_nonout b _ htyp,
            outputLabels_cons_nonout b rest htyp, ih]

theorem removeCollected_fst (ast : HclFile) (names : List String) :
    (removeCollected ast names).1 =
      names.foldl (fun l n => (removeFirstOutputBlock l n).1) ast := by
  have key : ∀ (ns : List String) (acc : HclFile × Bool),
      (ns.foldl (fun acc n =>
        ((removeFirstOutputBlock acc.1 n).1,
          acc.2 || (removeFirstOutputBlock acc.1 n).2)) acc).1 =
      ns.foldl (fun l n => (removeFirstOutputBlock l n).1) acc.1 := by
    intro ns
    induction ns with
    | nil =>
      intro acc
      rfl
    | cons m rest ih =>
      intro acc
      rw [List.foldl_cons, List.foldl_cons, ih]
  exact key names (ast, false)

theorem outputLabels_removeCollected (ast : HclFile)
    (names : List String) :
    outputLabels (removeCollected ast names).1 =
      names.foldl (fun L n => L.erase n) (outputLabels ast) := by
  rw [removeCollected_fst]
  induction names generalizing ast with
  | nil => rfl
  | cons m rest ih =>
    rw [List.foldl_cons, List.foldl_cons, ih,
      outputLabels_removeFirstOutputBlock]

theorem removeCollected_mem (ast : HclFile) (names : List String)
    (i : TopItem) (h : i ∈ (removeCollected ast names).1) : i ∈ ast := by
  rw [removeCollected_fst] at h
  induction names generalizing ast with
  | nil => exact h
  | cons m rest ih =>
    rw [List.foldl_cons] at h
    exact removeFirstOutputBlock_mem _ _ _ (ih _ h)

theorem count_foldl_erase_le (names : List String) (L : List String)
    (n : String) :
    (names.foldl (fun L m => L.erase m) L).count n ≤ L.count n := by
  induction names generalizing L with
  | nil => exact le_refl _
  | cons m rest ih =>
    rw [List.foldl_cons]
    refine le_trans (ih _) ?_
    rw [List.count_erase]
    exact Nat.sub_le _ _

theorem count_foldl_erase_kill (names : List String) (L : List String)
    (n : String) (hn : n ∈ names) (hle : L.count n ≤ 1) :
    (names.foldl (fun L m => L.erase m) L).count n = 0 := by
  induction names generalizing L with
  | nil => cases hn
  | cons m rest ih =>
    rw [List.foldl_cons]
    by_cases hm : m = n
    · subst hm
      have h0 : (L.erase m).count m = 0 := by
        rw [List.count_erase_self]
        omega
      refine Nat.le_zero.1 ?_
      calc (rest.foldl (fun L m => L.erase m) (L.erase m)).count m ≤
            (L.erase m).count m := count_foldl_erase_le _ _ _
        _ = 0 := h0
    · rcases List.mem_cons.1 hn with rfl | hrest
      · exact absurd rfl hm
      · refine ih _ hrest ?_
        refine le_trans ?_ hle
        rw [List.count_erase]
        exact Nat.sub_le _ _

theorem cleanCloudTagsOutput_eq_none (blk : Block)
    (h0 : getAttr blk.body "value" = none) :
    cleanCloudTagsOutput blk = (blk, false) := by
  unfold cleanCloudTagsOutput
  rw [h0]

theorem cleanCloudTagsOutput_eq_trig (blk : Block) (t : List String)
    (h0 : getAttr blk.body "value" = some t)
    (htr : (t.any fun tok => tokHas tok "cc_metadata") = true) :
    cleanCloudTagsOutput blk = (⟨blk.typ, blk.labels,
      setAttrRaw (removeAttr blk.body "value") "value"
        cloudTagsCleanedTokens⟩, true) := by
  unfold cleanCloudTagsOutput
  rw [h0]
  exact if_pos htr

theorem cleanCloudTagsOutput_eq_keep (blk : Block) (t : List String)
    (h0 : getAttr blk.body "value" = some t)
    (htr : ¬ (t.any fun tok => tokHas tok "cc_metadata") = true) :
    cleanCloudTagsOutput blk = (blk, false) := by
  unfold cleanCloudTagsOutput
  rw [h0]
  exact if_neg htr

theorem cleanBlueprintSelfVariablesOutput_eq_none (blk : Block)
    (h0 : getAttr blk.body "value" = none) :
    cleanBlueprintSelfVariablesOutput blk = (blk, false) := by
  unfold cleanBlueprintSelfVariablesOutput
  rw [h0]

theorem cleanBlueprintSelfVariablesOutput_eq_trig (blk : Block)
    (t : List String) (h0 : getAttr blk.body "value" = some t)
    (htr : (t.any fun tok => tokHas tok "FACETS_") = true) :
    cleanBlueprintSelfVariablesOutput blk = (⟨blk.typ, blk.labels,
      setAttrRaw (removeAttr blk.body "value") "value"
        bsVariablesCleanedTokens⟩, true) := by
  unfold cleanBlueprintSelfVariablesOutput
  rw [h0]
  exact if_pos htr

theorem cleanBlueprintSelfVariablesOutput_eq_keep (blk : Block)
    (t : List String) (h0 : getAttr blk.body "value" = some t)
    (htr : ¬ (t.any fun tok => tokHas tok "FACETS_") = true) :
    cleanBlueprintSelfVariablesOutput blk = (blk, false) := by
  unfold cleanBlueprintSelfVariablesOutput
  rw [h0]
  exact if_neg htr

theorem cleanCloudTagsOutput_shape (blk : Block) :
    (cleanCloudTagsOutput blk).1.typ = blk.typ ∧
    (cleanCloudTagsOutput blk).1.labels = blk.labels := by
  cases h0 : getAttr blk.body "value" with
  | none =>
    rw [cleanCloudTagsOutput_eq_none blk h0]
    exact ⟨rfl, rfl⟩
  | some t =>
    by_cases htr : (t.any fun tok => tokHas tok "cc_metadata") = true
    · rw [cleanCloudTagsOutput_eq_trig blk t h0 htr]
      exact ⟨rfl, rfl⟩
    · rw [cleanCloudTagsOutput_eq_keep blk t h0 htr]
      exact ⟨rfl, rfl⟩

theorem cleanBlueprintSelfVariablesOutput_shape (blk : Block) :
    (cleanBlueprintSelfVariablesOutput blk).1.typ = blk.typ ∧
    (cleanBlueprintSelfVariablesOutput blk).1.labels = blk.labels := by
  cases h0 : getAttr blk.body "value" with
  | none =>
    rw [cleanBlueprintSelfVariablesOutput_eq_none blk h0]
    exact ⟨rfl, rfl⟩
  | some t =>
    by_cases htr : (t.any fun tok => tokHas tok "FACETS_") = true
    · rw [cleanBlueprintSelfVariablesOutput_eq_trig blk t h0 htr]
      exact ⟨rfl, rfl⟩
    · rw [cleanBlueprintSelfVariablesOutput_eq_keep blk t h0 htr]
      exact ⟨rfl, rfl⟩

/-- After `cleanCloudTagsOutput`, no value token mentions `cc_metadata`. -/
theorem cleanCloudTagsOutput_post (blk : Block) (t : List String)
    (hv : getAttr (cleanCloudTagsOutput blk).1.body "value" = some t) :
    ∀ tok ∈ t, tokHas tok "cc_metadata" = false := by
  cases h0 : getAttr blk.body "value" with
  | none =>
    rw [cleanCloudTagsOutput_eq_none blk h0] at hv
    rw [h0] at hv
    cases hv
  | some t0 =>
    by_cases htr : (t0.any fun tok => tokHas tok "cc_metadata") = true
    · rw [cleanCloudTagsOutput_eq_trig blk t0 h0 htr] at hv
      rw [getAttr_setAttrRaw_self] at hv
      injection hv with hv2
      subst hv2
      decide
    · rw [cleanCloudTagsOutput_eq_keep blk t0 h0 htr] at hv
      rw [h0] at hv
      injection hv with hv2
      subst hv2
      simp only [Bool.not_eq_true] at htr
      intro tok htok
      simpa using List.any_eq_false.1 htr tok htok

/-- After `cleanBlueprintSelfVariablesOutput`, no value token mentions
`FACETS_`. -/
theorem cleanBlueprintSelfVariablesOutput_post (blk : Block)
    (t : List String)
    (hv : getAttr (cleanBlueprintSelfVariablesOutput blk).1.body "value" =
      some t) :
    ∀ tok ∈ t, tokHas tok "FACETS_" = false := by
  cases h0 : getAttr blk.body "value" with
  | none =>
    rw [cleanBlueprintSelfVariablesOutput_eq_none blk h0] at hv
    rw [h0] at hv
    cases hv
  | some t0 =>
    by_cases htr : (t0.any fun tok => tokHas tok "FACETS_") = true
    · rw [cleanBlueprintSelfVariablesOutput_eq_trig blk t0 h0 htr] at hv
      rw [getAttr_setAttrRaw_self] at hv
      injection hv with hv2
      subst hv2
      decide
    · rw [cleanBlueprintSelfVariablesOutput_eq_keep blk t0 h0 htr] at hv
      rw [h0] at hv
      injection hv with hv2
      subst hv2
      simp only [Bool.not_eq_true] at htr
      intro tok htok
      simpa using List.any_eq_false.1 htr tok htok

theorem cleanCloudTagsOutput_inert (blk : Block)
    (h : ∀ t, getAttr blk.body "value" = some t →
      ∀ tok ∈ t, tokHas tok "cc_metadata" = false) :
    cleanCloudTagsOutput blk = (blk, false) := by
  cases h0 : getAttr blk.body "value" with
  | none => exact cleanCloudTagsOutput_eq_none blk h0
  | some t =>
    refine cleanCloudTagsOutput_eq_keep blk t h0 ?_
    intro hc
    obtain ⟨tok, htok, htr⟩ := List.any_eq_true.1 hc
    rw [h t h0 tok htok] at htr
    cases htr

theorem cleanBlueprintSelfVariablesOutput_inert (blk : Block)
    (h : ∀ t, getAttr blk.body "value" = some t →
      ∀ tok ∈ t, tokHas tok "FACETS_" = false) :
    cleanBlueprintSelfVariablesOutput blk = (blk, false) := by
  cases h0 : getAttr blk.body "value" with
  | none => exact cleanBlueprintSelfVariablesOutput_eq_none blk h0
  | some t =>
    refine cleanBlueprintSelfVariablesOutput_eq_keep blk t h0 ?_
    intro hc
    obtain ⟨tok, htok, htr⟩ := List.any_eq_true.1 hc
    rw [h t h0 tok htok] at htr
    cases htr

theorem mapSpecials_eq (e b : Bool) (ast : HclFile) :
    mapSpecials e b ast = mapBlocks (outputsSpecialOne e b) ast := rfl

theorem outputsSpecialOne_nolabel (e b : Bool) (blk : Block)
    (hl : blk.labels.head? = none) :
    outputsSpecialOne e b blk = (blk, false) := by
  unfold outputsSpecialOne
  rw [hl]

theorem outputsSpecialOne_nonout (e b : Bool) (blk : Block) (n : String)
    (hl : blk.labels.head? = some n) (htyp : ¬ blk.typ = "output") :
    outputsSpecialOne e b blk = (blk, false) := by
  unfold outputsSpecialOne
  rw [hl]
  exact if_neg htyp

theorem outputsSpecialOne_env (e b : Bool) (blk : Block) (n : String)
    (hl : blk.labels.head? = some n) (htyp : blk.typ = "output")
    (h1 : e = true ∧ n = "cloud_tags") :
    outputsSpecialOne e b blk = cleanCloudTagsOutput blk := by
  unfold outputsSpecialOne
  rw [hl]
  exact (if_pos htyp).trans (if_pos h1)

theorem outputsSpecialOne_bs (e b : Bool) (blk : Block) (n : String)
    (hl : blk.labels.head? = some n) (htyp : blk.typ = "output")
    (h1 : ¬ (e = true ∧ n = "cloud_tags"))
    (h2 : b = true ∧ n = "variables") :
    outputsSpecialOne e b blk = cleanBlueprintSelfVariablesOutput blk := by
  unfold outputsSpecialOne
  rw [hl]
  exact (if_pos htyp).trans ((if_neg h1).trans (if_pos h2))

theorem outputsSpecialOne_nonspecial (e b : Bool) (blk : Block)
    (n : String) (hl : blk.labels.head? = some n)
    (htyp : blk.typ = "output")
    (hns : ¬ ((e = true ∧ n = "cloud_tags") ∨
      (b = true ∧ n = "variables"))) :
    outputsSpecialOne e b blk = (blk, false) := by
  unfold outputsSpecialOne
  rw [hl]
  exact (if_pos htyp).trans (((if_neg (fun hc => hns (Or.inl hc))).trans
    (if_neg (fun hc => hns (Or.inr hc)))))

theorem outputsSpecialOne_shape (e b : Bool) (blk : Block) :
    (outputsSpecialOne e b blk).1.typ = blk.typ ∧
    (outputsSpecialOne e b blk).1.labels = blk.labels := by
  cases hl : blk.labels.head? with
  | none =>
    rw [outputsSpecialOne_nolabel e b blk hl]
    exact ⟨rfl, rfl⟩
  | some n =>
    by_cases htyp : blk.typ = "output"
    · by_cases h1 : e = true ∧ n = "cloud_tags"
      · rw [outputsSpecialOne_env e b blk n hl htyp h1]
        exact cleanCloudTagsOutput_shape blk
      · by_cases h2 : b = true ∧ n = "variables"
        · rw [outputsSpecialOne_bs e b blk n hl htyp h1 h2]
          exact cleanBlueprintSelfVariablesOutput_shape blk
        · rw [outputsSpecialOne_nonspecial e b blk n hl htyp
            (by rintro (hc | hc); exacts [h1 hc, h2 hc])]
          exact ⟨rfl, rfl⟩
    · rw [outputsSpecialOne_nonout e b blk n hl htyp]
      exact ⟨rfl, rfl⟩

theorem outContrib_attr (e b : Bool) (m : String) (t : List String) :
    outContrib e b (TopItem.attr m t) = [] := rfl

theorem outContrib_nolabel (e b : Bool) (blk : Block)
    (hl : blk.labels.head? = none) :
    outContrib e b (TopItem.block blk) = [] := by
  simp only [outContrib]
  rw [hl]

theorem outContrib_nonout (e b : Bool) (blk : Block) (n : String)
    (hl : blk.labels.head? = some n) (htyp : ¬ blk.typ = "output") :
    outContrib e b (TopItem.block blk) = [] := by
  simp only [outContrib]
  rw [hl]
  exact if_neg htyp

theorem outContrib_special (e b : Bool) (blk : Block) (n : String)
    (hl : blk.labels.head? = some n) (htyp : blk.typ = "output")
    (hsp : (e = true ∧ n = "cloud_tags") ∨ (b = true ∧ n = "variables")) :
    outContrib e b (TopItem.block blk) = [] := by
  simp only [outContrib]
  rw [hl]
  exact (if_pos htyp).trans (if_pos hsp)

theorem outContrib_noval (e b : Bool) (blk : Block) (n : String)
    (hl : blk.labels.head? = some n) (htyp : blk.typ = "output")
    (hsp : ¬ ((e = true ∧ n = "cloud_tags") ∨
      (b = true ∧ n = "variables")))
    (hv : getAttr blk.body "value" = none) :
    outContrib e b (TopItem.block blk) = [] := by
  simp only [outContrib]
  rw [hl]
  refine (if_pos htyp).trans ((if_neg hsp).trans ?_)
  rw [hv]

theorem outContrib_block (e b : Bool) (blk : Block) (n : String)
    (toks : List String) (hl : blk.labels.head? = some n)
    (htyp : blk.typ = "output")
    (hsp : ¬ ((e = true ∧ n = "cloud_tags") ∨
      (b = true ∧ n = "variables")))
    (hv : getAttr blk.body "value" = some toks) :
    outContrib e b (TopItem.block blk) =
      (toks.filter tokenTriggers).map (fun _ => n) := by
  simp only [outContrib]
  rw [hl]
  refine (if_pos htyp).trans ((if_neg hsp).trans ?_)
  rw [hv]

theorem outputLabels_mapBlocks (f : Block → Block × Bool)
    (hf : ∀ blk : Block, (f blk).1.typ = blk.typ ∧
      (f blk).1.labels = blk.labels) (ast : HclFile) :
    outputLabels (mapBlocks f ast).1 = outputLabels ast := by
  induction ast with
  | nil => rfl
  | cons i rest ih =>
    cases i with
    | attr m t =>
      show outputLabels (TopItem.attr m t :: (mapBlocks f rest).1) = _
      rw [outputLabels_cons_attr, outputLabels_cons_attr, ih]
    | block blk =>
      show outputLabels (TopItem.block (f blk).1 ::
        (mapBlocks f rest).1) = _
      by_cases htyp : blk.typ = "output"
      · have htyp' : (f blk).1.typ = "output" := by
          rw [(hf blk).1]
          exact htyp
        cases hlb : blk.labels.head? with
        | some n =>
          have hlb' : (f blk).1.labels.head? = some n := by
            rw [(hf blk).2]
            exact hlb
          rw [outputLabels_cons_out _ _ n htyp' hlb',
            outputLabels_cons_out _ _ n htyp hlb, ih]
        | none =>
          have hlb' : (f blk).1.labels.head? = none := by
            rw [(hf blk).2]
            exact hlb
          rw [outputLabels_cons_nolabel _ _ hlb',
            outputLabels_cons_nolabel _ _ hlb, ih]
      · have htyp' : ¬ (f blk).1.typ = "output" := by
          rw [(hf blk).1]
          exact htyp
        rw [outputLabels_cons_nonout _ _ htyp',
          outputLabels_cons_nonout _ _ htyp, ih]

/-- Blocks that survive one full `outputs.tf` run (outputs pass then the
generic pass) carry no rewrite or removal trigger, provided the file's
output labels were distinct. -/
theorem outputs_final_blocks (e b : Bool) (ast : HclFile)
    (hnodup : (outputLabels ast).Nodup) (B : Block)
    (hB : TopItem.block B ∈
      (mapBlocks genericBlockPass (outputsPass e b ast).1).1) :
    GenCleanBlock B ∧
    (∀ n, B.labels.head? = some n → B.typ = "output" →
      ¬ ((e = true ∧ n = "cloud_tags") ∨ (b = true ∧ n = "variables")) →
      ∀ t, getAttr B.body "value" = some t →
        ∀ tok ∈ t, tokenTriggers tok = false) ∧
    (∀ n, B.labels.head? = some n → B.typ = "output" →
      (e = true ∧ n = "cloud_tags") →
      ∀ t, getAttr B.body "value" = some t →
        ∀ tok ∈ t, tokHas tok "cc_metadata" = false) ∧
    (∀ n, B.labels.head? = some n → B.typ = "output" →
      (b = true ∧ n = "variables") →
      ∀ t, getAttr B.body "value" = some t →
        ∀ tok ∈ t, tokHas tok "FACETS_" = false) := by
  obtain ⟨c, hcmem, hcB⟩ := mapBlocks_mem_rev _ _ _ hB
  have hgsh := genericBlockPass_shape c
  have hval : getAttr B.body "value" = getAttr c.body "value" := by
    rw [← hcB]
    exact genericBlockPass_preserve c "value" (by decide) (by decide)
  have hBc_typ : B.typ = c.typ := by
    rw [← hcB]
    exact hgsh.1
  have hBc_lab : B.labels = c.labels := by
    rw [← hcB]
    exact hgsh.2
  have hcmem' : TopItem.block c ∈
      (removeCollected (mapSpecials e b ast).1
        (collectOutputsToRemove e b ast)).1 := hcmem
  have hsp1 : TopItem.block c ∈ (mapSpecials e b ast).1 :=
    removeCollected_mem _ _ _ hcmem'
  rw [mapSpecials_eq] at hsp1
  obtain ⟨b0, hb0, hb0c⟩ := mapBlocks_mem_rev _ _ _ hsp1
  have hssh := outputsSpecialOne_shape e b b0
  have hcb0_typ : c.typ = b0.typ := by
    rw [← hb0c]
    exact hssh.1
  have hcb0_lab : c.labels = b0.labels := by
    rw [← hb0c]
    exact hssh.2
  refine ⟨by rw [← hcB]; exact genericBlockPass_post c, ?_, ?_, ?_⟩
  · intro n hlB htB hns t hvB tok htok
    cases hcase : tokenTriggers tok with
    | false => rfl
    | true =>
      exfalso
      have hlc : c.labels.head? = some n := by
        rw [← hBc_lab]
        exact hlB
      have htc : c.typ = "output" := by
        rw [← hBc_typ]
        exact htB
      have hlb0 : b0.labels.head? = some n := by
        rw [← hcb0_lab]
        exact hlc
      have htb0 : b0.typ = "output" := by
        rw [← hcb0_typ]
        exact htc
      have hspec := outputsSpecialOne_nonspecial e b b0 n hlb0 htb0 hns
      have hcb0 : c = b0 := by
        rw [← hb0c, hspec]
      have hvc : getAttr c.body "value" = some t := by
        rw [← hval]
        exact hvB
      have hmemnames : n ∈ collectOutputsToRemove e b ast := by
        rw [collectOutputsToRemove_eq]
        refine collectAll_intro e b ast (TopItem.block c) n ?_ ?_
        · rw [hcb0]
          exact hb0
        · rw [outContrib_block e b c n t hlc htc hns hvc]
          exact List.mem_map.2 ⟨tok, List.mem_filter.2 ⟨htok, hcase⟩, rfl⟩
      have hle1 : (outputLabels ast).count n ≤ 1 :=
        List.nodup_iff_count_le_one.1 hnodup n
      have hsplab : outputLabels (mapSpecials e b ast).1 =
          outputLabels ast := by
        rw [mapSpecials_eq]
        exact outputLabels_mapBlocks _ (outputsSpecialOne_shape e b) ast
      have hkill : (outputLabels (removeCollected (mapSpecials e b ast).1
          (collectOutputsToRemove e b ast)).1).count n = 0 := by
        rw [outputLabels_removeCollected, hsplab]
        exact count_foldl_erase_kill _ _ n hmemnames hle1
      have hmemlab : n ∈ outputLabels (removeCollected
          (mapSpecials e b ast).1 (collectOutputsToRemove e b ast)).1 :=
        mem_outputLabels_of _ c n hcmem' htc hlc
      exact (List.count_eq_zero.1 hkill) hmemlab
  · intro n hlB htB hg t hvB
    have hlc : c.labels.head? = some n := by
      rw [← hBc_lab]
      exact hlB
    have htc : c.typ = "output" := by
      rw [← hBc_typ]
      exact htB
    have hlb0 : b0.labels.head? = some n := by
      rw [← hcb0_lab]
      exact hlc
    have htb0 : b0.typ = "output" := by
      rw [← hcb0_typ]
      exact htc
    have hspec := outputsSpecialOne_env e b b0 n hlb0 htb0 hg
    have hc' : c = (cleanCloudTagsOutput b0).1 := by
      rw [← hb0c, hspec]
    have hvc : getAttr c.body "value" = some t := by
      rw [← hval]
      exact hvB
    rw [hc'] at hvc
    exact cleanCloudTagsOutput_post b0 t hvc
  · intro n hlB htB hg t hvB
    have hnotenv : ¬ (e = true ∧ n = "cloud_tags") := by
      rintro ⟨_, hcn⟩
      rw [hg.2] at hcn
      exact absurd hcn (by decide)
    have hlc : c.labels.head? = some n := by
      rw [← hBc_lab]
      exact hlB
    have htc : c.typ = "output" := by
      rw [← hBc_typ]
      exact htB
    have hlb0 : b0.labels.head? = some n := by
      rw [← hcb0_lab]
      exact hlc
    have htb0 : b0.typ = "output" := by
      rw [← hcb0_typ]
      exact htc
    have hspec := outputsSpecialOne_bs e b b0 n hlb0 htb0 hnotenv hg
    have hc' : c = (cleanBlueprintSelfVariablesOutput b0).1 := by
      rw [← hb0c, hspec]
    have hvc : getAttr c.body "value" = some t := by
      rw [← hval]
      exact hvB
    rw [hc'] at hvc
    exact cleanBlueprintSelfVariablesOutput_post b0 t hvc

/-- The second `outputs.tf` run is the identity with a clean flag. -/
theorem outputsPass_idem (e b : Bool) (ast : HclFile)
    (hnodup : (outputLabels ast).Nodup) :
    outputsPass e b
        ((mapBlocks genericBlockPass (outputsPass e b ast).1).1) =
      ((mapBlocks genericBlockPass (outputsPass e b ast).1).1, false) := by
  have hsp : mapSpecials e b
      ((mapBlocks genericBlockPass (outputsPass e b ast).1).1) =
      ((mapBlocks genericBlockPass (outputsPass e b ast).1).1, false) := by
    rw [mapSpecials_eq]
    refine mapBlocks_inert _ _ ?_
    intro blk hblk
    obtain ⟨-, hsafe, henv, hbs⟩ :=
      outputs_final_blocks e b ast hnodup blk hblk
    cases hl : blk.labels.head? with
    | none => exact outputsSpecialOne_nolabel e b blk hl
    | some n =>
      by_cases htyp : blk.typ = "output"
      · by_cases h1 : e = true ∧ n = "cloud_tags"
        · rw [outputsSpecialOne_env e b blk n hl htyp h1]
          exact cleanCloudTagsOutput_inert blk
            (fun t hv => henv n hl htyp h1 t hv)
        · by_cases h2 : b = true ∧ n = "variables"
          · rw [outputsSpecialOne_bs e b blk n hl htyp h1 h2]
            exact cleanBlueprintSelfVariablesOutput_inert blk
              (fun t hv => hbs n hl htyp h2 t hv)
          · exact outputsSpecialOne_nonspecial e b blk n hl htyp
              (by rintro (hc | hc); exacts [h1 hc, h2 hc])
      · exact outputsSpecialOne_nonout e b blk n hl htyp
  have hcoll : collectOutputsToRemove e b
      ((mapBlocks genericBlockPass (outputsPass e b ast).1).1) = [] := by
    rw [collectOutputsToRemove_eq]
    refine collectAll_nil e b _ ?_
    intro i hi
    cases i with
    | attr m t => exact outContrib_attr e b m t
    | block blk =>
      obtain ⟨-, hsafe, -, -⟩ :=
        outputs_final_blocks e b ast hnodup blk hi
      cases hl : blk.labels.head? with
      | none => exact outContrib_nolabel e b blk hl
      | some n =>
        by_cases htyp : blk.typ = "output"
        · by_cases hsp2 : (e = true ∧ n = "cloud_tags") ∨
              (b = true ∧ n = "variables")
          · exact outContrib_special e b blk n hl htyp hsp2
          · cases hv : getAttr blk.body "value" with
            | none => exact outContrib_noval e b blk n hl htyp hsp2 hv
            | some t =>
              rw [outContrib_block e b blk n t hl htyp hsp2 hv]
              have hfil : t.filter tokenTriggers = [] := by
                rw [List.filter_eq_nil_iff]
                intro tok htok
                simp [hsafe n hl htyp hsp2 t hv tok htok]
              rw [hfil]
              rfl
        · exact outContrib_nonout e b blk n hl htyp
  simp only [outputsPass] at hsp hcoll ⊢
  rw [hsp, hcoll]
  rfl

/-! ### Idempotence of the state and input-JSON passes -/

theorem cleanInst_eq_mod (l : List (Option String))
    (hlen : (l.filter fun d => !depIsScratch d).length ≠ l.length) :
    cleanInst (TfInst.obj (some l)) =
      (TfInst.obj (if (l.filter fun d => !depIsScratch d).isEmpty then none
        else some (l.filter fun d => !depIsScratch d)), true) := by
  simp only [cleanInst]
  exact if_pos hlen

theorem cleanInst_eq_keep (l : List (Option String))
    (hlen : ¬ (l.filter fun d => !depIsScratch d).length ≠ l.length) :
    cleanInst (TfInst.obj (some l)) = (TfInst.obj (some l), false) := by
  simp only [cleanInst]
  exact if_neg hlen

theorem cleanInst_idem (i : TfInst) :
    cleanInst (cleanInst i).1 = ((cleanInst i).1, false) := by
  cases i with
  | nonObj r => rfl
  | obj deps =>
    cases deps with
    | none => rfl
    | some l =>
      by_cases hlen : (l.filter fun d => !depIsScratch d).length ≠ l.length
      · rw [cleanInst_eq_mod l hlen]
        by_cases hemp : (l.filter fun d => !depIsScratch d).isEmpty = true
        · rw [if_pos hemp]
          rfl
        · rw [if_neg hemp]
          refine cleanInst_eq_keep _ ?_
          intro hc
          apply hc
          refine congrArg List.length ?_
          refine List.filter_eq_self.2 ?_
          intro x hx
          exact (List.mem_filter.1 hx).2
      · rw [cleanInst_eq_keep l hlen]
        exact cleanInst_eq_keep l hlen

theorem cleanResInstances_idem (insts : Option (List TfInst)) :
    cleanResInstances (cleanResInstances insts).1 =
      ((cleanResInstances insts).1, false) := by
  cases insts with
  | none => rfl
  | some l =>
    show (some ((((l.map cleanInst).map Prod.fst).map cleanInst).map
        Prod.fst),
      (((l.map cleanInst).map Prod.fst).map cleanInst).any Prod.snd) =
      (some ((l.map cleanInst).map Prod.fst), false)
    have h1 : (((l.map cleanInst).map Prod.fst).map cleanInst).map
        Prod.fst = (l.map cleanInst).map Prod.fst := by
      rw [List.map_map, List.map_map, List.map_map, List.map_map]
      refine List.map_congr_left ?_
      intro x _
      show (cleanInst (cleanInst x).1).1 = (cleanInst x).1
      rw [cleanInst_idem x]
    have h2 : (((l.map cleanInst).map Prod.fst).map cleanInst).any
        Prod.snd = false := by
      rw [List.any_eq_false]
      intro p hp
      obtain ⟨y, hy, hyp⟩ := List.mem_map.1 hp
      obtain ⟨x, hx, hxy⟩ := List.mem_map.1 hy
      rw [← hyp, ← hxy]
      obtain ⟨x0, _, hx0x⟩ := List.mem_map.1 hx
      rw [← hx0x, cleanInst_idem x0]
      simp
    rw [h1, h2]

theorem cleanResources_cons_nonMap (raw : String)
    (rest : List TfResource) :
    cleanResources (TfResource.nonMap raw :: rest) =
      cleanResources rest := rfl

theorem cleanResources_cons_scratch (t m n : String)
    (insts : Option (List TfInst)) (rest : List TfResource)
    (h : (t == "scratch_string" || t == "scratch_number") = true) :
    cleanResources (TfResource.res t m n insts :: rest) =
      ((cleanResources rest).1, true) := by
  show (if (t == "scratch_string" || t == "scratch_number") = true
      then ((cleanResources rest).1, true)
      else (TfResource.res t m n (cleanResInstances insts).1 ::
        (cleanResources rest).1,
        (cleanResInstances insts).2 || (cleanResources rest).2)) =
    ((cleanResources rest).1, true)
  exact if_pos h

theorem cleanResources_cons_res (t m n : String)
    (insts : Option (List TfInst)) (rest : List TfResource)
    (h : ¬ (t == "scratch_string" || t == "scratch_number") = true) :
    cleanResources (TfResource.res t m n insts :: rest) =
      (TfResource.res t m n (cleanResInstances insts).1 ::
        (cleanResources rest).1,
        (cleanResInstances insts).2 || (cleanResources rest).2) := by
  show (if (t == "scratch_string" || t == "scratch_number") = true
      then ((cleanResources rest).1, true)
      else (TfResource.res t m n (cleanResInstances insts).1 ::
        (cleanResources rest).1,
        (cleanResInstances insts).2 || (cleanResources rest).2)) = _
  exact if_neg h

theorem cleanResources_idem (rs : List TfResource) :
    cleanResources (cleanResources rs).1 = ((cleanResources rs).1, false)
    := by
  induction rs with
  | nil => rfl
  | cons r rest ih =>
    cases r with
    | nonMap raw =>
      rw [cleanResources_cons_nonMap]
      exact ih
    | res t m n insts =>
      by_cases hscr : (t == "scratch_string" || t == "scratch_number")
          = true
      · rw [cleanResources_cons_scratch t m n insts rest hscr]
        exact ih
      · rw [cleanResources_cons_res t m n insts rest hscr]
        show cleanResources (TfResource.res t m n (cleanResInstances
          insts).1 :: (cleanResources rest).1) = _
        rw [cleanResources_cons_res t m n (cleanResInstances insts).1 _
          hscr, cleanResInstances_idem insts, ih]
        rfl

theorem cleanTfState_none_set (s : TfState) (hres : s.resources = none)
    (hv : (!s.hasVersion) = true) :
    cleanTfState s = ⟨true, s.hasTfVersion || !s.hasVersion, none⟩ := by
  unfold cleanTfState
  rw [hres]
  exact if_pos hv

theorem cleanTfState_none_keep (s : TfState) (hres : s.resources = none)
    (hv : ¬ (!s.hasVersion) = true) : cleanTfState s = s := by
  unfold cleanTfState
  rw [hres]
  exact if_neg hv

theorem cleanTfState_some_set (s : TfState) (rs : List TfResource)
    (hres : s.resources = some rs)
    (hmod : (!s.hasVersion || (cleanResources rs).2) = true) :
    cleanTfState s = ⟨true, s.hasTfVersion || !s.hasVersion,
      some (cleanResources rs).1⟩ := by
  unfold cleanTfState
  rw [hres]
  exact if_pos hmod

theorem cleanTfState_some_keep (s : TfState) (rs : List TfResource)
    (hres : s.resources = some rs)
    (hmod : ¬ (!s.hasVersion || (cleanResources rs).2) = true) :
    cleanTfState s = s := by
  unfold cleanTfState
  rw [hres]
  exact if_neg hmod

theorem cleanTfState_idem (s : TfState) :
    cleanTfState (cleanTfState s) = cleanTfState s := by
  cases hres : s.resources with
  | none =>
    by_cases hv : (!s.hasVersion) = true
    · rw [cleanTfState_none_set s hres hv]
      refine cleanTfState_none_keep _ rfl ?_
      simp
    · rw [cleanTfState_none_keep s hres hv]
      exact cleanTfState_none_keep s hres hv
  | some rs =>
    by_cases hmod : (!s.hasVersion || (cleanResources rs).2) = true
    · rw [cleanTfState_some_set s rs hres hmod]
      refine cleanTfState_some_keep _ (cleanResources rs).1 rfl ?_
      rw [cleanResources_idem rs]
      simp
    · rw [cleanTfState_some_keep s rs hres hmod]
      exact cleanTfState_some_keep s rs hres hmod

theorem cleanInputFile_none (f : InputFile) (h : f.localsMap = none) :
    cleanInputFile f = f := by
  unfold cleanInputFile
  rw [h]

theorem cleanInputFile_clean (entries : List (String × LocalsVal))
    (h : entries.any inputEntryDirty = false) :
    cleanInputFile ⟨some entries⟩ = ⟨some entries⟩ := by
  simp only [cleanInputFile]
  rw [h]
  simp

theorem cleanInputFile_dirty (entries : List (String × LocalsVal))
    (h : entries.any inputEntryDirty = true) :
    cleanInputFile ⟨some entries⟩ = ⟨some (entries.map (fun kv =>
      if ("input_".toList).isPrefixOf kv.1.toList then
        match kv.2 with
        | LocalsVal.obj o =>
          (kv.1, LocalsVal.obj ⟨false, false, false, o.rest⟩)
        | v => (kv.1, v)
      else kv))⟩ := by
  simp only [cleanInputFile]
  rw [h]
  simp

theorem cleanInputFile_idem (f : InputFile) :
    cleanInputFile (cleanInputFile f) = cleanInputFile f := by
  obtain ⟨lm⟩ := f
  cases lm with
  | none =>
    have h : cleanInputFile ⟨none⟩ = ⟨none⟩ := cleanInputFile_none _ rfl
    rw [h, h]
  | some entries =>
    by_cases hd : entries.any inputEntryDirty = true
    · rw [cleanInputFile_dirty entries hd]
      refine cleanInputFile_clean _ ?_
      rw [List.any_eq_false]
      intro kv hkv
      obtain ⟨kv0, hkv0, hmap⟩ := List.mem_map.1 hkv
      rw [← hmap]
      by_cases hpre : (("input_".toList).isPrefixOf kv0.1.toList) = true
      · rw [if_pos hpre]
        cases hv2 : kv0.2 with
        | obj o => simp [inputEntryDirty]
        | nonObj raw => simp [inputEntryDirty]
      · rw [if_neg hpre]
        simp only [inputEntryDirty]
        intro hc
        rw [Bool.and_eq_true] at hc
        exact hpre hc.1
    · have hd' : entries.any inputEntryDirty = false := by
        cases hcase : entries.any inputEntryDirty with
        | false => rfl
        | true => exact absurd hcase hd
      rw [cleanInputFile_clean entries hd']
      exact cleanInputFile_clean entries hd'

/-! ### The per-file switch of `cleanupTerraformFiles`, named -/

/-- The filename switch of `cleanupTfFile`, extracted (definitionally
equal to its `switched` stage). -/
def swPass (p : List String) (ast : HclFile) : HclFile × Bool :=
  if lastName p = "main.tf" then
    if charsHave (pathChars p) "level2" then mapBlocks cleanupL2Module ast
    else
      ((removeVarBlocksBy rootMainVarNames
        (mapBlocks cleanupRootMainBlock ast).1).1,
       (mapBlocks cleanupRootMainBlock ast).2 ||
        (removeVarBlocksBy rootMainVarNames
          (mapBlocks cleanupRootMainBlock ast).1).2)
  else if lastName p = "variables.tf" then
    if charsHave (pathChars p) "/modules/" then
      removeVarBlocksBy moduleScopeVarNames ast
    else if charsHave (pathChars p) "level2" then
      removeVarBlocksBy level2ScopeVarNames ast
    else removeVarBlocksBy rootScopeVarNames ast
  else if lastName p = "cc_metadata.tf" then ([], true)
  else if lastName p = "outputs.tf" then
    outputsPass (charsHave (pathChars p) "/environment/")
      (charsHave (pathChars p) "/blueprint_self/") ast
  else (ast, false)

theorem cleanupTfFile_eq (p : List String) (ast : HclFile) :
    cleanupTfFile p ast =
      (if (((swPass p ast).2 ||
          (mapBlocks genericBlockPass (swPass p ast).1).2) &&
          (mapBlocks genericBlockPass (swPass p ast).1).1.isEmpty) = true
       then none
       else some (mapBlocks genericBlockPass (swPass p ast).1).1) := rfl

theorem cleanupTfFile_survivor (p : List String) (ast a : HclFile)
    (h : cleanupTfFile p ast = some a) :
    a = (mapBlocks genericBlockPass (swPass p ast).1).1 := by
  rw [cleanupTfFile_eq] at h
  by_cases hcond : (((swPass p ast).2 ||
      (mapBlocks genericBlockPass (swPass p ast).1).2) &&
      (mapBlocks genericBlockPass (swPass p ast).1).1.isEmpty) = true
  · rw [if_pos hcond] at h
    cases h
  · rw [if_neg hcond] at h
    exact (Option.some_inj.1 h).symm

theorem cleanupTfFile_of_inert (p : List String) (a : HclFile)
    (hsw : (swPass p a).1 = a)
    (hswnil : a = [] → (swPass p a).2 = false)
    (hgen : mapBlocks genericBlockPass a = (a, false)) :
    cleanupTfFile p a = some a := by
  rw [cleanupTfFile_eq, hsw, hgen]
  have hcond : (((swPass p a).2 || (a, false).2) &&
      (a, false).1.isEmpty) = false := by
    by_cases ha : a = []
    · rw [hswnil ha]
      simp
    · have hne : a.isEmpty = false := by
        cases a with
        | nil => exact absurd rfl ha
        | cons x xs => rfl
      show (((swPass p a).2 || false) && a.isEmpty) = false
      rw [hne]
      simp
  rw [hcond]
  rfl

theorem swPass_l2 (p : List String) (ast : HclFile)
    (h1 : lastName p = "main.tf")
    (h2 : charsHave (pathChars p) "level2" = true) :
    swPass p ast = mapBlocks cleanupL2Module ast := by
  unfold swPass
  rw [if_pos h1, if_pos h2]

theorem swPass_rootmain (p : List String) (ast : HclFile)
    (h1 : lastName p = "main.tf")
    (h2 : ¬ charsHave (pathChars p) "level2" = true) :
    swPass p ast =
      ((removeVarBlocksBy rootMainVarNames
        (mapBlocks cleanupRootMainBlock ast).1).1,
       (mapBlocks cleanupRootMainBlock ast).2 ||
        (removeVarBlocksBy rootMainVarNames
          (mapBlocks cleanupRootMainBlock ast).1).2) := by
  unfold swPass
  rw [if_pos h1, if_neg h2]

theorem swPass_vars_modules (p : List String) (ast : HclFile)
    (h1 : ¬ lastName p = "main.tf") (h2 : lastName p = "variables.tf")
    (h3 : charsHave (pathChars p) "/modules/" = true) :
    swPass p ast = removeVarBlocksBy moduleScopeVarNames ast := by
  unfold swPass
  rw [if_neg h1, if_pos h2, if_pos h3]

theorem swPass_vars_level2 (p : List String) (ast : HclFile)
    (h1 : ¬ lastName p = "main.tf") (h2 : lastName p = "variables.tf")
    (h3 : ¬ charsHave (pathChars p) "/modules/" = true)
    (h4 : charsHave (pathChars p) "level2" = true) :
    swPass p ast = removeVarBlocksBy level2ScopeVarNames ast := by
  unfold swPass
  rw [if_neg h1, if_pos h2, if_neg h3, if_pos h4]

theorem swPass_vars_root (p : List String) (ast : HclFile)
    (h1 : ¬ lastName p = "main.tf") (h2 : lastName p = "variables.tf")
    (h3 : ¬ charsHave (pathChars p) "/modules/" = true)
    (h4 : ¬ charsHave (pathChars p) "level2" = true) :
    swPass p ast = removeVarBlocksBy rootScopeVarNames ast := by
  unfold swPass
  rw [if_neg h1, if_pos h2, if_neg h3, if_neg h4]

theorem swPass_cc (p : List String) (ast : HclFile)
    (h1 : ¬ lastName p = "main.tf") (h2 : ¬ lastName p = "variables.tf")
    (h5 : lastName p = "cc_metadata.tf") :
    swPass p ast = ([], true) := by
  unfold swPass
  rw [if_neg h1, if_neg h2, if_pos h5]

theorem swPass_outputs (p : List String) (ast : HclFile)
    (h1 : ¬ lastName p = "main.tf") (h2 : ¬ lastName p = "variables.tf")
    (h5 : ¬ lastName p = "cc_metadata.tf")
    (h6 : lastName p = "outputs.tf") :
    swPass p ast = outputsPass (charsHave (pathChars p) "/environment/")
      (charsHave (pathChars p) "/blueprint_self/") ast := by
  unfold swPass
  rw [if_neg h1, if_neg h2, if_neg h5, if_pos h6]

theorem swPass_other (p : List String) (ast : HclFile)
    (h1 : ¬ lastName p = "main.tf") (h2 : ¬ lastName p = "variables.tf")
    (h5 : ¬ lastName p = "cc_metadata.tf")
    (h6 : ¬ lastName p = "outputs.tf") :
    swPass p ast = (ast, false) := by
  unfold swPass
  rw [if_neg h1, if_neg h2, if_neg h5, if_neg h6]

/-- Second-run inertness for a `variables.tf` branch. -/
theorem varsClass_idem (p : List String) (pred : String → Bool)
    (a ast6 : HclFile)
    (hbr : ∀ x : HclFile, swPass p x = removeVarBlocksBy pred x)
    (ha : a = (mapBlocks genericBlockPass
      ((removeVarBlocksBy pred ast6).1)).1) :
    cleanupTfFile p a = some a := by
  have hnovar : ∀ i ∈ a, isVarBlockBy pred i = false := by
    intro i hi
    rw [ha] at hi
    exact noVarBlocks_after pred _ i hi
  have hgen : ∀ B : Block, TopItem.block B ∈ a → GenCleanBlock B := by
    intro B hB
    rw [ha] at hB
    exact genClean_of_output _ B hB
  refine cleanupTfFile_of_inert p a ?_ ?_ ?_
  · rw [hbr a, removeVarBlocksBy_inert _ _ hnovar]
  · intro hnil
    rw [hbr a, removeVarBlocksBy_inert _ _ hnovar]
  · exact mapBlocks_gen_inert_of a hgen

/-- One `cleanupTerraformFiles` visit leaves a fixed point: visiting the
written file again writes it back unchanged (and never deletes it),
provided an `outputs.tf` input had pairwise distinct output labels. -/
theorem cleanupTfFile_idem (p : List String) (ast a : HclFile)
    (houts : lastName p = "outputs.tf" → (outputLabels ast).Nodup)
    (h : cleanupTfFile p ast = some a) :
    cleanupTfFile p a = some a := by
  have ha := cleanupTfFile_survivor p ast a h
  by_cases h1 : lastName p = "main.tf"
  · by_cases h2 : charsHave (pathChars p) "level2" = true
    · rw [swPass_l2 p ast h1 h2] at ha
      have hstab : ∀ B : Block, TopItem.block B ∈ a →
          L2Stable B ∧ GenCleanBlock B := by
        intro B hB
        rw [ha] at hB
        exact l2_blocks_stable ast B hB
      refine cleanupTfFile_of_inert p a ?_ ?_ ?_
      · rw [swPass_l2 p a h1 h2]
        exact mapBlocks_inert_fst _ _ (fun B hB =>
          cleanupL2Module_inert_fst B (hstab B hB).1)
      · intro hnil
        rw [swPass_l2 p a h1 h2, hnil]
        rfl
      · exact mapBlocks_gen_inert_of a (fun B hB => (hstab B hB).2)
    · rw [swPass_rootmain p ast h1 h2] at ha
      have hstab : ∀ B : Block, TopItem.block B ∈ a →
          RootMainStable B ∧ GenCleanBlock B := by
        intro B hB
        rw [ha] at hB
        exact rootMain_blocks_stable ast B hB
      have hnovar : ∀ i ∈ a, isVarBlockBy rootMainVarNames i = false := by
        intro i hi
        rw [ha] at hi
        exact noVarBlocks_after rootMainVarNames _ i hi
      have hroot : mapBlocks cleanupRootMainBlock a = (a, false) :=
        mapBlocks_inert _ _ (fun B hB =>
          cleanupRootMainBlock_inert B (hstab B hB).1)
      refine cleanupTfFile_of_inert p a ?_ ?_ ?_
      · rw [swPass_rootmain p a h1 h2, hroot]
        show (removeVarBlocksBy rootMainVarNames a).1 = a
        rw [removeVarBlocksBy_inert _ _ hnovar]
      · intro hnil
        rw [swPass_rootmain p a h1 h2, hroot]
        show (false || (removeVarBlocksBy rootMainVarNames a).2) = false
        rw [removeVarBlocksBy_inert _ _ hnovar]
        rfl
      · exact mapBlocks_gen_inert_of a (fun B hB => (hstab B hB).2)
  · by_cases h2 : lastName p = "variables.tf"
    · by_cases h3 : charsHave (pathChars p) "/modules/" = true
      · rw [swPass_vars_modules p ast h1 h2 h3] at ha
        exact varsClass_idem p moduleScopeVarNames a ast
          (fun x => swPass_vars_modules p x h1 h2 h3) ha
      · by_cases h4 : charsHave (pathChars p) "level2" = true
        · rw [swPass_vars_level2 p ast h1 h2 h3 h4] at ha
          exact varsClass_idem p level2ScopeVarNames a ast
            (fun x => swPass_vars_level2 p x h1 h2 h3 h4) ha
        · rw [swPass_vars_root p ast h1 h2 h3 h4] at ha
          exact varsClass_idem p rootScopeVarNames a ast
            (fun x => swPass_vars_root p x h1 h2 h3 h4) ha
    · by_cases h5 : lastName p = "cc_metadata.tf"
      · exfalso
        have hdel : cleanupTfFile p ast = none := by
          rw [cleanupTfFile_eq, swPass_cc p ast h1 h2 h5]
          rfl
        rw [hdel] at h
        cases h
      · by_cases h6 : lastName p = "outputs.tf"
        · rw [swPass_outputs p ast h1 h2 h5 h6] at ha
          have hnodup := houts h6
          refine cleanupTfFile_of_inert p a ?_ ?_ ?_
          · rw [swPass_outputs p a h1 h2 h5 h6, ha,
              outputsPass_idem _ _ ast hnodup]
          · intro hnil
            rw [swPass_outputs p a h1 h2 h5 h6, ha,
              outputsPass_idem _ _ ast hnodup]
          · rw [ha]
            exact mapBlocks_gen_inert_of _
              (fun B hB => genClean_of_output _ B hB)
        · rw [swPass_other p ast h1 h2 h5 h6] at ha
          refine cleanupTfFile_of_inert p a ?_ ?_ ?_
          · rw [swPass_other p a h1 h2 h5 h6]
          · intro hnil
            rw [swPass_other p a h1 h2 h5 h6]
          · rw [ha]
            exact mapBlocks_gen_inert_of _
              (fun B hB => genClean_of_output _ B hB)

/-! ### Per-file idempotence of `CleanExportedFiles` -/

/-- The two fix-up steps (5 and 6) that run before `cleanupTfFile`. -/
def tfFixes (p : List String) (ast : HclFile) : HclFile :=
  let ast5 := if isUnder "modules" p && lastName p == "variables.tf" then
      fixVariablesTf ast
    else ast
  if p = ["tfexport", "level2", "main.tf"] then fixLevel2MainTf ast5
  else ast5

/-- The side condition of the amended idempotence claim: an `outputs.tf`
carries pairwise-distinct output labels. -/
def outputsOk (p : List String) (c : Content) : Bool :=
  match c with
  | Content.tf ast =>
    if lastName p = "outputs.tf" then decide (outputLabels ast).Nodup
    else true
  | _ => true

theorem outputsOk_tf (p : List String) (ast : HclFile)
    (hok : outputsOk p (Content.tf ast) = true)
    (hl : lastName p = "outputs.tf") : (outputLabels ast).Nodup := by
  simp only [outputsOk] at hok
  rw [if_pos hl] at hok
  exact of_decide_eq_true hok

theorem cleanFile_earlyA (p : List String) (c : Content)
    (hA : (isUnder "modules" p && (lastName p == "facets.yaml" ||
      lastName p == "resources_gen.tf" ||
      lastName p == "_variables.tf")) = true) :
    cleanFile p c = none := by
  simp only [cleanFile]
  rw [if_pos hA]

theorem cleanFile_earlyB (p : List String) (c : Content)
    (hA : ¬ (isUnder "modules" p && (lastName p == "facets.yaml" ||
      lastName p == "resources_gen.tf" ||
      lastName p == "_variables.tf")) = true)
    (hB : (p.head? == some "tfexport" &&
      p.tail.head? == some "terraform.d") = true) :
    cleanFile p c = none := by
  simp only [cleanFile]
  rw [if_neg hA, if_pos hB]

theorem cleanFile_earlyC (p : List String) (c : Content)
    (hA : ¬ (isUnder "modules" p && (lastName p == "facets.yaml" ||
      lastName p == "resources_gen.tf" ||
      lastName p == "_variables.tf")) = true)
    (hB : ¬ (p.head? == some "tfexport" &&
      p.tail.head? == some "terraform.d") = true)
    (hC : p = ["tfexport", "outputs.tf"]) :
    cleanFile p c = none := by
  simp only [cleanFile]
  rw [if_neg hA, if_neg hB, if_pos hC]

theorem cleanFile_blob (p : List String) (raw : String)
    (hA : ¬ (isUnder "modules" p && (lastName p == "facets.yaml" ||
      lastName p == "resources_gen.tf" ||
      lastName p == "_variables.tf")) = true)
    (hB : ¬ (p.head? == some "tfexport" &&
      p.tail.head? == some "terraform.d") = true)
    (hC : ¬ p = ["tfexport", "outputs.tf"]) :
    cleanFile p (Content.blob raw) = some (Content.blob raw) := by
  simp only [cleanFile]
  rw [if_neg hA, if_neg hB, if_neg hC]

theorem cleanFile_state_dl (p : List String) (s : TfState)
    (hA : ¬ (isUnder "modules" p && (lastName p == "facets.yaml" ||
      lastName p == "resources_gen.tf" ||
      lastName p == "_variables.tf")) = true)
    (hB : ¬ (p.head? == some "tfexport" &&
      p.tail.head? == some "terraform.d") = true)
    (hC : ¬ p = ["tfexport", "outputs.tf"])
    (hD : p = ["tfexport", "downloaded-terraform.tfstate"]) :
    cleanFile p (Content.state s) =
      some (Content.state (cleanTfState s)) := by
  simp only [cleanFile]
  rw [if_neg hA, if_neg hB, if_neg hC]
  exact if_pos hD

theorem cleanFile_state_nodl (p : List String) (s : TfState)
    (hA : ¬ (isUnder "modules" p && (lastName p == "facets.yaml" ||
      lastName p == "resources_gen.tf" ||
      lastName p == "_variables.tf")) = true)
    (hB : ¬ (p.head? == some "tfexport" &&
      p.tail.head? == some "terraform.d") = true)
    (hC : ¬ p = ["tfexport", "outputs.tf"])
    (hD : ¬ p = ["tfexport", "downloaded-terraform.tfstate"]) :
    cleanFile p (Content.state s) = some (Content.state s) := by
  simp only [cleanFile]
  rw [if_neg hA, if_neg hB, if_neg hC]
  exact if_neg hD

theorem cleanFile_input_yes (p : List String) (j : InputFile)
    (hA : ¬ (isUnder "modules" p && (lastName p == "facets.yaml" ||
      lastName p == "resources_gen.tf" ||
      lastName p == "_variables.tf")) = true)
    (hB : ¬ (p.head? == some "tfexport" &&
      p.tail.head? == some "terraform.d") = true)
    (hC : ¬ p = ["tfexport", "outputs.tf"])
    (hD : isInputJsonPath p = true) :
    cleanFile p (Content.inputJson j) =
      some (Content.inputJson (cleanInputFile j)) := by
  simp only [cleanFile]
  rw [if_neg hA, if_neg hB, if_neg hC]
  exact if_pos hD

theorem cleanFile_input_no (p : List String) (j : InputFile)
    (hA : ¬ (isUnder "modules" p && (lastName p == "facets.yaml" ||
      lastName p == "resources_gen.tf" ||
      lastName p == "_variables.tf")) = true)
    (hB : ¬ (p.head? == some "tfexport" &&
      p.tail.head? == some "terraform.d") = true)
    (hC : ¬ p = ["tfexport", "outputs.tf"])
    (hD : ¬ isInputJsonPath p = true) :
    cleanFile p (Content.inputJson j) = some (Content.inputJson j) := by
  simp only [cleanFile]
  rw [if_neg hA, if_neg hB, if_neg hC]
  exact if_neg hD

theorem cleanFile_tf (p : List String) (ast : HclFile)
    (hA : ¬ (isUnder "modules" p && (lastName p == "facets.yaml" ||
      lastName p == "resources_gen.tf" ||
      lastName p == "_variables.tf")) = true)
    (hB : ¬ (p.head? == some "tfexport" &&
      p.tail.head? == some "terraform.d") = true)
    (hC : ¬ p = ["tfexport", "outputs.tf"]) :
    cleanFile p (Content.tf ast) =
      (if ((isUnder "tfexport" p || isUnder "modules" p) &&
          hasTfSuffix (lastName p)) = true then
        (match cleanupTfFile p (tfFixes p ast) with
         | none => none
         | some a => some (Content.tf a))
       else some (Content.tf (tfFixes p ast))) := by
  simp only [cleanFile, tfFixes]
  rw [if_neg hA, if_neg hB, if_neg hC]

theorem tfFixes_off (p : List String) (ast : HclFile)
    (h5 : (isUnder "modules" p && lastName p == "variables.tf") = false)
    (h6 : ¬ p = ["tfexport", "level2", "main.tf"]) :
    tfFixes p ast = ast := by
  simp only [tfFixes]
  rw [h5, if_neg h6]
  rfl

theorem tfFixes_triple (ast : HclFile) :
    tfFixes ["tfexport", "level2", "main.tf"] ast =
      fixLevel2MainTf ast := by
  simp only [tfFixes]
  rw [show (isUnder "modules" ["tfexport", "level2", "main.tf"] &&
    lastName ["tfexport", "level2", "main.tf"] == "variables.tf") = false
    from by decide]
  simp

theorem tfFixes_mv (p : List String) (ast : HclFile)
    (h5 : (isUnder "modules" p && lastName p == "variables.tf") = true) :
    tfFixes p ast = fixVariablesTf ast := by
  have h6 : ¬ p = ["tfexport", "level2", "main.tf"] := by
    intro hc
    rw [hc] at h5
    exact absurd h5 (by decide)
  simp only [tfFixes]
  rw [h5, if_neg h6]
  rfl

theorem tfFixes_gate_false (p : List String) (ast : HclFile)
    (hgate : ¬ ((isUnder "tfexport" p || isUnder "modules" p) &&
      hasTfSuffix (lastName p)) = true) : tfFixes p ast = ast := by
  have h5 : (isUnder "modules" p && lastName p == "variables.tf")
      = false := by
    cases hcase : (isUnder "modules" p && lastName p == "variables.tf") with
    | false => rfl
    | true =>
      exfalso
      apply hgate
      rw [Bool.and_eq_true] at hcase
      rw [Bool.and_eq_true]
      constructor
      · rw [Bool.or_eq_true]
        exact Or.inr hcase.1
      · have hl : lastName p = "variables.tf" := by simpa using hcase.2
        rw [hl]
        decide
  have h6 : ¬ p = ["tfexport", "level2", "main.tf"] := by
    intro hc
    apply hgate
    rw [hc]
    decide
  exact tfFixes_off p ast h5 h6

theorem tfFixes_outputs (p : List String) (ast : HclFile)
    (h6 : lastName p = "outputs.tf") : tfFixes p ast = ast := by
  have h5 : (isUnder "modules" p && lastName p == "variables.tf")
      = false := by
    rw [h6]
    simp
  have h6' : ¬ p = ["tfexport", "level2", "main.tf"] := by
    intro hc
    rw [hc] at h6
    exact absurd h6 (by decide)
  exact tfFixes_off p ast h5 h6'

theorem vars_hasRequired (pred : String → Bool) (ast6 : HclFile)
    (n : String) (hp : pred n = false)
    (hreq : hasVarBlock ast6 n = true) :
    hasVarBlock ((mapBlocks genericBlockPass
      ((removeVarBlocksBy pred ast6).1)).1) n = true := by
  refine hasVarBlock_mapBlocks _ genericBlockPass_shape _ n ?_
  exact hasVarBlock_removeVarBlocksBy pred ast6 n hp hreq

/-- A file written by one `CleanExportedFiles` run is a fixed point of
the next run, provided an `outputs.tf` input had distinct output
labels. -/
theorem cleanFile_idem (p : List String) (c c' : Content)
    (houts : outputsOk p c = true)
    (h : cleanFile p c = some c') :
    cleanFile p c' = some c' := by
  by_cases hA : (isUnder "modules" p && (lastName p == "facets.yaml" ||
      lastName p == "resources_gen.tf" ||
      lastName p == "_variables.tf")) = true
  · rw [cleanFile_earlyA p c hA] at h
    cases h
  by_cases hB : (p.head? == some "tfexport" &&
      p.tail.head? == some "terraform.d") = true
  · rw [cleanFile_earlyB p c hA hB] at h
    cases h
  by_cases hC : p = ["tfexport", "outputs.tf"]
  · rw [cleanFile_earlyC p c hA hB hC] at h
    cases h
  cases c with
  | blob raw =>
    rw [cleanFile_blob p raw hA hB hC] at h
    injection h with h2
    rw [← h2]
    exact cleanFile_blob p raw hA hB hC
  | state s =>
    by_cases hD : p = ["tfexport", "downloaded-terraform.tfstate"]
    · rw [cleanFile_state_dl p s hA hB hC hD] at h
      injection h with h2
      rw [← h2, cleanFile_state_dl p _ hA hB hC hD, cleanTfState_idem s]
    · rw [cleanFile_state_nodl p s hA hB hC hD] at h
      injection h with h2
      rw [← h2]
      exact cleanFile_state_nodl p s hA hB hC hD
  | inputJson j =>
    by_cases hD : isInputJsonPath p = true
    · rw [cleanFile_input_yes p j hA hB hC hD] at h
      injection h with h2
      rw [← h2, cleanFile_input_yes p _ hA hB hC hD,
        cleanInputFile_idem j]
    · rw [cleanFile_input_no p j hA hB hC hD] at h
      injection h with h2
      rw [← h2]
      exact cleanFile_input_no p j hA hB hC hD
  | tf ast =>
    rw [cleanFile_tf p ast hA hB hC] at h
    by_cases hgate : ((isUnder "tfexport" p || isUnder "modules" p) &&
        hasTfSuffix (lastName p)) = true
    · rw [if_pos hgate] at h
      cases hct : cleanupTfFile p (tfFixes p ast) with
      | none =>
        rw [hct] at h
        cases h
      | some a =>
        rw [hct] at h
        injection h with h2
        rw [← h2]
        rw [cleanFile_tf p a hA hB hC, if_pos hgate]
        by_cases hp6 : p = ["tfexport", "level2", "main.tf"]
        · subst hp6
          rw [tfFixes_triple ast] at hct
          have ha := cleanupTfFile_survivor _ _ a hct
          rw [swPass_l2 _ _ (by decide) (by decide)] at ha
          have hfix : fixLevel2MainTf a = a := by
            refine fixLevel2MainTf_inert a ?_
            intro B hB
            rw [ha] at hB
            exact (l2_canonical_blocks ast B hB).1
          have h2nd : cleanupTfFile ["tfexport", "level2", "main.tf"] a =
              some a :=
            cleanupTfFile_idem _ _ a (fun hc => absurd hc (by decide)) hct
          rw [tfFixes_triple a, hfix, h2nd]
        · by_cases h5 : (isUnder "modules" p &&
              lastName p == "variables.tf") = true
          · have hlast : lastName p = "variables.tf" := by
              have h5b := h5
              rw [Bool.and_eq_true] at h5b
              simpa using h5b.2
            have h1' : ¬ lastName p = "main.tf" := by
              rw [hlast]
              decide
            rw [tfFixes_mv p ast h5] at hct
            have h2nd : cleanupTfFile p a = some a := by
              refine cleanupTfFile_idem p _ a ?_ hct
              intro hc
              rw [hlast] at hc
              exact absurd hc (by decide)
            have ha := cleanupTfFile_survivor _ _ a hct
            have hform : ∃ pred : String → Bool,
                (∀ m ∈ requiredVarNames, pred m = false) ∧
                a = (mapBlocks genericBlockPass
                  ((removeVarBlocksBy pred (fixVariablesTf ast)).1)).1 := by
              by_cases h3 : charsHave (pathChars p) "/modules/" = true
              · refine ⟨moduleScopeVarNames, by decide, ?_⟩
                rw [swPass_vars_modules p _ h1' hlast h3] at ha
                exact ha
              · by_cases h4 : charsHave (pathChars p) "level2" = true
                · refine ⟨level2ScopeVarNames, by decide, ?_⟩
                  rw [swPass_vars_level2 p _ h1' hlast h3 h4] at ha
                  exact ha
                · refine ⟨rootScopeVarNames, by decide, ?_⟩
                  rw [swPass_vars_root p _ h1' hlast h3 h4] at ha
                  exact ha
            obtain ⟨pred, hpred, hform⟩ := hform
            have hfix : fixVariablesTf a = a := by
              refine fixVariablesTf_inert a ?_
              intro n hn
              rw [hform]
              exact vars_hasRequired pred _ n (hpred n hn)
                (fixVariablesTf_post ast n hn)
            rw [tfFixes_mv p a h5, hfix, h2nd]
          · have h5' : (isUnder "modules" p &&
                lastName p == "variables.tf") = false := by
              cases hcase : (isUnder "modules" p &&
                  lastName p == "variables.tf") with
              | false => rfl
              | true => exact absurd hcase h5
            rw [tfFixes_off p ast h5' hp6] at hct
            have h2nd : cleanupTfFile p a = some a := by
              refine cleanupTfFile_idem p ast a ?_ hct
              intro hc
              exact outputsOk_tf p ast houts hc
            rw [tfFixes_off p a h5' hp6, h2nd]
    · rw [if_neg hgate] at h
      injection h with h2
      rw [← h2]
      rw [cleanFile_tf p _ hA hB hC, if_neg hgate,
        tfFixes_gate_false p ast hgate, tfFixes_gate_false p _ hgate]

/-- Tree-level idempotence of `CleanExportedFiles` under the
distinct-output-labels side condition. -/
theorem CleanExportedFiles_idem (t : ConfigTree)
    (h : ∀ pc ∈ t, outputsOk pc.1 pc.2 = true) :
    CleanExportedFiles (CleanExportedFiles t) = CleanExportedFiles t := by
  induction t with
  | nil => rfl
  | cons pc rest ih =>
    have hrest := ih (fun x hx => h x (List.mem_cons_of_mem _ hx))
    have hpc := h pc (List.mem_cons_self _ _)
    cases hc : cleanFile pc.1 pc.2 with
    | none =>
      have e1 : CleanExportedFiles (pc :: rest) =
          CleanExportedFiles rest := by
        simp [CleanExportedFiles, List.filterMap_cons, hc]
      rw [e1, hrest]
    | some c' =>
      have e1 : CleanExportedFiles (pc :: rest) =
          (pc.1, c') :: CleanExportedFiles rest := by
        simp [CleanExportedFiles, List.filterMap_cons, hc]
      rw [e1]
      have hc2 : cleanFile pc.1 c' = some c' :=
        cleanFile_idem pc.1 pc.2 c' hpc hc
      have e2 : CleanExportedFiles ((pc.1, c') ::
          CleanExportedFiles rest) =
          (pc.1, c') :: CleanExportedFiles (CleanExportedFiles rest) := by
        simp [CleanExportedFiles, List.filterMap_cons, hc2]
      rw [e2, hrest]

/-! ### The per-block computation on `tfexport/level2/main.tf` -/

/-- The per-item action of a run on `tfexport/level2/main.tf`. -/
def l2Item (i : TopItem) : TopItem :=
  match i with
  | TopItem.block b => TopItem.block (l2BlockPipeline b)
  | TopItem.attr n tk => TopItem.attr n tk

theorem cleanupTfFile_some_of_ne (p : List String) (ast : HclFile)
    (hne : (mapBlocks genericBlockPass (swPass p ast).1).1 ≠ []) :
    cleanupTfFile p ast =
      some (mapBlocks genericBlockPass (swPass p ast).1).1 := by
  rw [cleanupTfFile_eq]
  have hemp : (mapBlocks genericBlockPass (swPass p ast).1).1.isEmpty
      = false := by
    cases hcase : (mapBlocks genericBlockPass (swPass p ast).1).1 with
    | nil => exact absurd hcase hne
    | cons x xs => rfl
  rw [hemp, Bool.and_false]
  rfl

/-- What one full run does to the canonical `tfexport/level2/main.tf`. -/
theorem cleanFile_level2_canonical (ast : HclFile) (hne : ast ≠ []) :
    cleanFile ["tfexport", "level2", "main.tf"] (Content.tf ast) =
      some (Content.tf (ast.map l2Item)) := by
  rw [cleanFile_tf _ _ (by decide) (by decide) (by decide),
    if_pos (by decide), tfFixes_triple ast]
  have hmap : (mapBlocks genericBlockPass
      (swPass ["tfexport", "level2", "main.tf"]
        (fixLevel2MainTf ast)).1).1 = ast.map l2Item := by
    rw [swPass_l2 _ _ (by decide) (by decide), mapBlocks_fst,
      mapBlocks_fst]
    unfold fixLevel2MainTf
    rw [List.map_map, List.map_map]
    refine List.map_congr_left ?_
    intro i _
    cases i with
    | attr n tk => rfl
    | block b => rfl
  rw [cleanupTfFile_some_of_ne _ _ (by
    rw [hmap]
    intro hc
    exact hne (List.map_eq_nil_iff.1 hc)), hmap]

theorem getAttr_filter_keepAllowed (body : List BItem) (n : String)
    (hn : allowedLevel2Attrs.contains n = true) :
    getAttr (body.filter keepAllowed) n = getAttr body n := by
  induction body with
  | nil => rfl
  | cons i rest ih =>
    cases i with
    | attr m tk =>
      by_cases hm : m = n
      · subst hm
        rw [List.filter_cons_of_pos (by
          simp only [keepAllowed]
          exact hn)]
        simp [getAttr]
      · by_cases hk : keepAllowed (BItem.attr m tk) = true
        · rw [List.filter_cons_of_pos hk]
          simp only [getAttr, if_neg hm]
          exact ih
        · rw [List.filter_cons_of_neg (by simp [hk])]
          rw [ih]
          simp only [getAttr, if_neg hm]
    | sub r =>
      rw [List.filter_cons_of_pos (show keepAllowed (BItem.sub r) = true
        from rfl)]
      simp only [getAttr]
      exact ih

theorem fixL2Block_eq (b : Block) (htyp : b.typ = "module")
    (hns : ¬ (moduleName b = "blueprint_self" ∨
      moduleName b = "environment")) :
    fixL2Block b = ⟨b.typ, b.labels, addAttrsFold moduleVarDefault
      requiredModuleVars (b.body.filter keepAllowed)⟩ := by
  unfold fixL2Block
  rw [if_neg (fun hc => hc htyp), if_neg hns]

theorem cleanupL2Module_inputs (b : Block) (htyp : b.typ = "module")
    (hbs : ¬ moduleName b = "blueprint_self") (T : List String)
    (hv : getAttr b.body "inputs" = some T)
    (htrig : (T.contains "deployment_id" || decide (T.length ≤ 3))
      = true) :
    getAttr (cleanupL2Module b).1.body "inputs" = some ["\x7b", "\x7d"] := by
  unfold cleanupL2Module
  rw [if_neg (fun hc => hc htyp), if_neg hbs]
  have h1 : getAttr (removeAttrsFold attributesToCleanL2
      (b.body, false)).1 "inputs" = some T := by
    rw [removeAttrsFold_other _ _ _ (by decide)]
    exact hv
  have h2 : getAttr (dropEmptyAttr "providers" (removeAttrsFold
      attributesToCleanL2 (b.body, false))).1 "inputs" = some T := by
    rw [dropEmptyAttr_preserve _ _ _ (by decide)]
    exact h1
  rw [forceInputs_set_some _ T h2 htrig]
  exact getAttr_setAttrRaw_self _ _ _

/-- The level2 pipeline on a `db`-like module block: `inputs` forced to
`{}` and a missing `cluster` filled with `var.cluster`. -/
theorem l2BlockPipeline_db (db : Block) (htyp : db.typ = "module")
    (hlab : db.labels.head? = some "db")
    (hinp : getAttr db.body "inputs" =
      some ["\x7b", "deployment_id", "=", "var", ".", "deployment_id", "\x7d"])
    (hclu : getAttr db.body "cluster" = none) :
    getAttr (l2BlockPipeline db).body "inputs" = some ["\x7b", "\x7d"] ∧
    getAttr (l2BlockPipeline db).body "cluster" =
      some ["var", ".", "cluster"] := by
  have hname : moduleName db = "db" := by
    unfold moduleName
    rw [hlab]
    rfl
  have hns : ¬ (moduleName db = "blueprint_self" ∨
      moduleName db = "environment") := by
    rw [hname]
    rintro (hc | hc) <;> exact absurd hc (by decide)
  have hfix := fixL2Block_eq db htyp hns
  have hfixtyp : (fixL2Block db).typ = "module" := by
    rw [hfix]
    exact htyp
  have hfixbs : ¬ moduleName (fixL2Block db) = "blueprint_self" := by
    unfold moduleName
    rw [hfix]
    show ¬ (db.labels.head?).getD "" = "blueprint_self"
    rw [hlab]
    decide
  have hfixinp : getAttr (fixL2Block db).body "inputs" =
      some ["\x7b", "deployment_id", "=", "var", ".", "deployment_id", "\x7d"]
      := by
    rw [hfix]
    show getAttr (addAttrsFold moduleVarDefault requiredModuleVars
      (db.body.filter keepAllowed)) "inputs" = _
    refine addAttrsFold_mono_some _ _ _ _ _ ?_
    rw [getAttr_filter_keepAllowed _ _ (by decide)]
    exact hinp
  have hfixclu : getAttr (fixL2Block db).body "cluster" =
      some ["var", ".", "cluster"] := by
    rw [hfix]
    show getAttr (addAttrsFold moduleVarDefault requiredModuleVars
      (db.body.filter keepAllowed)) "cluster" = _
    rw [addAttrsFold_new _ _ _ _ (by decide) (by decide) (by
      rw [getAttr_filter_keepAllowed _ _ (by decide)]
      exact hclu)]
    rfl
  constructor
  · unfold l2BlockPipeline
    rw [genericBlockPass_preserve _ "inputs" (by decide) (by decide)]
    exact cleanupL2Module_inputs _ hfixtyp hfixbs _ hfixinp (by decide)
  · unfold l2BlockPipeline
    rw [genericBlockPass_preserve _ "cluster" (by decide) (by decide),
      cleanupL2Module_preserve _ _ (by decide) (by decide) (by decide)]
    exact hfixclu

/-- The level2 pipeline leaves a platform-attribute-free
`blueprint_self` module block untouched. -/
theorem l2BlockPipeline_bs (bs : Block) (htyp : bs.typ = "module")
    (hlab : bs.labels.head? = some "blueprint_self")
    (hattrs : ∀ n ∈ moduleAttrsToRemove, getAttr bs.body n = none) :
    l2BlockPipeline bs = bs := by
  have hname : moduleName bs = "blueprint_self" := by
    unfold moduleName
    rw [hlab]
    rfl
  unfold l2BlockPipeline
  have hfix : fixL2Block bs = bs := by
    unfold fixL2Block
    rw [if_neg (fun hc => hc htyp), if_pos (Or.inl hname)]
  have hclean : (cleanupL2Module bs).1 = bs := by
    unfold cleanupL2Module
    rw [if_neg (fun hc => hc htyp), if_pos hname]
  rw [hfix, hclean, genericBlockPass_inert bs
    ⟨hattrs "cc_metadata" (by decide), fun _ n hn => hattrs n hn⟩]

/-! ### Claim C1 — sanitization idempotence -/

/-- An `outputs.tf` with two output blocks sharing the label `"a"`:
only the second one references `cc_metadata`. -/
def c1Tree : ConfigTree :=
  [(["tfexport", "x", "outputs.tf"], Content.tf
    [TopItem.block ⟨"output", ["a"], [BItem.attr "value" ["1"]]⟩,
     TopItem.block ⟨"output", ["a"],
       [BItem.attr "value" ["var", ".", "cc_metadata"]]⟩])]

/-- C1, counterexample.  `CleanExportedFiles` is not idempotent: on an
`outputs.tf` holding two output blocks that share one name, of which only
the second references a removed symbol, the removal loop collects the
shared name once but `Body.RemoveBlock` drops the first block carrying
it, so the triggering block survives the first run; the second run then
removes it and, the file having become empty while flagged modified,
deletes the file — the tree after two runs differs from the tree after
one. -/
theorem claim_C1_counterexample :
    CleanExportedFiles (CleanExportedFiles c1Tree) ≠
      CleanExportedFiles c1Tree := by
  decide

/-- C1, amended.  The Sanitization Engine is idempotent on every
ConfigTree in which each `outputs.tf` declares pairwise-distinct output
names: a second `CleanExportedFiles` run on the once-sanitized tree
rewrites no file, deletes no file and creates no file — the tree is
byte-identical.  (With a duplicated output name the removal-by-name loop
of the outputs pass can remove the wrong block, breaking idempotence, as
the counterexample shows.) -/
theorem claim_C1_amended (t : ConfigTree)
    (h : ∀ pc ∈ t, outputsOk pc.1 pc.2 = true) :
    CleanExportedFiles (CleanExportedFiles t) = CleanExportedFiles t :=
  CleanExportedFiles_idem t h

/-- A mixed tree: a level2 `main.tf` needing fixes, an `outputs.tf` with
distinct labels of which one output is removed, and an unrecognized
file. -/
def c1WitTree : ConfigTree :=
  [(["tfexport", "level2", "main.tf"], Content.tf
     [TopItem.block ⟨"module", ["db"],
       [BItem.attr "source" ["\"", "./db", "\""],
        BItem.attr "inputs" ["\x7b", "deployment_id", "=", "var", ".",
          "deployment_id", "\x7d"]]⟩]),
   (["tfexport", "x", "outputs.tf"], Content.tf
     [TopItem.block ⟨"output", ["a"],
       [BItem.attr "value" ["var", ".", "cc_metadata"]]⟩,
      TopItem.block ⟨"output", ["b"], [BItem.attr "value" ["1"]]⟩]),
   (["readme.md"], Content.blob "hello")]

/-- C1, witness: the amended idempotence at a concrete tree whose
`outputs.tf` labels are distinct. -/
theorem claim_C1_witness :
    (∀ pc ∈ c1WitTree, outputsOk pc.1 pc.2 = true) ∧
    CleanExportedFiles (CleanExportedFiles c1WitTree) =
      CleanExportedFiles c1WitTree :=
  ⟨by decide, claim_C1_amended c1WitTree (by decide)⟩

/-! ### Claim C7 — the level2 `main.tf` db / blueprint_self example -/

/-- A `module "db"` block whose only inputs entry is
`deployment_id = var.deployment_id` and which has no `cluster`
attribute. -/
def c7DbBlock : Block :=
  ⟨"module", ["db"],
    [BItem.attr "source" ["\"", "./db", "\""],
     BItem.attr "inputs" ["\x7b", "deployment_id", "=", "var", ".",
       "deployment_id", "\x7d"]]⟩

/-- A `module "blueprint_self"` block carrying a `cc_metadata`
attribute. -/
def c7BsBlock : Block :=
  ⟨"module", ["blueprint_self"],
    [BItem.attr "source" ["\"", "./bs", "\""],
     BItem.attr "cc_metadata" ["\x7b", "\x7d"]]⟩

/-- C7, counterexample.  The claim's second half fails: a
`blueprint_self` module block is skipped by `fixLevel2MainTf` and by the
level2-specific cleanup, but the generic pass of
`cleanupTerraformFiles` still strips `cc_metadata` from every block, so
a `blueprint_self` block carrying `cc_metadata` is not byte-identical
after sanitization (the `db` half behaves as claimed). -/
theorem claim_C7_counterexample :
    cleanFile ["tfexport", "level2", "main.tf"]
        (Content.tf [TopItem.block c7DbBlock, TopItem.block c7BsBlock]) =
      some (Content.tf [TopItem.block ⟨"module", ["db"],
        [BItem.attr "source" ["\"", "./db", "\""],
         BItem.attr "inputs" ["\x7b", "\x7d"],
         BItem.attr "instance" ["\x7b", "\x7d"],
         BItem.attr "instance_name" ["\"", "\""],
         BItem.attr "cluster" ["var", ".", "cluster"],
         BItem.attr "environment" ["var", ".", "environment"]]⟩,
        TopItem.block ⟨"module", ["blueprint_self"],
          [BItem.attr "source" ["\"", "./bs", "\""]]⟩]) ∧
    (⟨"module", ["blueprint_self"],
      [BItem.attr "source" ["\"", "./bs", "\""]]⟩ : Block) ≠ c7BsBlock :=
  ⟨by decide, by decide⟩

/-- C7, amended.  For every `tfexport/level2/main.tf` holding a module
block named `db` whose only inputs entry is
`deployment_id = var.deployment_id` and which has no `cluster`
attribute, sanitization maps each block through the level2 pipeline; the
`db` block's image has `inputs = {}` and `cluster = var.cluster`, and a
`blueprint_self` module block survives byte-identical provided it
carries none of the platform attributes the generic pass strips
(`cc_metadata` included). -/
theorem claim_C7_amended (ast : HclFile) (db : Block)
    (hdb : TopItem.block db ∈ ast)
    (htyp : db.typ = "module") (hlab : db.labels.head? = some "db")
    (hinp : getAttr db.body "inputs" =
      some ["\x7b", "deployment_id", "=", "var", ".", "deployment_id", "\x7d"])
    (hclu : getAttr db.body "cluster" = none) :
    ∃ out : HclFile,
      cleanFile ["tfexport", "level2", "main.tf"] (Content.tf ast) =
        some (Content.tf out) ∧
      TopItem.block (l2BlockPipeline db) ∈ out ∧
      getAttr (l2BlockPipeline db).body "inputs" = some ["\x7b", "\x7d"] ∧
      getAttr (l2BlockPipeline db).body "cluster" =
        some ["var", ".", "cluster"] ∧
      ∀ bs : Block, TopItem.block bs ∈ ast → bs.typ = "module" →
        bs.labels.head? = some "blueprint_self" →
        (∀ n ∈ moduleAttrsToRemove, getAttr bs.body n = none) →
        TopItem.block bs ∈ out := by
  have hne : ast ≠ [] := by
    intro hc
    rw [hc] at hdb
    cases hdb
  refine ⟨ast.map l2Item, cleanFile_level2_canonical ast hne, ?_, ?_,
    ?_, ?_⟩
  · exact List.mem_map.2 ⟨TopItem.block db, hdb, rfl⟩
  · exact (l2BlockPipeline_db db htyp hlab hinp hclu).1
  · exact (l2BlockPipeline_db db htyp hlab hinp hclu).2
  · intro bs hbs hbt hbl hban
    have hid : l2Item (TopItem.block bs) = TopItem.block bs := by
      simp only [l2Item]
      rw [l2BlockPipeline_bs bs hbt hbl hban]
    rw [← hid]
    exact List.mem_map.2 ⟨TopItem.block bs, hbs, rfl⟩

/-- C7, witness: the amended statement at the concrete two-block
file. -/
theorem claim_C7_witness :
    (TopItem.block c7DbBlock ∈
      [TopItem.block c7DbBlock, TopItem.block c7BsBlock]) ∧
    (∃ out : HclFile,
      cleanFile ["tfexport", "level2", "main.tf"]
        (Content.tf [TopItem.block c7DbBlock, TopItem.block c7BsBlock]) =
        some (Content.tf out) ∧
      TopItem.block (l2BlockPipeline c7DbBlock) ∈ out ∧
      getAttr (l2BlockPipeline c7DbBlock).body "inputs" =
        some ["\x7b", "\x7d"] ∧
      getAttr (l2BlockPipeline c7DbBlock).body "cluster" =
        some ["var", ".", "cluster"] ∧
      ∀ bs : Block, TopItem.block bs ∈
          [TopItem.block c7DbBlock, TopItem.block c7BsBlock] →
        bs.typ = "module" → bs.labels.head? = some "blueprint_self" →
        (∀ n ∈ moduleAttrsToRemove, getAttr bs.body n = none) →
        TopItem.block bs ∈ out) :=
  ⟨by decide, claim_C7_amended _ c7DbBlock (by decide) (by decide)
    (by decide) (by decide) (by decide)⟩

end Fctl
